import Mathlib

/-!
# SOLA time-scale modification: a shallow embedding of `solaapi.c`

The definitions below follow `src/src/solaapi.c` function by function.

* Machine integers are `Nat`/`Int` with the C conversions written out
  (`toU16`, `toU32`, `toI16`).
* The file-scope variable `N` (the frame size) is an explicit first argument,
  and the file-scope variable `lastSampleIndex` is an explicit argument of the
  two private routines and a field of the loop state of `SOLA_TSM`.
* Floating values are rationals and every floating operation is its exact
  result rounded to the format (`f32` for `float`, `f64` for `double`);
  `alpha` is the value of the `float` argument, and the conversions
  `(uint16_t)` / `(uint32_t)` of a floating value truncate.
* The input signal is a pointer with a separate length in C, hence a function
  `Nat → Int` together with `xSize`.  The output buffer is a function
  `Int → Int` indexed from its base address: the C code indexes it with signed
  `int` expressions.
* The floating-point score of the lag search is a `Correlator`: the search and
  the engine are written once for every correlator, and `floatCorrelator` is the
  correlator of the source, the `float` that `SOLA_CrossCorrelation` returns.
-/

namespace Sola

/-! ## Machine integers -/

/-- Conversion to `uint16_t`. -/
def toU16 (v : Int) : Nat := (v % 65536).toNat

/-- Conversion to `uint32_t`. -/
def toU32 (v : Int) : Nat := (v % 4294967296).toNat

/-- Conversion to `int16_t` (two's complement wrap-around). -/
def toI16 (v : Int) : Int := (v + 32768) % 65536 - 32768

/-- The value of `EINVAL` in `errno.h`. -/
def EINVAL : Nat := 22

/-- The value of `ENOMEM` in `errno.h`. -/
def ENOMEM : Nat := 12

/-! ## Binary floating point

The source computes the two intervals in `float` and the score in `double`,
converted to `float`: IEEE 754 binary32 and binary64, every operation evaluated
in the type of its operands and returning its exact result rounded to nearest,
ties to even.  A finite floating value is a rational, and the roundings below
act on rationals.  The exponent range is left out.  It changes no conversion to
an integer type that C defines: a value below the normal range, and the
quotient by a product `2 * alpha` that overflowed, truncate to `0` with or
without it.  The operations of `SOLA_CrossCorrelation` on 16-bit samples stay
within the normal range. -/

/-- Conversion of a rational to an integer by truncation toward zero, as the C
conversion of a floating value to an integer type. -/
def truncQ (q : ℚ) : Int := if 0 ≤ q then ⌊q⌋ else ⌈q⌉

/-- The integer nearest to a rational, the even one of the two at a tie. -/
def roundNE (q : ℚ) : Int :=
  if 2 * (q - ⌊q⌋) < 1 then ⌊q⌋
  else if 1 < 2 * (q - ⌊q⌋) then ⌊q⌋ + 1
  else if ⌊q⌋ % 2 = 0 then ⌊q⌋ else ⌊q⌋ + 1

/-- The number of halvings that bring `n` below `2`, within `fuel` steps. -/
def log2Aux : Nat → Nat → Nat
  | 0, _ => 0
  | fuel + 1, n => if n < 2 then 0 else log2Aux fuel (n / 2) + 1

/-- The position of the highest set bit of a positive number. -/
def ilog2 (n : Nat) : Nat := log2Aux n n

/-- The binary exponent of a positive rational `q`: the integer `e` with
`2 ^ e ≤ q < 2 ^ (e + 1)`. -/
def binExp (q : ℚ) : Int :=
  let t : Int := (ilog2 q.num.natAbs : Int) - (ilog2 q.den : Int)
  if (2 : ℚ) ^ t ≤ q then t else t - 1

/-- A positive rational rounded to `prec` significant bits: the multiple of
`2 ^ (binExp q - (prec - 1))` nearest to `q`, ties to even. -/
def roundMag (prec : Nat) (q : ℚ) : ℚ :=
  (roundNE (q / (2 : ℚ) ^ (binExp q - ((prec : Int) - 1))) : ℚ)
    * (2 : ℚ) ^ (binExp q - ((prec : Int) - 1))

/-- A rational rounded to the binary floating format of `prec` significant
bits. -/
def roundFloat (prec : Nat) (q : ℚ) : ℚ :=
  if q = 0 then 0 else if q < 0 then -roundMag prec (-q) else roundMag prec q

/-- Rounding to `float` (24 significant bits). -/
def f32 (q : ℚ) : ℚ := roundFloat 24 q

/-- Rounding to `double` (53 significant bits). -/
def f64 (q : ℚ) : ℚ := roundFloat 53 q

/-- The integer square root by bits: `r` holds the bits found so far, the first
argument counts the bits still to try. -/
def sqrtAux (n : Nat) : Nat → Nat → Nat
  | 0, r => r
  | b + 1, r => if (r + 2 ^ b) ^ 2 ≤ n then sqrtAux n b (r + 2 ^ b) else sqrtAux n b r

/-- The integer square root: the greatest `r` with `r ^ 2 ≤ n`. -/
def isqrt (n : Nat) : Nat := sqrtAux n (ilog2 n / 2 + 1) 0

/-- The square root of a rational rounded to `prec` significant bits, as `sqrt`
of `math.h` returns it: with `X = P / 4 ^ e` scaled so that its root has `prec`
bits before the point, the result is `M * 2 ^ e` for the integer `M` nearest to
the root of `X`, found by comparing `X` with the square of the midpoint. -/
def roundSqrt (prec : Nat) (P : ℚ) : ℚ :=
  if P ≤ 0 then 0
  else
    let e : Int := binExp P / 2 - ((prec : Int) - 1)
    let X : ℚ := P / (4 : ℚ) ^ e
    let M0 : Nat := isqrt ⌊X⌋.toNat
    let mid : ℚ := ((2 * M0 + 1 : Nat) : ℚ) ^ 2 / 4
    let M : Nat :=
      if X < mid then M0 else if mid < X then M0 + 1
      else if M0 % 2 = 0 then M0 else M0 + 1
    (M : ℚ) * (2 : ℚ) ^ e

/-- The function `sqrt` on `double`. -/
def f64sqrt (P : ℚ) : ℚ := roundSqrt 53 P

/-! ## SOLA_GetIntervals -/

/-- `SOLA_GetIntervals`: the pair `(sa, ss)` stored through the two pointers.
`alpha` is the value of the `float` argument.  `N / 2` is the integer division of
the source; `N / (2 * alpha)` is a `float` division (the product `2 * alpha` is
exact in binary) and `*sa * alpha` a `float` product, each rounded once and then
truncated by the conversion to `uint16_t`. -/
def SOLA_GetIntervals (N : Nat) (alpha : ℚ) : Nat × Nat :=
  let sa : Nat :=
    toU16 (truncQ (if alpha > 1 then f32 ((N : ℚ) / (2 * alpha)) else ((N / 2 : Nat) : ℚ)))
  let ss : Nat := toU16 (truncQ (f32 ((sa : ℚ) * alpha)))
  (sa, ss)

/-! ## SOLA_CrossCorrelation -/

/-- An exact score `num / sqrt den2`.  The C function returns
`sum[0] / sqrt (sum[1] * sum[2])`; the three sums are integers below `2 ^ 53`, so
the `double` accumulators hold them exactly, and `den2` is the radicand
`sum[1] * sum[2]`. -/
structure Score where
  /-- The numerator `sum[0]`. -/
  num : Int
  /-- The radicand `sum[1] * sum[2]` of the denominator. -/
  den2 : Nat
deriving DecidableEq, Repr

/-- The three accumulators `sum[0]`, `sum[1]`, `sum[2]` after the loop
`for (j = 0; j < points; j++)`. -/
def crossSums (x y : Nat → Int) : Nat → Int × Int × Int
  | 0 => (0, 0, 0)
  | j + 1 =>
    let s := crossSums x y j
    (s.1 + x j * y j, s.2.1 + x j * x j, s.2.2 + y j * y j)

/-- `SOLA_CrossCorrelation` up to its last floating operations: the exact
numerator `sum[0]` and radicand `sum[1] * sum[2]` of the value returned, and
`⟨0, 1⟩` for the `0.0` of the zero-denominator branch.  The `float` returned is
`Score.toFloat` of this pair. -/
def SOLA_CrossCorrelation (x y : Nat → Int) (points : Nat) : Score :=
  let s := crossSums x y points
  if s.2.1 * s.2.2 = 0 then ⟨0, 1⟩ else ⟨s.1, (s.2.1 * s.2.2).toNat⟩

/-- The floating-point part of the lag search: the type of the scores, the
score of two windows over their first `points` samples, the initial best score
`Rm = -1`, and the test `R > Rm`. -/
structure Correlator where
  /-- The type of a score. -/
  Val : Type
  /-- The score of two windows. -/
  corr : (Nat → Int) → (Nat → Int) → Nat → Val
  /-- The initial value of `Rm`. -/
  sentinel : Val
  /-- The comparison `R > Rm`. -/
  gt : Val → Val → Bool

/-- The value `(float) (sum[0] / denom)` returned by `SOLA_CrossCorrelation` for
the exact numerator and radicand of a score: the product `sum[1] * sum[2]`, its
square root and the quotient are `double` operations, and the result is
converted to `float`.  The score `⟨0, 1⟩` of the zero-denominator branch gives
`0`. -/
def Score.toFloat (s : Score) : ℚ :=
  f32 (f64 ((s.num : ℚ) / f64sqrt (f64 (s.den2 : ℚ))))

/-- The correlator of the C source: the score is the `float` returned by
`SOLA_CrossCorrelation`, `Rm` starts at `-1`, and the test is the comparison of
two `float` values. -/
@[reducible]
def floatCorrelator : Correlator where
  Val := ℚ
  corr := fun x y points => (SOLA_CrossCorrelation x y points).toFloat
  sentinel := -1
  gt := fun a b => decide (b < a)

/-! ## SOLA_FindLag -/

/-- The first candidate lag `k = -(((m * ss) >= (N / 2)) ? (N / 2) : ss)`. -/
def firstLag (N ss m : Nat) : Int :=
  toI16 (-(((if m * ss ≥ N / 2 then N / 2 else ss : Nat) : Int)))

/-- The number of points `L` before the scan: `N`, or the distance to
`lastSampleIndex` when the frame would reach past it. -/
def firstPoints (N lastSampleIndex ss m : Nat) (k : Int) : Nat :=
  if toU32 ((m : Int) * ss + k + N) > lastSampleIndex then
    toU16 ((lastSampleIndex : Int) - ((m : Int) * ss + k))
  else N

/-- The loop `for ( ; k <= (N / 2); k++, L--)` of `SOLA_FindLag`; the first
argument bounds the number of passes. -/
def findLagLoop (c : Correlator) (N : Nat) (x : Nat → Int) (y : Int → Int)
    (sa ss m : Nat) : Nat → Int → Nat → c.Val → Int → Int
  | 0, _, _, _, km => km
  | fuel + 1, k, L, Rm, km =>
    if k ≤ ((N / 2 : Nat) : Int) then
      if L < N / 8 then km
      else
        let R := c.corr (fun j => x (m * sa + j)) (fun j => y ((m : Int) * ss + k + j)) L
        if c.gt R Rm then
          findLagLoop c N x y sa ss m fuel (toI16 (k + 1)) (toU16 ((L : Int) - 1)) R k
        else
          findLagLoop c N x y sa ss m fuel (toI16 (k + 1)) (toU16 ((L : Int) - 1)) Rm km
    else km

/-- `SOLA_FindLag`.  The scan leaves its loop within `65536` passes. -/
def SOLA_FindLag (c : Correlator) (N lastSampleIndex : Nat) (x : Nat → Int)
    (y : Int → Int) (sa ss m : Nat) : Int :=
  let k := firstLag N ss m
  findLagLoop c N x y sa ss m 65536 k (firstPoints N lastSampleIndex ss m k) c.sentinel 0

/-! ## SOLA_OverlapFrame -/

/-- The range of overlap `Lm` computed at the head of `SOLA_OverlapFrame`. -/
def overlapLength (N lastSampleIndex ss m : Nat) (km : Int) : Nat :=
  if toU32 ((m : Int) * ss + km + N) > lastSampleIndex then
    toU16 ((lastSampleIndex : Int) - ((m : Int) * ss + km))
  else N

/-- `SOLA_OverlapFrame`: the output buffer after the call.  Cell
`m * ss + km + j` is written by the blending loop for `j < Lm` and by the
`memcpy` for `Lm ≤ j < N`; `j / Lm` is the integer division of the source. -/
def SOLA_OverlapFrame (N lastSampleIndex : Nat) (x : Nat → Int) (y : Int → Int)
    (sa ss m : Nat) (km : Int) : Int → Int :=
  let Lm := overlapLength N lastSampleIndex ss m km
  fun i =>
    let j := i - ((m : Int) * ss + km)
    if 0 ≤ j ∧ j < Lm then
      toI16 ((1 - j / Lm) * y i + (j / Lm) * x (m * sa + j.toNat))
    else if (Lm : Int) ≤ j ∧ j < N then x (m * sa + j.toNat)
    else y i

/-! ## SOLA_TSM -/

/-- The variables of the frame loop of `SOLA_TSM`. -/
structure TSMState where
  /-- The output buffer `*y`. -/
  y : Int → Int
  /-- The file-scope variable `lastSampleIndex`. -/
  lastSampleIndex : Nat
  /-- The loop counter `m`, a `uint16_t`. -/
  m : Nat

/-- The state at the head of the frame loop: the buffer is zeroed, the first
frame copied, `lastSampleIndex = N` and `m = 1`. -/
def SOLA_TSM_init (N : Nat) (x : Nat → Int) : TSMState where
  y := fun i => if 0 ≤ i ∧ i < N then x i.toNat else 0
  lastSampleIndex := N
  m := 1

/-- One pass of the body of the frame loop, followed by `m++`. -/
def SOLA_TSM_frame (c : Correlator) (N : Nat) (x : Nat → Int) (sa ss : Nat)
    (s : TSMState) : TSMState :=
  let km := SOLA_FindLag c N s.lastSampleIndex x s.y sa ss s.m
  { y := SOLA_OverlapFrame N s.lastSampleIndex x s.y sa ss s.m km
    lastSampleIndex := toU32 ((s.m : Int) * ss + km + N)
    m := toU16 ((s.m : Int) + 1) }

/-- The state after at most `n` passes of `for (m = 1; m <= maxFrames; m++)`:
the passes stop as soon as the test `m <= maxFrames` fails. -/
def SOLA_TSM_run (c : Correlator) (N : Nat) (x : Nat → Int) (sa ss maxFrames : Nat) :
    Nat → TSMState → TSMState
  | 0, s => s
  | n + 1, s =>
    if s.m ≤ maxFrames then SOLA_TSM_run c N x sa ss maxFrames n (SOLA_TSM_frame c N x sa ss s)
    else s

/-- The number `maxFrames = (uint16_t) ((xSize - N) / sa)`. -/
def maxFramesOf (N xSize sa : Nat) : Nat := toU16 (((xSize - N) / sa : Nat) : Int)

/-- What a call of `SOLA_TSM` does. -/
inductive TSMResult where
  /-- Returns `EINVAL`; `*y` and `*ySize` are not written. -/
  | einval
  /-- Returns `ENOMEM`; `*y` is `NULL` and `*ySize` is not written. -/
  | enomem
  /-- The division `(xSize - N) / sa` is by zero. -/
  | divByZero
  /-- Returns `0` with the buffer `*y` and the length `*ySize`. -/
  | ok (y : Int → Int) (ySize : Nat)

/-- The value returned by `SOLA_TSM`, when it returns. -/
def TSMResult.code : TSMResult → Option Nat
  | .einval => some EINVAL
  | .enomem => some ENOMEM
  | .divByZero => none
  | .ok _ _ => some 0

/-- The length written to `*ySize`, when it is written. -/
def TSMResult.ySize : TSMResult → Option Nat
  | .ok _ n => some n
  | _ => none

/-- The buffer written to `*y`, when a buffer is handed back. -/
def TSMResult.y : TSMResult → Option (Int → Int)
  | .ok y _ => some y
  | _ => none

/-- `SOLA_TSM`.  `mallocOk` tells whether the allocation succeeds; `fuel`
bounds the number of passes of the frame loop, and the result is `none` when the
loop is still running after `fuel` passes. -/
def SOLA_TSM (c : Correlator) (N : Nat) (mallocOk : Bool) (fuel : Nat)
    (x : Nat → Int) (xSize : Nat) (alpha : ℚ) : Option TSMResult :=
  if xSize < N then some .einval
  else
    let sa := (SOLA_GetIntervals N alpha).1
    let ss := (SOLA_GetIntervals N alpha).2
    if !mallocOk then some .enomem
    else if sa = 0 then some .divByZero
    else
      let maxFrames := maxFramesOf N xSize sa
      let s := SOLA_TSM_run c N x sa ss maxFrames fuel (SOLA_TSM_init N x)
      if s.m ≤ maxFrames then none else some (.ok s.y s.lastSampleIndex)

/-- The number of 16-bit samples `SOLA_TSM` asks `malloc` for:
`(uint32_t) (xSize * alpha) + N`.  `xSize` is converted to `float`, the product is
a `float` product, its conversion to `uint32_t` truncates, and the sum with `N`
is a `uint32_t` sum, reduced modulo `2 ^ 32`. -/
def allocatedSamples (N xSize : Nat) (alpha : ℚ) : Nat :=
  toU32 ((toU32 (truncQ (f32 (f32 (xSize : ℚ) * alpha))) : Int) + (N : Int))

/-! ## The candidates of the lag search -/

/-- The candidates whose score the loop of `SOLA_FindLag` computes, in scan order,
each with the number of points `L` passed to the correlator: the same loop as
`findLagLoop`, recording the pair `(k, L)` wherever the source calls
`SOLA_CrossCorrelation`. -/
def findLagScan (N : Nat) : Nat → Int → Nat → List (Int × Nat)
  | 0, _, _ => []
  | fuel + 1, k, L =>
    if k ≤ ((N / 2 : Nat) : Int) then
      if L < N / 8 then []
      else (k, L) :: findLagScan N fuel (toI16 (k + 1)) (toU16 ((L : Int) - 1))
    else []

/-- The score `R` computed for the candidate `(k, L)`:
`SOLA_CrossCorrelation(&x[m * sa], &y[m * ss + k], L)`. -/
def candidateScore (c : Correlator) (x : Nat → Int) (y : Int → Int) (sa ss m : Nat)
    (p : Int × Nat) : c.Val :=
  c.corr (fun j => x (m * sa + j)) (fun j => y ((m : Int) * ss + p.1 + j)) p.2

/-- The update `if (R > Rm) { Rm = R; km = k; }` of the pair `(Rm, km)` by one
candidate. -/
def bestStep (c : Correlator) (x : Nat → Int) (y : Int → Int) (sa ss m : Nat)
    (acc : c.Val × Int) (p : Int × Nat) : c.Val × Int :=
  if c.gt (candidateScore c x y sa ss m p) acc.1 then (candidateScore c x y sa ss m p, p.1)
  else acc

/-! ## SOLA_SetFrameSize and SOLA_GetFrameSize -/

/-- The initial value of the file-scope variable `N`. -/
def defaultFrameSize : Nat := 160

/-- `SOLA_SetFrameSize`: the value of the file-scope variable `N` after the call
and the value returned. -/
def SOLA_SetFrameSize (N : Nat) (frameSize : Nat) : Nat × Nat :=
  if 0 = frameSize then (N, EINVAL) else (frameSize, 0)

/-- `SOLA_GetFrameSize`: returns the file-scope variable `N`. -/
def SOLA_GetFrameSize (N : Nat) : Nat := N

/-! ## The mu-law codec of `ulawapi.c` -/

/-- Conversion to `uint8_t`. -/
def toU8 (v : Int) : Nat := (v % 256).toNat

/-- The operator `v & mask` on a 32-bit `int` in two's complement and a
non-negative mask. -/
def andMask (v : Int) (mask : Nat) : Nat := Nat.land (toU32 v) mask

/-- The operator `v >> n` on a signed value: an arithmetic shift, the quotient
rounded down. -/
def sar (v : Int) (n : Nat) : Int := v / (2 ^ n : Int)

/-- The table `exp_lut` of `ULAW2Linear`. -/
def decodeExpLut : List Int := [0, 132, 396, 924, 1980, 4092, 8316, 16764]

/-- `ULAW2Linear`: the 16-bit sample of a mu-law byte. -/
def ULAW2Linear (ulaw : Nat) : Int :=
  let u : Nat := toU8 (-(ulaw : Int) - 1)
  let sign : Int := toI16 (andMask u 0x80)
  let exponent : Int := toI16 (andMask (sar u 4) 0x07)
  let mantissa : Int := toI16 (andMask u 0x0F)
  let sample : Int :=
    toI16 (decodeExpLut.getD exponent.toNat 0 + mantissa * 2 ^ (exponent.toNat + 3))
  if 0 ≠ sign then toI16 (-sample) else sample

/-- The constant `BIAS`. -/
def BIAS : Int := 0x84

/-- The constant `CLIP`. -/
def CLIP : Int := 32635

/-- The table `exp_lut` of `Linear2ULAW`: entry `i` is the position of the highest
set bit of `i`, and `0` for `i = 0`. -/
def encodeExpLut : List Int :=
  [0, 0, 1, 1, 2, 2, 2, 2] ++ List.replicate 8 3 ++ List.replicate 16 4 ++
    List.replicate 32 5 ++ List.replicate 64 6 ++ List.replicate 128 7

/-- `Linear2ULAW` (compiled with `NOZEROTRAP`): the mu-law byte of a 16-bit
sample. -/
def Linear2ULAW (sample : Int) : Nat :=
  let sign : Int := toI16 (andMask (sar sample 8) 0x80)
  let s1 : Int := if 0 ≠ sign then toI16 (-sample) else sample
  let s2 : Int := if s1 > CLIP then toI16 CLIP else s1
  let s3 : Int := toI16 (s2 + BIAS)
  let exponent : Int := encodeExpLut.getD (andMask (sar s3 7) 0xFF) 0
  let mantissa : Int := toI16 (andMask (sar s3 (exponent.toNat + 3)) 0x0F)
  toU8 (-((Nat.lor (Nat.lor sign.toNat (exponent.toNat * 2 ^ 4)) mantissa.toNat : Nat) : Int) - 1)

/-! ## The crossfade of the specification and concrete inputs -/

/-- The blending rule in the words of the specification: the weight is the
fraction `j / Lm`, the new value `(1 - weight) * old + weight * new`, converted
to 16 bits. -/
def specCrossfade (yOld xNew : Int) (j Lm : Nat) : Int :=
  toI16 (truncQ ((1 - (j : ℚ) / (Lm : ℚ)) * (yOld : ℚ) + (j : ℚ) / (Lm : ℚ) * (xNew : ℚ)))

/-- A 49-sample signal: 8 samples `1`, 16 samples `-1`, 25 samples `1`. -/
def stepInput : Nat → Int := fun i => if i < 8 then 1 else if i < 24 then -1 else 1

/-- The signal `stepInput` at amplitude `1000`. -/
def loudStepInput : Nat → Int := fun i => 1000 * stepInput i

/-- A 160-sample signal: 40 samples `-1`, 21 samples `1`, 39 samples `-1`,
60 samples `1`. -/
def blockInput : Nat → Int :=
  fun i => if i < 40 then -1 else if i < 61 then 1 else if i < 100 then -1 else 1

/-- The score of two windows that both hold the constant `c` over `L` points. -/
def constantScore (c : Int) (L : Nat) : Score :=
  if (L : Int) * c * c * ((L : Int) * c * c) = 0 then ⟨0, 1⟩
  else ⟨(L : Int) * c * c, ((L : Int) * c * c * ((L : Int) * c * c)).toNat⟩

/-! # Theorems -/

/-! ## Conversions -/

theorem toU16_of_range {v : Int} (h0 : 0 ≤ v) (h1 : v < 65536) : (toU16 v : Int) = v := by
  unfold toU16
  omega

theorem toU32_of_range {v : Int} (h0 : 0 ≤ v) (h1 : v < 4294967296) : (toU32 v : Int) = v := by
  unfold toU32
  omega

theorem toI16_of_range {v : Int} (h0 : -32768 ≤ v) (h1 : v < 32768) : toI16 v = v := by
  unfold toI16
  omega

theorem toU16_lt (v : Int) : toU16 v < 65536 := by
  unfold toU16
  omega

theorem toU16_le (n : Nat) : toU16 (n : Int) ≤ n := by
  unfold toU16
  omega

/-! ## Rounding to a binary floating format -/

/-- Rounding leaves an integer unchanged. -/
theorem roundNE_intCast (n : Int) : roundNE (n : ℚ) = n := by
  unfold roundNE
  rw [Int.floor_intCast]
  simp

/-- Rounding returns the floor or the next integer. -/
theorem roundNE_bounds (q : ℚ) : ⌊q⌋ ≤ roundNE q ∧ roundNE q ≤ ⌊q⌋ + 1 := by
  unfold roundNE
  split_ifs <;> constructor <;> omega

/-- Rounding to the nearest integer is monotone. -/
theorem roundNE_mono {a b : ℚ} (h : a ≤ b) : roundNE a ≤ roundNE b := by
  rcases lt_or_eq_of_le (Int.floor_mono h) with hf | hf
  · have h1 := (roundNE_bounds a).2
    have h2 := (roundNE_bounds b).1
    omega
  · unfold roundNE
    rw [hf]
    have h3 : 2 * (a - ⌊b⌋) ≤ 2 * (b - ⌊b⌋) := by linarith
    split_ifs <;> first | omega | (exfalso; linarith)

/-- Rounding to the nearest integer moves a value by at most one half. -/
theorem roundNE_error (q : ℚ) : q - 1 / 2 ≤ (roundNE q : ℚ) ∧ (roundNE q : ℚ) ≤ q + 1 / 2 := by
  have h1 := Int.floor_le q
  have h2 := Int.lt_floor_add_one q
  unfold roundNE
  split_ifs <;> push_cast <;> constructor <;> linarith

/-- With enough fuel `log2Aux` brackets a positive number between two powers of `2`. -/
theorem log2Aux_spec : ∀ (fuel n : Nat), n ≤ fuel → 0 < n →
    2 ^ log2Aux fuel n ≤ n ∧ n < 2 ^ (log2Aux fuel n + 1) := by
  intro fuel
  induction fuel with
  | zero => intro n h1 h2; omega
  | succ fuel ih =>
    intro n h1 h2
    rw [log2Aux]
    split_ifs with h
    · simp; omega
    · obtain ⟨h3, h4⟩ := ih (n / 2) (by omega) (by omega)
      rw [pow_succ] at h4 ⊢
      rw [pow_succ]
      omega

/-- The bracket `2 ^ ilog2 n ≤ n < 2 ^ (ilog2 n + 1)` of a positive number. -/
theorem ilog2_spec {n : Nat} (h : 0 < n) : 2 ^ ilog2 n ≤ n ∧ n < 2 ^ (ilog2 n + 1) :=
  log2Aux_spec n n (le_refl _) h

/-- The exponent chosen from the bit lengths of a numerator and a denominator brackets
their quotient. -/
theorem binExp_aux (q : ℚ) (n d a b : Nat) (hd : 0 < d) (e : q = (n : ℚ) / (d : ℚ))
    (a1 : 2 ^ a ≤ n) (a2 : n < 2 ^ (a + 1)) (b1 : 2 ^ b ≤ d) (b2 : d < 2 ^ (b + 1)) :
    (2 : ℚ) ^ (if (2 : ℚ) ^ ((a : Int) - (b : Int)) ≤ q then (a : Int) - (b : Int)
        else (a : Int) - (b : Int) - 1) ≤ q ∧
    q < (2 : ℚ) ^ ((if (2 : ℚ) ^ ((a : Int) - (b : Int)) ≤ q then (a : Int) - (b : Int)
        else (a : Int) - (b : Int) - 1) + 1) := by
  have a1' : (2 : ℚ) ^ (a : Int) ≤ (n : ℚ) := by
    rw [zpow_natCast]; exact_mod_cast a1
  have a2' : (n : ℚ) < (2 : ℚ) ^ (a : Int) * 2 := by
    rw [zpow_natCast]; rw [pow_succ] at a2; exact_mod_cast a2
  have b1' : (2 : ℚ) ^ (b : Int) ≤ (d : ℚ) := by
    rw [zpow_natCast]; exact_mod_cast b1
  have b2' : (d : ℚ) < (2 : ℚ) ^ (b : Int) * 2 := by
    rw [zpow_natCast]; rw [pow_succ] at b2; exact_mod_cast b2
  have hd' : (0 : ℚ) < (d : ℚ) := by exact_mod_cast hd
  have two : (2 : ℚ) ≠ 0 := by norm_num
  have pa : (0 : ℚ) < (2 : ℚ) ^ (a : Int) := zpow_pos (by norm_num) _
  have pb : (0 : ℚ) < (2 : ℚ) ^ (b : Int) := zpow_pos (by norm_num) _
  split_ifs with h
  · refine ⟨h, ?_⟩
    rw [zpow_add_one₀ two, zpow_sub₀ two]
    rw [e, div_lt_iff₀ hd']
    calc (n : ℚ) < (2 : ℚ) ^ (a : Int) * 2 := a2'
      _ = (2 : ℚ) ^ (a : Int) / (2 : ℚ) ^ (b : Int) * 2 * (2 : ℚ) ^ (b : Int) := by field_simp
      _ ≤ (2 : ℚ) ^ (a : Int) / (2 : ℚ) ^ (b : Int) * 2 * (d : ℚ) := by
          apply mul_le_mul_of_nonneg_left b1'
          positivity
  · refine ⟨?_, ?_⟩
    · rw [zpow_sub₀ two, zpow_sub₀ two, zpow_one]
      rw [e, le_div_iff₀ hd']
      calc (2 : ℚ) ^ (a : Int) / (2 : ℚ) ^ (b : Int) / 2 * (d : ℚ)
          ≤ (2 : ℚ) ^ (a : Int) / (2 : ℚ) ^ (b : Int) / 2 * ((2 : ℚ) ^ (b : Int) * 2) := by
            apply mul_le_mul_of_nonneg_left b2'.le
            positivity
        _ = (2 : ℚ) ^ (a : Int) := by field_simp
        _ ≤ (n : ℚ) := a1'
    · rw [sub_add_cancel]
      exact lt_of_not_le h

/-- The bracket `2 ^ binExp q ≤ q < 2 ^ (binExp q + 1)` of a positive rational. -/
theorem binExp_spec {q : ℚ} (hq : 0 < q) :
    (2 : ℚ) ^ binExp q ≤ q ∧ q < (2 : ℚ) ^ (binExp q + 1) := by
  have hn : 0 < q.num := Rat.num_pos.mpr hq
  have hn' : 0 < q.num.natAbs := by omega
  have hd : 0 < q.den := q.den_pos
  obtain ⟨a1, a2⟩ := ilog2_spec hn'
  obtain ⟨b1, b2⟩ := ilog2_spec hd
  have e : q = (q.num.natAbs : ℚ) / (q.den : ℚ) := by
    conv_lhs => rw [← Rat.num_div_den q]
    congr 1
    have h : (q.num.natAbs : Int) = q.num := Int.natAbs_of_nonneg hn.le
    calc (q.num : ℚ) = (((q.num.natAbs : Nat) : Int) : ℚ) := by rw [h]
      _ = (q.num.natAbs : ℚ) := Int.cast_natCast _
  exact binExp_aux q _ _ _ _ hd e a1 a2 b1 b2

/-- The binary exponent is the only integer whose bracket holds the value. -/
theorem binExp_unique {q : ℚ} {e : Int} (h1 : (2 : ℚ) ^ e ≤ q) (h2 : q < (2 : ℚ) ^ (e + 1)) :
    binExp q = e := by
  have hq : 0 < q := lt_of_lt_of_le (zpow_pos (by norm_num) _) h1
  obtain ⟨s1, s2⟩ := binExp_spec hq
  have l1 : (2 : ℚ) ^ e < (2 : ℚ) ^ (binExp q + 1) := lt_of_le_of_lt h1 s2
  have l2 : (2 : ℚ) ^ binExp q < (2 : ℚ) ^ (e + 1) := lt_of_le_of_lt s1 h2
  rw [zpow_lt_zpow_iff_right₀ (by norm_num)] at l1 l2
  omega

/-- The binary exponent is monotone on positive rationals. -/
theorem binExp_mono {a b : ℚ} (ha : 0 < a) (h : a ≤ b) : binExp a ≤ binExp b := by
  obtain ⟨s1, _⟩ := binExp_spec ha
  obtain ⟨_, t2⟩ := binExp_spec (lt_of_lt_of_le ha h)
  have l1 : (2 : ℚ) ^ binExp a < (2 : ℚ) ^ (binExp b + 1) :=
    lt_of_le_of_lt (le_trans s1 h) t2
  rw [zpow_lt_zpow_iff_right₀ (by norm_num)] at l1
  omega

/-- The rounding to `p + 1` bits, with the exponent of the last bit written out. -/
theorem roundMag_eq (p : Nat) (q : ℚ) :
    roundMag (p + 1) q
      = (roundNE (q / (2 : ℚ) ^ (binExp q - (p : Int))) : ℚ) * (2 : ℚ) ^ (binExp q - (p : Int)) := by
  unfold roundMag
  have e : ((p + 1 : Nat) : Int) - 1 = (p : Int) := by push_cast; ring
  rw [e]

/-- A positive value scaled by the exponent of its last bit has `p + 1` bits before the
point. -/
theorem scaled_bounds (p : Nat) {q : ℚ} (hq : 0 < q) :
    (2 : ℚ) ^ p ≤ q / (2 : ℚ) ^ (binExp q - (p : Int)) ∧
    q / (2 : ℚ) ^ (binExp q - (p : Int)) < (2 : ℚ) ^ (p + 1) := by
  obtain ⟨s1, s2⟩ := binExp_spec hq
  have two : (2 : ℚ) ≠ 0 := by norm_num
  have pe : (0 : ℚ) < (2 : ℚ) ^ (binExp q - (p : Int)) := zpow_pos (by norm_num) _
  have e1 : (2 : ℚ) ^ p * (2 : ℚ) ^ (binExp q - (p : Int)) = (2 : ℚ) ^ binExp q := by
    rw [← zpow_natCast, ← zpow_add₀ two]
    congr 1
    ring
  have e2 : (2 : ℚ) ^ (p + 1) * (2 : ℚ) ^ (binExp q - (p : Int)) = (2 : ℚ) ^ (binExp q + 1) := by
    rw [← zpow_natCast, ← zpow_add₀ two]
    congr 1
    push_cast
    ring
  constructor
  · rw [le_div_iff₀ pe, e1]; exact s1
  · rw [div_lt_iff₀ pe, e2]; exact s2

/-- Rounding does not go below the power of `2` under the value. -/
theorem roundMag_ge (p : Nat) {q : ℚ} (hq : 0 < q) : (2 : ℚ) ^ binExp q ≤ roundMag (p + 1) q := by
  obtain ⟨s1, _⟩ := scaled_bounds p hq
  have two : (2 : ℚ) ≠ 0 := by norm_num
  have pe : (0 : ℚ) < (2 : ℚ) ^ (binExp q - (p : Int)) := zpow_pos (by norm_num) _
  have h1 : ((2 ^ p : Int) : ℚ) ≤ q / (2 : ℚ) ^ (binExp q - (p : Int)) := by
    push_cast; exact s1
  have h2 := roundNE_mono h1
  rw [roundNE_intCast] at h2
  have h3 : (2 : ℚ) ^ p ≤ (roundNE (q / (2 : ℚ) ^ (binExp q - (p : Int))) : ℚ) := by
    exact_mod_cast h2
  rw [roundMag_eq]
  calc (2 : ℚ) ^ binExp q = (2 : ℚ) ^ p * (2 : ℚ) ^ (binExp q - (p : Int)) := by
        rw [← zpow_natCast, ← zpow_add₀ two]
        congr 1
        ring
    _ ≤ _ := mul_le_mul_of_nonneg_right h3 pe.le

/-- Rounding does not go above the power of `2` over the value. -/
theorem roundMag_le (p : Nat) {q : ℚ} (hq : 0 < q) :
    roundMag (p + 1) q ≤ (2 : ℚ) ^ (binExp q + 1) := by
  obtain ⟨_, s2⟩ := scaled_bounds p hq
  have two : (2 : ℚ) ≠ 0 := by norm_num
  have pe : (0 : ℚ) < (2 : ℚ) ^ (binExp q - (p : Int)) := zpow_pos (by norm_num) _
  have h1 : q / (2 : ℚ) ^ (binExp q - (p : Int)) ≤ ((2 ^ (p + 1) : Int) : ℚ) := by
    push_cast; exact s2.le
  have h2 := roundNE_mono h1
  rw [roundNE_intCast] at h2
  have h3 : (roundNE (q / (2 : ℚ) ^ (binExp q - (p : Int))) : ℚ) ≤ (2 : ℚ) ^ (p + 1) := by
    exact_mod_cast h2
  rw [roundMag_eq]
  calc _ ≤ (2 : ℚ) ^ (p + 1) * (2 : ℚ) ^ (binExp q - (p : Int)) :=
        mul_le_mul_of_nonneg_right h3 pe.le
    _ = (2 : ℚ) ^ (binExp q + 1) := by
        rw [← zpow_natCast, ← zpow_add₀ two]
        congr 1
        push_cast
        ring

/-- The rounding of a positive value is positive. -/
theorem roundMag_pos (p : Nat) {q : ℚ} (hq : 0 < q) : 0 < roundMag (p + 1) q :=
  lt_of_lt_of_le (zpow_pos (by norm_num) _) (roundMag_ge p hq)

/-- Rounding to `p + 1` bits is monotone on positive values. -/
theorem roundMag_mono (p : Nat) {a b : ℚ} (ha : 0 < a) (h : a ≤ b) :
    roundMag (p + 1) a ≤ roundMag (p + 1) b := by
  have hb : 0 < b := lt_of_lt_of_le ha h
  rcases lt_or_eq_of_le (binExp_mono ha h) with hlt | heq
  · calc roundMag (p + 1) a ≤ (2 : ℚ) ^ (binExp a + 1) := roundMag_le p ha
      _ ≤ (2 : ℚ) ^ binExp b := zpow_le_zpow_right₀ (by norm_num) (by omega)
      _ ≤ roundMag (p + 1) b := roundMag_ge p hb
  · rw [roundMag_eq, roundMag_eq, heq]
    have pe : (0 : ℚ) < (2 : ℚ) ^ (binExp b - (p : Int)) := zpow_pos (by norm_num) _
    apply mul_le_mul_of_nonneg_right _ pe.le
    have h1 : a / (2 : ℚ) ^ (binExp b - (p : Int)) ≤ b / (2 : ℚ) ^ (binExp b - (p : Int)) :=
      div_le_div_of_nonneg_right h pe.le
    exact_mod_cast roundNE_mono h1

/-- A positive value `k * 2 ^ j` whose `k` has at most `p + 1` bits is its own rounding.
-/
theorem roundMag_repr (p : Nat) (k : Nat) (j : Int) (hk0 : 0 < k) (hk : k < 2 ^ (p + 1)) :
    roundMag (p + 1) ((k : ℚ) * (2 : ℚ) ^ j) = (k : ℚ) * (2 : ℚ) ^ j := by
  have two : (2 : ℚ) ≠ 0 := by norm_num
  have pj : (0 : ℚ) < (2 : ℚ) ^ j := zpow_pos (by norm_num) _
  have hq : (0 : ℚ) < (k : ℚ) * (2 : ℚ) ^ j := by positivity
  obtain ⟨s1, _⟩ := binExp_spec hq
  have hlt : (2 : ℚ) ^ binExp ((k : ℚ) * (2 : ℚ) ^ j) < (2 : ℚ) ^ ((p : Int) + 1 + j) := by
    calc (2 : ℚ) ^ binExp ((k : ℚ) * (2 : ℚ) ^ j) ≤ (k : ℚ) * (2 : ℚ) ^ j := s1
      _ < (2 : ℚ) ^ (p + 1) * (2 : ℚ) ^ j := by
          apply mul_lt_mul_of_pos_right _ pj
          exact_mod_cast hk
      _ = (2 : ℚ) ^ ((p : Int) + 1 + j) := by
          rw [← zpow_natCast, ← zpow_add₀ two]
          congr 1
  rw [zpow_lt_zpow_iff_right₀ (by norm_num)] at hlt
  obtain ⟨m, hm⟩ : ∃ m : Nat, j = binExp ((k : ℚ) * (2 : ℚ) ^ j) - (p : Int) + m :=
    ⟨(j - (binExp ((k : ℚ) * (2 : ℚ) ^ j) - (p : Int))).toNat, by omega⟩
  rw [roundMag_eq]
  have pe : (0 : ℚ) < (2 : ℚ) ^ (binExp ((k : ℚ) * (2 : ℚ) ^ j) - (p : Int)) :=
    zpow_pos (by norm_num) _
  have es : (k : ℚ) * (2 : ℚ) ^ j / (2 : ℚ) ^ (binExp ((k : ℚ) * (2 : ℚ) ^ j) - (p : Int))
      = (((k * 2 ^ m : Nat) : Int) : ℚ) := by
    rw [div_eq_iff pe.ne']
    conv_lhs => rw [hm]
    rw [zpow_add₀ two, zpow_natCast]
    push_cast
    ring
  rw [es, roundNE_intCast, ← es]
  field_simp

/-- Rounding to `p + 1` bits moves a value by at most half a unit of its last bit. -/
theorem roundMag_error (p : Nat) (q : ℚ) :
    |roundMag (p + 1) q - q| ≤ (2 : ℚ) ^ (binExp q - (p : Int)) / 2 := by
  have pe : (0 : ℚ) < (2 : ℚ) ^ (binExp q - (p : Int)) := zpow_pos (by norm_num) _
  obtain ⟨h1, h2⟩ := roundNE_error (q / (2 : ℚ) ^ (binExp q - (p : Int)))
  rw [roundMag_eq]
  have e : q = q / (2 : ℚ) ^ (binExp q - (p : Int)) * (2 : ℚ) ^ (binExp q - (p : Int)) := by
    field_simp
  rw [abs_le]
  constructor
  · have := mul_le_mul_of_nonneg_right h1 pe.le
    nlinarith
  · have := mul_le_mul_of_nonneg_right h2 pe.le
    nlinarith

/-- The rounding of a non-negative value is non-negative. -/
theorem roundFloat_nonneg (p : Nat) {q : ℚ} (h : 0 ≤ q) : 0 ≤ roundFloat (p + 1) q := by
  unfold roundFloat
  split_ifs with h1 h2
  · exact le_refl _
  · exact absurd h (not_le.mpr h2)
  · exact (roundMag_pos p (lt_of_le_of_ne h (Ne.symm h1))).le

/-- On positive values `roundFloat` is `roundMag`. -/
theorem roundFloat_of_pos (p : Nat) {q : ℚ} (h : 0 < q) : roundFloat (p + 1) q = roundMag (p + 1) q := by
  unfold roundFloat
  rw [if_neg h.ne', if_neg (not_lt.mpr h.le)]

/-- Rounding commutes with negation. -/
theorem roundFloat_neg (p : Nat) (q : ℚ) : roundFloat (p + 1) (-q) = -roundFloat (p + 1) q := by
  unfold roundFloat
  rcases lt_trichotomy q 0 with h | h | h
  · rw [if_neg (by linarith), if_neg (by linarith), if_neg h.ne, if_pos h, neg_neg]
  · subst h; simp
  · rw [if_neg (by linarith), if_pos (by linarith), if_neg h.ne', if_neg (by linarith), neg_neg]

/-- Zero is its own rounding. -/
theorem roundFloat_zero (p : Nat) : roundFloat (p + 1) 0 = 0 := by
  unfold roundFloat
  rw [if_pos rfl]

/-- Rounding to a floating format is monotone. -/
theorem roundFloat_mono (p : Nat) {a b : ℚ} (h : a ≤ b) :
    roundFloat (p + 1) a ≤ roundFloat (p + 1) b := by
  rcases lt_trichotomy a 0 with ha | ha | ha
  · rcases lt_or_le b 0 with hb | hb
    · have h1 := roundMag_mono p (a := -b) (b := -a) (by linarith) (by linarith)
      have ea : roundFloat (p + 1) a = -roundMag (p + 1) (-a) := by
        unfold roundFloat; rw [if_neg ha.ne, if_pos ha]
      have eb : roundFloat (p + 1) b = -roundMag (p + 1) (-b) := by
        unfold roundFloat; rw [if_neg hb.ne, if_pos hb]
      rw [ea, eb]
      linarith
    · have h1 := roundFloat_nonneg p hb
      have h2 := roundFloat_nonneg p (q := -a) (by linarith)
      rw [roundFloat_neg] at h2
      linarith
  · subst ha
    rw [roundFloat_zero]
    exact roundFloat_nonneg p h
  · rw [roundFloat_of_pos p ha, roundFloat_of_pos p (lt_of_lt_of_le ha h)]
    exact roundMag_mono p ha h

/-- A value `k * 2 ^ j` whose natural `k` has at most `p + 1` bits is representable. -/
theorem roundFloat_repr_nat (p : Nat) (k : Nat) (j : Int) (hk : k < 2 ^ (p + 1)) :
    roundFloat (p + 1) ((k : ℚ) * (2 : ℚ) ^ j) = (k : ℚ) * (2 : ℚ) ^ j := by
  rcases Nat.eq_zero_or_pos k with h | h
  · subst h; simp [roundFloat_zero]
  · have pj : (0 : ℚ) < (2 : ℚ) ^ j := zpow_pos (by norm_num) _
    rw [roundFloat_of_pos p (by positivity)]
    exact roundMag_repr p k j h hk

/-- A value `k * 2 ^ j` whose integer `k` has at most `p + 1` bits is representable. -/
theorem roundFloat_repr (p : Nat) (k : Int) (j : Int) (hk : k.natAbs < 2 ^ (p + 1)) :
    roundFloat (p + 1) ((k : ℚ) * (2 : ℚ) ^ j) = (k : ℚ) * (2 : ℚ) ^ j := by
  rcases le_or_lt 0 k with h | h
  · have e : (k : ℚ) = ((k.natAbs : Nat) : ℚ) := by
      have : ((k.natAbs : Nat) : Int) = k := Int.natAbs_of_nonneg h
      calc (k : ℚ) = (((k.natAbs : Nat) : Int) : ℚ) := by rw [this]
        _ = _ := Int.cast_natCast _
    rw [e]
    exact roundFloat_repr_nat p _ j hk
  · have e : (k : ℚ) = -((k.natAbs : Nat) : ℚ) := by
      have : ((k.natAbs : Nat) : Int) = -k := by omega
      have h2 : (k : ℚ) = -(((k.natAbs : Nat) : Int) : ℚ) := by rw [this]; push_cast; ring
      rw [h2, Int.cast_natCast]
    rw [e, neg_mul, roundFloat_neg, roundFloat_repr_nat p _ j hk]

/-- A natural number of at most `p + 1` bits is representable. -/
theorem roundFloat_natCast (p : Nat) (k : Nat) (hk : k < 2 ^ (p + 1)) :
    roundFloat (p + 1) (k : ℚ) = (k : ℚ) := by
  have h := roundFloat_repr_nat p k 0 hk
  simpa using h

/-- Rounding to a floating format moves a value by at most half a unit of its last bit.
-/
theorem roundFloat_error (p : Nat) (q : ℚ) :
    |roundFloat (p + 1) q - q| ≤ (2 : ℚ) ^ (binExp |q| - (p : Int)) / 2 := by
  unfold roundFloat
  split_ifs with h1 h2
  · subst h1
    simp only [sub_zero, abs_zero]
    positivity
  · rw [abs_of_neg h2]
    have h := roundMag_error p (-q)
    rw [abs_le] at h ⊢
    constructor <;> linarith [h.1, h.2]
  · rw [abs_of_pos (lt_of_le_of_ne (not_lt.mp h2) (Ne.symm h1))]
    exact roundMag_error p q


/-- Rounding to `float` is monotone. -/
theorem f32_mono {a b : ℚ} (h : a ≤ b) : f32 a ≤ f32 b := roundFloat_mono 23 h

/-- The `float` nearest to a non-negative value is non-negative. -/
theorem f32_nonneg {q : ℚ} (h : 0 ≤ q) : 0 ≤ f32 q := roundFloat_nonneg 23 h

/-- A natural number below `2 ^ 24` is a `float`. -/
theorem f32_natCast (k : Nat) (hk : k < 16777216) : f32 (k : ℚ) = (k : ℚ) :=
  roundFloat_natCast 23 k (by norm_num; exact hk)

/-- A fraction `k / 2 ^ j` with `k` below `2 ^ 24` is a `float`. -/
theorem f32_div_pow (k j : Nat) (hk : k < 16777216) :
    f32 ((k : ℚ) / (2 : ℚ) ^ j) = (k : ℚ) / (2 : ℚ) ^ j := by
  have h := roundFloat_repr_nat 23 k (-(j : Int)) (by norm_num; exact hk)
  rw [zpow_neg, zpow_natCast, ← div_eq_mul_inv] at h
  exact h

/-! ## The rounded square root -/

/-- The bit-by-bit search keeps its bracket: from `r ^ 2 ≤ n < (r + 2 ^ b) ^ 2` it
returns the integer square root. -/
theorem sqrtAux_spec (n : Nat) : ∀ (b r : Nat), r ^ 2 ≤ n → n < (r + 2 ^ b) ^ 2 →
    (sqrtAux n b r) ^ 2 ≤ n ∧ n < (sqrtAux n b r + 1) ^ 2 := by
  intro b
  induction b with
  | zero =>
    intro r h1 h2
    rw [sqrtAux]
    exact ⟨h1, by simpa using h2⟩
  | succ b ih =>
    intro r h1 h2
    rw [sqrtAux]
    split_ifs with h
    · apply ih _ h
      have e : r + 2 ^ b + 2 ^ b = r + 2 ^ (b + 1) := by rw [pow_succ]; ring
      rw [e]
      exact h2
    · exact ih _ h1 (not_le.mp h)

/-- The integer square root brackets its argument. -/
theorem isqrt_spec (n : Nat) : (isqrt n) ^ 2 ≤ n ∧ n < (isqrt n + 1) ^ 2 := by
  unfold isqrt
  apply sqrtAux_spec n _ 0 (by simp)
  rw [Nat.zero_add, ← pow_mul]
  rcases Nat.eq_zero_or_pos n with h | h
  · subst h
    positivity
  · obtain ⟨_, h2⟩ := ilog2_spec h
    calc n < 2 ^ (ilog2 n + 1) := h2
      _ ≤ 2 ^ ((ilog2 n / 2 + 1) * 2) := Nat.pow_le_pow_right (by norm_num) (by omega)

/-- The integer square root is monotone in the sense needed below: a square under
`n` has its root under `isqrt n`. -/
theorem le_isqrt {k n : Nat} (h : k ^ 2 ≤ n) : k ≤ isqrt n := by
  obtain ⟨_, h2⟩ := isqrt_spec n
  have h3 : k ^ 2 < (isqrt n + 1) ^ 2 := lt_of_le_of_lt h h2
  have h4 := lt_of_pow_lt_pow_left₀ 2 (by positivity) h3
  omega

/-- The integer chosen by `roundSqrt` from the integer root `M0` of the floor of
`X`: it is `M0` or `M0 + 1`, and `X` is at most the square of the midpoint above
it. -/
theorem roundSqrt_choice (X : ℚ) (M0 : Nat) (h2 : X < ((M0 : ℚ) + 1) ^ 2) :
    M0 ≤ (if X < ((2 * M0 + 1 : Nat) : ℚ) ^ 2 / 4 then M0
      else if ((2 * M0 + 1 : Nat) : ℚ) ^ 2 / 4 < X then M0 + 1
      else if M0 % 2 = 0 then M0 else M0 + 1) ∧
    X ≤ (((if X < ((2 * M0 + 1 : Nat) : ℚ) ^ 2 / 4 then M0
      else if ((2 * M0 + 1 : Nat) : ℚ) ^ 2 / 4 < X then M0 + 1
      else if M0 % 2 = 0 then M0 else M0 + 1 : Nat) : ℚ) + 1 / 2) ^ 2 := by
  have emid : ((2 * M0 + 1 : Nat) : ℚ) ^ 2 / 4 = ((M0 : ℚ) + 1 / 2) ^ 2 := by
    push_cast; ring
  have hM0 : (0 : ℚ) ≤ (M0 : ℚ) := by positivity
  rw [emid]
  split_ifs with a b c
  · exact ⟨le_refl _, a.le⟩
  · refine ⟨by omega, ?_⟩
    push_cast
    nlinarith
  · exact ⟨le_refl _, not_lt.mp b⟩
  · refine ⟨by omega, ?_⟩
    push_cast
    nlinarith

/-- The integer chosen by `roundSqrt`, seen from below: `X` is at least the square
of the midpoint under it. -/
theorem roundSqrt_choice_ge (X : ℚ) (M0 : Nat) (h0 : 1 ≤ M0) (h1 : ((M0 : ℚ)) ^ 2 ≤ X) :
    (((if X < ((2 * M0 + 1 : Nat) : ℚ) ^ 2 / 4 then M0
      else if ((2 * M0 + 1 : Nat) : ℚ) ^ 2 / 4 < X then M0 + 1
      else if M0 % 2 = 0 then M0 else M0 + 1 : Nat) : ℚ) - 1 / 2) ^ 2 ≤ X := by
  have emid : ((2 * M0 + 1 : Nat) : ℚ) ^ 2 / 4 = ((M0 : ℚ) + 1 / 2) ^ 2 := by
    push_cast; ring
  have h0' : (1 : ℚ) ≤ (M0 : ℚ) := by exact_mod_cast h0
  have e : ((M0 : ℚ) + 1 - 1 / 2) = (M0 : ℚ) + 1 / 2 := by ring
  rw [emid]
  split_ifs with a b c
  · nlinarith
  · push_cast
    rw [e]
    exact b.le
  · nlinarith
  · push_cast
    rw [e]
    exact not_lt.mp a

/-- The rounded square root of a positive rational `P` is `M * 2 ^ e` for an integer
`M` of `p + 1` bits, and `P`, scaled by `4 ^ e`, lies between the squares of the
two midpoints around `M`. -/
theorem roundSqrt_eq (p : Nat) {P : ℚ} (hP : 0 < P) :
    ∃ M : Nat, roundSqrt (p + 1) P = (M : ℚ) * (2 : ℚ) ^ (binExp P / 2 - (p : Int)) ∧
      2 ^ p ≤ M ∧ P / (4 : ℚ) ^ (binExp P / 2 - (p : Int)) ≤ ((M : ℚ) + 1 / 2) ^ 2 ∧
      ((M : ℚ) - 1 / 2) ^ 2 ≤ P / (4 : ℚ) ^ (binExp P / 2 - (p : Int)) := by
  have e : ((p + 1 : Nat) : Int) - 1 = (p : Int) := by push_cast; ring
  unfold roundSqrt
  rw [if_neg (not_le.mpr hP), e]
  dsimp only
  obtain ⟨s1, _⟩ := binExp_spec hP
  have two : (2 : ℚ) ≠ 0 := by norm_num
  have four : (4 : ℚ) = 2 * 2 := by norm_num
  have pe : (0 : ℚ) < (4 : ℚ) ^ (binExp P / 2 - (p : Int)) := zpow_pos (by norm_num) _
  -- the scaled value is at least `4 ^ p`
  have hX : ((4 ^ p : Nat) : ℚ) ≤ P / (4 : ℚ) ^ (binExp P / 2 - (p : Int)) := by
    rw [le_div_iff₀ pe]
    have e1 : ((4 ^ p : Nat) : ℚ) * (4 : ℚ) ^ (binExp P / 2 - (p : Int))
        = (2 : ℚ) ^ (2 * (binExp P / 2)) := by
      push_cast
      rw [← zpow_natCast, ← zpow_add₀ (by norm_num : (4 : ℚ) ≠ 0), four, mul_zpow,
        ← zpow_add₀ two]
      congr 1
      ring
    rw [e1]
    exact le_trans (zpow_le_zpow_right₀ (by norm_num) (by omega)) s1
  have hX0 : (0 : ℚ) ≤ P / (4 : ℚ) ^ (binExp P / 2 - (p : Int)) := by positivity
  have hf0 : 0 ≤ ⌊P / (4 : ℚ) ^ (binExp P / 2 - (p : Int))⌋ := Int.floor_nonneg.mpr hX0
  have hfl : ((4 ^ p : Nat) : Int) ≤ ⌊P / (4 : ℚ) ^ (binExp P / 2 - (p : Int))⌋ := by
    rw [Int.le_floor]
    exact_mod_cast hX
  have hnat : (2 ^ p) ^ 2 ≤ ⌊P / (4 : ℚ) ^ (binExp P / 2 - (p : Int))⌋.toNat := by
    have e2 : (2 ^ p) ^ 2 = 4 ^ p := by
      rw [← pow_mul, mul_comm, pow_mul]
      norm_num
    rw [e2]
    omega
  have hM0 := le_isqrt hnat
  have hM1 : 1 ≤ isqrt ⌊P / (4 : ℚ) ^ (binExp P / 2 - (p : Int))⌋.toNat :=
    le_trans Nat.one_le_two_pow hM0
  obtain ⟨i1, i2⟩ := isqrt_spec ⌊P / (4 : ℚ) ^ (binExp P / 2 - (p : Int))⌋.toNat
  have hlt : P / (4 : ℚ) ^ (binExp P / 2 - (p : Int))
      < ((isqrt ⌊P / (4 : ℚ) ^ (binExp P / 2 - (p : Int))⌋.toNat : ℚ) + 1) ^ 2 := by
    have h1 := Int.lt_floor_add_one (P / (4 : ℚ) ^ (binExp P / 2 - (p : Int)))
    have h2 : ⌊P / (4 : ℚ) ^ (binExp P / 2 - (p : Int))⌋ + 1
        ≤ (((isqrt ⌊P / (4 : ℚ) ^ (binExp P / 2 - (p : Int))⌋.toNat + 1) ^ 2 : Nat) : Int) := by
      omega
    have h3 : ((⌊P / (4 : ℚ) ^ (binExp P / 2 - (p : Int))⌋ + 1 : Int) : ℚ)
        ≤ ((((isqrt ⌊P / (4 : ℚ) ^ (binExp P / 2 - (p : Int))⌋.toNat + 1) ^ 2 : Nat) : Int) : ℚ) :=
      Int.cast_le.mpr h2
    push_cast at h3
    linarith
  have hge : ((isqrt ⌊P / (4 : ℚ) ^ (binExp P / 2 - (p : Int))⌋.toNat : ℚ)) ^ 2
      ≤ P / (4 : ℚ) ^ (binExp P / 2 - (p : Int)) := by
    have h1 := Int.floor_le (P / (4 : ℚ) ^ (binExp P / 2 - (p : Int)))
    have h2 : (((isqrt ⌊P / (4 : ℚ) ^ (binExp P / 2 - (p : Int))⌋.toNat) ^ 2 : Nat) : Int)
        ≤ ⌊P / (4 : ℚ) ^ (binExp P / 2 - (p : Int))⌋ := by
      omega
    have h3 : (((((isqrt ⌊P / (4 : ℚ) ^ (binExp P / 2 - (p : Int))⌋.toNat) ^ 2 : Nat) : Int)) : ℚ)
        ≤ ((⌊P / (4 : ℚ) ^ (binExp P / 2 - (p : Int))⌋ : Int) : ℚ) :=
      Int.cast_le.mpr h2
    push_cast at h3
    linarith
  obtain ⟨c1, c2⟩ := roundSqrt_choice _ _ hlt
  exact ⟨_, rfl, le_trans hM0 c1, c2, roundSqrt_choice_ge _ _ hM1 hge⟩

/-- The rounded square root of a positive rational is positive, and its square,
enlarged by the factor `(1 + 2 ^ (-(p + 1))) ^ 2`, is at least the argument, and
reduced by the factor `(1 - 2 ^ (-(p + 1))) ^ 2`, at most the argument. -/
theorem roundSqrt_spec (p : Nat) {P : ℚ} (hP : 0 < P) :
    0 < roundSqrt (p + 1) P ∧
    P ≤ (roundSqrt (p + 1) P * (1 + 1 / (2 : ℚ) ^ (p + 1))) ^ 2 ∧
    (roundSqrt (p + 1) P * (1 - 1 / (2 : ℚ) ^ (p + 1))) ^ 2 ≤ P := by
  obtain ⟨M, e, h1, h2, h2'⟩ := roundSqrt_eq p hP
  have pe2 : (0 : ℚ) < (2 : ℚ) ^ (binExp P / 2 - (p : Int)) := zpow_pos (by norm_num) _
  have pe : (0 : ℚ) < (4 : ℚ) ^ (binExp P / 2 - (p : Int)) := zpow_pos (by norm_num) _
  have e4 : (4 : ℚ) ^ (binExp P / 2 - (p : Int))
      = (2 : ℚ) ^ (binExp P / 2 - (p : Int)) * (2 : ℚ) ^ (binExp P / 2 - (p : Int)) := by
    rw [show (4 : ℚ) = 2 * 2 by norm_num, mul_zpow]
  have hM : ((2 : ℚ) ^ p) ≤ (M : ℚ) := by exact_mod_cast h1
  have hp : (0 : ℚ) < (2 : ℚ) ^ p := by positivity
  have hp1 : (1 : ℚ) ≤ (2 : ℚ) ^ p := one_le_pow₀ (by norm_num)
  have hM0 : (0 : ℚ) < (M : ℚ) := lt_of_lt_of_le hp hM
  have hhalf : (1 : ℚ) / 2 ≤ (M : ℚ) * (1 / (2 : ℚ) ^ (p + 1)) := by
    rw [pow_succ, mul_one_div, le_div_iff₀ (by positivity)]
    linarith
  rw [e]
  refine ⟨by positivity, ?_, ?_⟩
  · rw [div_le_iff₀ pe] at h2
    have h3 : (M : ℚ) + 1 / 2 ≤ (M : ℚ) * (1 + 1 / (2 : ℚ) ^ (p + 1)) := by linarith
    have h4 : ((M : ℚ) + 1 / 2) ^ 2 ≤ ((M : ℚ) * (1 + 1 / (2 : ℚ) ^ (p + 1))) ^ 2 :=
      pow_le_pow_left₀ (by positivity) h3 2
    calc P ≤ ((M : ℚ) + 1 / 2) ^ 2 * (4 : ℚ) ^ (binExp P / 2 - (p : Int)) := h2
      _ ≤ ((M : ℚ) * (1 + 1 / (2 : ℚ) ^ (p + 1))) ^ 2 * (4 : ℚ) ^ (binExp P / 2 - (p : Int)) :=
          mul_le_mul_of_nonneg_right h4 pe.le
      _ = ((M : ℚ) * (2 : ℚ) ^ (binExp P / 2 - (p : Int)) * (1 + 1 / (2 : ℚ) ^ (p + 1))) ^ 2 := by
          rw [e4]; ring
  · rw [le_div_iff₀ pe] at h2'
    have hlow : (0 : ℚ) ≤ (M : ℚ) * (1 - 1 / (2 : ℚ) ^ (p + 1)) := by
      apply mul_nonneg hM0.le
      rw [sub_nonneg, div_le_one (by positivity)]
      exact one_le_pow₀ (by norm_num)
    have h3 : (M : ℚ) * (1 - 1 / (2 : ℚ) ^ (p + 1)) ≤ (M : ℚ) - 1 / 2 := by linarith
    have h4 : ((M : ℚ) * (1 - 1 / (2 : ℚ) ^ (p + 1))) ^ 2 ≤ ((M : ℚ) - 1 / 2) ^ 2 :=
      pow_le_pow_left₀ hlow h3 2
    calc ((M : ℚ) * (2 : ℚ) ^ (binExp P / 2 - (p : Int)) * (1 - 1 / (2 : ℚ) ^ (p + 1))) ^ 2
        = ((M : ℚ) * (1 - 1 / (2 : ℚ) ^ (p + 1))) ^ 2 * (4 : ℚ) ^ (binExp P / 2 - (p : Int)) := by
          rw [e4]; ring
      _ ≤ ((M : ℚ) - 1 / 2) ^ 2 * (4 : ℚ) ^ (binExp P / 2 - (p : Int)) :=
          mul_le_mul_of_nonneg_right h4 pe.le
      _ ≤ P := h2'

/-- Rounding a positive rational to `double` loses at most the fraction `2 ^ (-53)`
of it. -/
theorem f64_ge {d : ℚ} (hd : 0 < d) : d * (1 - 1 / (2 : ℚ) ^ 53) ≤ f64 d := by
  have h := roundFloat_error 52 d
  rw [abs_of_pos hd] at h
  obtain ⟨s1, _⟩ := binExp_spec hd
  have e : (2 : ℚ) ^ (binExp d - ((52 : Nat) : Int)) = (2 : ℚ) ^ binExp d / (2 : ℚ) ^ 52 := by
    rw [zpow_sub₀ (by norm_num), zpow_natCast]
  rw [e, abs_le] at h
  have h1 : (2 : ℚ) ^ binExp d / (2 : ℚ) ^ 52 / 2 ≤ d / (2 : ℚ) ^ 53 := by
    rw [div_div, show (2 : ℚ) ^ 52 * 2 = (2 : ℚ) ^ 53 by norm_num]
    exact div_le_div_of_nonneg_right s1 (by positivity)
  have h2 := h.1
  unfold f64
  have e2 : d * (1 - 1 / (2 : ℚ) ^ 53) = d - d / (2 : ℚ) ^ 53 := by ring
  rw [e2]
  linarith

/-- Rounding a positive rational to `double` adds at most the fraction `2 ^ (-53)`
of it. -/
theorem f64_le {d : ℚ} (hd : 0 < d) : f64 d ≤ d * (1 + 1 / (2 : ℚ) ^ 53) := by
  have h := roundFloat_error 52 d
  rw [abs_of_pos hd] at h
  obtain ⟨s1, _⟩ := binExp_spec hd
  have e : (2 : ℚ) ^ (binExp d - ((52 : Nat) : Int)) = (2 : ℚ) ^ binExp d / (2 : ℚ) ^ 52 := by
    rw [zpow_sub₀ (by norm_num), zpow_natCast]
  rw [e, abs_le] at h
  have h1 : (2 : ℚ) ^ binExp d / (2 : ℚ) ^ 52 / 2 ≤ d / (2 : ℚ) ^ 53 := by
    rw [div_div, show (2 : ℚ) ^ 52 * 2 = (2 : ℚ) ^ 53 by norm_num]
    exact div_le_div_of_nonneg_right s1 (by positivity)
  have h2 := h.2
  unfold f64
  have e2 : d * (1 + 1 / (2 : ℚ) ^ 53) = d + d / (2 : ℚ) ^ 53 := by ring
  rw [e2]
  linarith

set_option maxRecDepth 100000 in
/-- The `float` nearest to `1 + 2 ^ (-51)` is `1`, and `1 + 2 ^ (-51)` is a
`double`. -/
theorem f32_near_one :
    f32 (1 + 1 / (2 : ℚ) ^ 51) = 1 ∧ f64 (1 + 1 / (2 : ℚ) ^ 51) = 1 + 1 / (2 : ℚ) ^ 51 := by
  decide!

/-! ## The value returned for a score -/

/-- The value returned for a score with `num ^ 2 ≤ den2` lies in `[-1, 1]`: the
`double` denominator falls short of `|num|` by a factor of at most `1 + 2 ^ (-51)`,
and the conversion to `float` brings the quotient back into the interval. -/
theorem Score.toFloat_range (s : Score) (hd : 0 < s.den2) (hs : s.num ^ 2 ≤ (s.den2 : Int)) :
    -1 ≤ s.toFloat ∧ s.toFloat ≤ 1 := by
  have hd' : (0 : ℚ) < (s.den2 : ℚ) := by exact_mod_cast hd
  have hs' : (s.num : ℚ) ^ 2 ≤ (s.den2 : ℚ) := by exact_mod_cast hs
  have hP := f64_ge hd'
  have hu : (0 : ℚ) < 1 - 1 / (2 : ℚ) ^ 53 := by norm_num
  have hP0 : 0 < f64 (s.den2 : ℚ) := lt_of_lt_of_le (mul_pos hd' hu) hP
  obtain ⟨hD0, hD, _⟩ := roundSqrt_spec 52 hP0
  -- `num ^ 2 ≤ (D * c) ^ 2` with `c = 1 + 2 ^ (-51)`
  have key : (s.num : ℚ) ^ 2
      ≤ (roundSqrt (52 + 1) (f64 (s.den2 : ℚ)) * (1 + 1 / (2 : ℚ) ^ 51)) ^ 2 := by
    have h1 : (s.num : ℚ) ^ 2 * (1 - 1 / (2 : ℚ) ^ 53)
        ≤ (roundSqrt (52 + 1) (f64 (s.den2 : ℚ)) * (1 + 1 / (2 : ℚ) ^ (52 + 1))) ^ 2 :=
      le_trans (le_trans (mul_le_mul_of_nonneg_right hs' hu.le) hP) hD
    have h2 : (1 + 1 / (2 : ℚ) ^ (52 + 1)) ^ 2
        ≤ (1 - 1 / (2 : ℚ) ^ 53) * (1 + 1 / (2 : ℚ) ^ 51) ^ 2 := by norm_num
    have h3 : (0 : ℚ) ≤ roundSqrt (52 + 1) (f64 (s.den2 : ℚ)) ^ 2 := by positivity
    have h4 : (s.num : ℚ) ^ 2 * (1 - 1 / (2 : ℚ) ^ 53)
        ≤ (roundSqrt (52 + 1) (f64 (s.den2 : ℚ)) * (1 + 1 / (2 : ℚ) ^ 51)) ^ 2
          * (1 - 1 / (2 : ℚ) ^ 53) := by
      calc (s.num : ℚ) ^ 2 * (1 - 1 / (2 : ℚ) ^ 53)
          ≤ (roundSqrt (52 + 1) (f64 (s.den2 : ℚ)) * (1 + 1 / (2 : ℚ) ^ (52 + 1))) ^ 2 := h1
        _ = roundSqrt (52 + 1) (f64 (s.den2 : ℚ)) ^ 2 * (1 + 1 / (2 : ℚ) ^ (52 + 1)) ^ 2 := by
            ring
        _ ≤ roundSqrt (52 + 1) (f64 (s.den2 : ℚ)) ^ 2
              * ((1 - 1 / (2 : ℚ) ^ 53) * (1 + 1 / (2 : ℚ) ^ 51) ^ 2) :=
            mul_le_mul_of_nonneg_left h2 h3
        _ = _ := by ring
    exact le_of_mul_le_mul_right h4 hu
  have hc : (0 : ℚ) < 1 + 1 / (2 : ℚ) ^ 51 := by positivity
  have habs : |(s.num : ℚ)| ≤ roundSqrt (52 + 1) (f64 (s.den2 : ℚ)) * (1 + 1 / (2 : ℚ) ^ 51) :=
    abs_le_of_sq_le_sq key (by positivity)
  have hq : |(s.num : ℚ) / f64sqrt (f64 (s.den2 : ℚ))| ≤ 1 + 1 / (2 : ℚ) ^ 51 := by
    unfold f64sqrt
    rw [abs_div, abs_of_pos hD0, div_le_iff₀ hD0]
    linarith
  rw [abs_le] at hq
  obtain ⟨n1, n2⟩ := f32_near_one
  unfold Score.toFloat
  constructor
  · have h1 := roundFloat_mono 52 hq.1
    have h2 : roundFloat (52 + 1) (-(1 + 1 / (2 : ℚ) ^ 51)) = -(1 + 1 / (2 : ℚ) ^ 51) := by
      rw [roundFloat_neg]
      exact congrArg Neg.neg n2
    rw [h2] at h1
    have h3 := f32_mono h1
    have h4 : f32 (-(1 + 1 / (2 : ℚ) ^ 51)) = -1 := by
      unfold f32
      rw [roundFloat_neg]
      exact congrArg Neg.neg n1
    rw [h4] at h3
    exact h3
  · have h1 := roundFloat_mono 52 hq.2
    have h2 : roundFloat (52 + 1) (1 + 1 / (2 : ℚ) ^ 51) = 1 + 1 / (2 : ℚ) ^ 51 := n2
    rw [h2] at h1
    have h3 := f32_mono h1
    rw [n1] at h3
    exact h3

set_option maxRecDepth 100000 in
/-- The `float` nearest to `1 - 2 ^ (-51)` is `1`, and `1 - 2 ^ (-51)` is a
`double`; the score `⟨0, 1⟩` of the zero-denominator branch is returned as `0`. -/
theorem f32_below_one :
    f32 (1 - 1 / (2 : ℚ) ^ 51) = 1 ∧ f64 (1 - 1 / (2 : ℚ) ^ 51) = 1 - 1 / (2 : ℚ) ^ 51 ∧
    Score.toFloat ⟨0, 1⟩ = 0 := by
  decide!

/-- A score with positive numerator and `num ^ 2 = den2`, that of two proportional
windows, is returned as exactly `1`: the `double` quotient is within `2 ^ (-51)`
of `1`, and the `float` nearest to it is `1`. -/
theorem Score.toFloat_one (s : Score) (hn : 0 < s.num) (hs : s.num ^ 2 = (s.den2 : Int)) :
    s.toFloat = 1 := by
  have hd : 0 < s.den2 := by
    have : (0 : Int) < s.num ^ 2 := by positivity
    omega
  obtain ⟨_, hup⟩ := Score.toFloat_range s hd (le_of_eq hs)
  apply le_antisymm hup
  have ha : (0 : ℚ) < (s.num : ℚ) := by exact_mod_cast hn
  have hd' : (0 : ℚ) < (s.den2 : ℚ) := by exact_mod_cast hd
  have hs' : (s.den2 : ℚ) = (s.num : ℚ) ^ 2 := by exact_mod_cast hs.symm
  have hP1 := f64_ge hd'
  have hP2 := f64_le hd'
  have hu : (0 : ℚ) < 1 - 1 / (2 : ℚ) ^ 53 := by norm_num
  have hP0 : 0 < f64 (s.den2 : ℚ) := lt_of_lt_of_le (mul_pos hd' hu) hP1
  obtain ⟨hD0, _, hD⟩ := roundSqrt_spec 52 hP0
  have h1 : (roundSqrt (52 + 1) (f64 (s.den2 : ℚ)) * (1 - 1 / (2 : ℚ) ^ (52 + 1))) ^ 2
      ≤ ((s.num : ℚ) * (1 + 1 / (2 : ℚ) ^ 53)) ^ 2 := by
    have h2 : (s.den2 : ℚ) * (1 + 1 / (2 : ℚ) ^ 53)
        ≤ ((s.num : ℚ) * (1 + 1 / (2 : ℚ) ^ 53)) ^ 2 := by
      rw [hs', mul_pow]
      apply mul_le_mul_of_nonneg_left _ (by positivity)
      norm_num
    exact le_trans (le_trans hD hP2) h2
  have h3 : roundSqrt (52 + 1) (f64 (s.den2 : ℚ)) * (1 - 1 / (2 : ℚ) ^ (52 + 1))
      ≤ (s.num : ℚ) * (1 + 1 / (2 : ℚ) ^ 53) :=
    le_trans (le_abs_self _) (abs_le_of_sq_le_sq h1 (by positivity))
  have hq : 1 - 1 / (2 : ℚ) ^ 51 ≤ (s.num : ℚ) / f64sqrt (f64 (s.den2 : ℚ)) := by
    unfold f64sqrt
    rw [le_div_iff₀ hD0]
    have k : (1 - 1 / (2 : ℚ) ^ 51) * (1 + 1 / (2 : ℚ) ^ 53) ≤ 1 - 1 / (2 : ℚ) ^ (52 + 1) := by
      norm_num
    have h4 : (1 - 1 / (2 : ℚ) ^ 51)
        * (roundSqrt (52 + 1) (f64 (s.den2 : ℚ)) * (1 - 1 / (2 : ℚ) ^ (52 + 1)))
        ≤ (1 - 1 / (2 : ℚ) ^ 51) * ((s.num : ℚ) * (1 + 1 / (2 : ℚ) ^ 53)) :=
      mul_le_mul_of_nonneg_left h3 (by norm_num)
    have h5 : (1 - 1 / (2 : ℚ) ^ 51) * ((s.num : ℚ) * (1 + 1 / (2 : ℚ) ^ 53))
        ≤ (s.num : ℚ) * (1 - 1 / (2 : ℚ) ^ (52 + 1)) := by
      have := mul_le_mul_of_nonneg_left k ha.le
      linarith
    have h6 : (1 - 1 / (2 : ℚ) ^ 51) * roundSqrt (52 + 1) (f64 (s.den2 : ℚ))
          * (1 - 1 / (2 : ℚ) ^ (52 + 1))
        ≤ (s.num : ℚ) * (1 - 1 / (2 : ℚ) ^ (52 + 1)) := by
      linarith
    exact le_of_mul_le_mul_right h6 (by norm_num)
  obtain ⟨n1, n2, _⟩ := f32_below_one
  have h7 := roundFloat_mono 52 hq
  have h8 : roundFloat (52 + 1) (1 - 1 / (2 : ℚ) ^ 51) = 1 - 1 / (2 : ℚ) ^ 51 := n2
  rw [h8] at h7
  have h9 := f32_mono h7
  rw [n1] at h9
  exact h9

/-- The value returned for two windows that hold the same constant `c` over
`L > 0` points: `1`, or `0` when the constant is `0`. -/
theorem constantScore_toFloat (c : Int) (L : Nat) (hL : 0 < L) :
    (constantScore c L).toFloat = if c = 0 then 0 else 1 := by
  unfold constantScore
  by_cases hc : c = 0
  · subst hc
    rw [if_pos (by simp), if_pos rfl]
    exact f32_below_one.2.2
  · rw [if_neg hc]
    have h1 : (0 : Int) < (L : Int) * c * c := by
      have hL' : (0 : Int) < (L : Int) := by exact_mod_cast hL
      have hcc : (0 : Int) < c * c := mul_self_pos.mpr hc
      rw [mul_assoc]
      exact mul_pos hL' hcc
    have h2 : (0 : Int) < (L : Int) * c * c * ((L : Int) * c * c) := mul_pos h1 h1
    rw [if_neg h2.ne']
    apply Score.toFloat_one _ h1
    show ((L : Int) * c * c) ^ 2 = ((((L : Int) * c * c * ((L : Int) * c * c)).toNat : Nat) : Int)
    rw [Int.toNat_of_nonneg h2.le]
    ring

/-! ## Facts about the intervals -/

/-- The floor of `N / 2` is the integer quotient. -/
theorem floor_half (N : Nat) : ⌊(N : ℚ) / 2⌋ = ((N / 2 : Nat) : Int) := by
  rw [Int.floor_eq_iff]
  have h2 : (N : ℚ) = 2 * ((N / 2 : Nat) : ℚ) + ((N % 2 : Nat) : ℚ) := by
    exact_mod_cast (Nat.div_add_mod N 2).symm
  have h3 : ((N % 2 : Nat) : ℚ) < 2 := by exact_mod_cast Nat.mod_lt N (by norm_num)
  have h4 : (0 : ℚ) ≤ ((N % 2 : Nat) : ℚ) := by positivity
  rw [Int.cast_natCast]
  constructor <;> linarith

/-- Truncation of a non-negative value is its floor. -/
theorem truncQ_of_nonneg {q : ℚ} (h : 0 ≤ q) : truncQ q = ⌊q⌋ := by
  unfold truncQ
  rw [if_pos h]

/-- The analysis interval without the 16-bit conversion: the integer part of the
single-precision quotient when `alpha > 1`, and `N / 2` otherwise. -/
theorem intervals_sa {N : Nat} {alpha : ℚ} (hN : N ≤ 1000) (ha : 1 / 2 ≤ alpha) :
    ((SOLA_GetIntervals N alpha).1 : Int)
      = (if alpha > 1 then ⌊f32 ((N : ℚ) / (2 * alpha))⌋ else ((N / 2 : Nat) : Int)) := by
  show (toU16 (truncQ (if alpha > 1 then f32 ((N : ℚ) / (2 * alpha))
    else ((N / 2 : Nat) : ℚ))) : Int) = _
  have hpos : (0 : ℚ) < alpha := by linarith
  split_ifs with h
  · have hv0 : (0 : ℚ) ≤ (N : ℚ) / (2 * alpha) := by positivity
    have hv1 : (N : ℚ) / (2 * alpha) ≤ (N : ℚ) := by
      rw [div_le_iff₀ (by positivity)]
      have : (0 : ℚ) ≤ (N : ℚ) := by positivity
      nlinarith
    have h0 := f32_nonneg hv0
    have h1 : f32 ((N : ℚ) / (2 * alpha)) ≤ (N : ℚ) := by
      have := f32_mono hv1
      rwa [f32_natCast N (by omega)] at this
    rw [truncQ_of_nonneg h0]
    apply toU16_of_range (Int.floor_nonneg.mpr h0)
    have h2 : ⌊f32 ((N : ℚ) / (2 * alpha))⌋ ≤ (N : Int) := by
      have := Int.floor_mono h1
      rwa [Int.floor_natCast] at this
    omega
  · rw [truncQ_of_nonneg (by positivity), Int.floor_natCast]
    exact toU16_of_range (by positivity) (by omega)

/-- The analysis interval is at most `N / 2`. -/
theorem intervals_sa_le {N : Nat} {alpha : ℚ} (hN : N ≤ 1000) (ha : 1 / 2 ≤ alpha) :
    (SOLA_GetIntervals N alpha).1 ≤ N / 2 := by
  have h := intervals_sa hN ha
  have hpos : (0 : ℚ) < alpha := by linarith
  split_ifs at h with h1
  · have hv : (N : ℚ) / (2 * alpha) ≤ (N : ℚ) / (2 : ℚ) ^ 1 := by
      rw [pow_one, div_le_div_iff₀ (by positivity) (by norm_num)]
      have : (0 : ℚ) ≤ (N : ℚ) := by positivity
      nlinarith
    have h2 := f32_mono hv
    rw [f32_div_pow N 1 (by omega), pow_one] at h2
    have h3 := Int.floor_mono h2
    rw [floor_half] at h3
    omega
  · omega

/-- The analysis interval is at least `6` under the configuration bounds. -/
theorem intervals_sa_ge {N : Nat} {alpha : ℚ} (hN25 : 25 ≤ N) (hN : N ≤ 1000)
    (ha : 1 / 2 ≤ alpha) (ha2 : alpha ≤ 2) : 6 ≤ (SOLA_GetIntervals N alpha).1 := by
  have h := intervals_sa hN ha
  have hpos : (0 : ℚ) < alpha := by linarith
  split_ifs at h with h1
  · have hv : ((25 : Nat) : ℚ) / (2 : ℚ) ^ 2 ≤ (N : ℚ) / (2 * alpha) := by
      rw [div_le_div_iff₀ (by positivity) (by positivity)]
      have : ((25 : Nat) : ℚ) ≤ (N : ℚ) := by exact_mod_cast hN25
      push_cast at this ⊢
      nlinarith
    have h2 := f32_mono hv
    rw [f32_div_pow 25 2 (by omega)] at h2
    have h3 := Int.floor_mono h2
    have h4 : ⌊((25 : Nat) : ℚ) / (2 : ℚ) ^ 2⌋ = 6 := by
      rw [Int.floor_eq_iff]; norm_num
    omega
  · omega

/-- The analysis interval is at least `1` under the configuration bounds. -/
theorem intervals_sa_pos {N : Nat} {alpha : ℚ} (hN25 : 25 ≤ N) (hN : N ≤ 1000)
    (ha : 1 / 2 ≤ alpha) (ha2 : alpha ≤ 2) : 1 ≤ (SOLA_GetIntervals N alpha).1 := by
  have := intervals_sa_ge hN25 hN ha ha2
  omega

/-- The synthesis interval without the 16-bit conversion: the integer part of the
single-precision product `sa * alpha`. -/
theorem intervals_ss {N : Nat} {alpha : ℚ} (hN : N ≤ 1000) (ha : 1 / 2 ≤ alpha)
    (ha2 : alpha ≤ 2) :
    ((SOLA_GetIntervals N alpha).2 : Int)
      = ⌊f32 (((SOLA_GetIntervals N alpha).1 : ℚ) * alpha)⌋ := by
  have hle := intervals_sa_le hN ha
  have hpos : (0 : ℚ) < alpha := by linarith
  have hsa : ((SOLA_GetIntervals N alpha).1 : ℚ) ≤ 500 := by
    have : (SOLA_GetIntervals N alpha).1 ≤ 500 := by omega
    exact_mod_cast this
  have h0 : (0 : ℚ) ≤ ((SOLA_GetIntervals N alpha).1 : ℚ) := by positivity
  show (toU16 (truncQ (f32 (((SOLA_GetIntervals N alpha).1 : ℚ) * alpha))) : Int) = _
  have hv0 : (0 : ℚ) ≤ ((SOLA_GetIntervals N alpha).1 : ℚ) * alpha := by positivity
  have hv1 : ((SOLA_GetIntervals N alpha).1 : ℚ) * alpha ≤ ((1000 : Nat) : ℚ) := by
    push_cast; nlinarith
  have h1 := f32_nonneg hv0
  have h2 := f32_mono hv1
  rw [f32_natCast 1000 (by norm_num)] at h2
  rw [truncQ_of_nonneg h1]
  apply toU16_of_range (Int.floor_nonneg.mpr h1)
  have h3 := Int.floor_mono h2
  rw [Int.floor_natCast] at h3
  omega

/-- A single-precision value whose integer part is `k` comes from an argument
above `k - 2 ^ (-15)`, for `k` up to `500`. -/
theorem f32_floor_gt {v : ℚ} {k : Nat} (hk : k ≤ 500) (h : (k : Int) ≤ ⌊f32 v⌋) :
    (k : ℚ) - 1 / (2 : ℚ) ^ 15 < v := by
  by_contra hc
  rw [not_lt] at hc
  rcases Nat.eq_zero_or_pos k with h0 | h0
  · subst h0
    have hv : v ≤ -1 / (2 : ℚ) ^ 15 := by
      have := hc
      norm_num at this ⊢
      linarith
    have h1 : f32 v ≤ f32 (-((1 : Nat) : ℚ) / (2 : ℚ) ^ 15) := f32_mono (by push_cast; linarith)
    have h2 : f32 (-((1 : Nat) : ℚ) / (2 : ℚ) ^ 15) = -(((1 : Nat) : ℚ) / (2 : ℚ) ^ 15) := by
      rw [neg_div]
      unfold f32
      rw [roundFloat_neg]
      congr 1
      exact f32_div_pow 1 15 (by norm_num)
    rw [h2] at h1
    have h3 : (0 : ℚ) ≤ f32 v := by
      have := Int.floor_le (f32 v)
      have h4 : ((0 : Int) : ℚ) ≤ ((⌊f32 v⌋ : Int) : ℚ) := by exact_mod_cast h
      push_cast at h4
      linarith
    norm_num at h1
    linarith
  · have e : (k : ℚ) - 1 / (2 : ℚ) ^ 15 = ((k * 32768 - 1 : Nat) : ℚ) / (2 : ℚ) ^ 15 := by
      have : 1 ≤ k * 32768 := by omega
      rw [Nat.cast_sub this]
      push_cast
      norm_num
      ring
    rw [e] at hc
    have h1 := f32_mono hc
    rw [f32_div_pow _ 15 (by omega), ← e] at h1
    have h2 := Int.floor_le (f32 v)
    have h3 : ((k : Int) : ℚ) ≤ ((⌊f32 v⌋ : Int) : ℚ) := by exact_mod_cast h
    push_cast at h3
    have : (0 : ℚ) < 1 / (2 : ℚ) ^ 15 := by positivity
    linarith

/-- The synthesis interval is at most `N / 2`: the product `Sa * alpha` exceeds `N / 2`
by less than `2 ^ (-14)`, and so does its rounding. -/
theorem intervals_ss_le {N : Nat} {alpha : ℚ} (hN : N ≤ 1000) (ha : 1 / 2 ≤ alpha)
    (ha2 : alpha ≤ 2) : (SOLA_GetIntervals N alpha).2 ≤ N / 2 := by
  have hss := intervals_ss hN ha ha2
  have hsa := intervals_sa hN ha
  have hle := intervals_sa_le hN ha
  have hpos : (0 : ℚ) < alpha := by linarith
  have h0 : (0 : ℚ) ≤ ((SOLA_GetIntervals N alpha).1 : ℚ) := by positivity
  have hN0 : (0 : ℚ) ≤ (N : ℚ) := by positivity
  -- the product is at most `N / 2 + 2 ^ (-14)`
  have key : ((SOLA_GetIntervals N alpha).1 : ℚ) * alpha
      ≤ ((N * 8192 + 1 : Nat) : ℚ) / (2 : ℚ) ^ 14 := by
    have e : ((N * 8192 + 1 : Nat) : ℚ) / (2 : ℚ) ^ 14 = (N : ℚ) / 2 + 1 / (2 : ℚ) ^ 14 := by
      push_cast; norm_num; ring
    rw [e]
    split_ifs at hsa with h1
    · have hgt := f32_floor_gt (v := (N : ℚ) / (2 * alpha)) (k := (SOLA_GetIntervals N alpha).1)
        (by omega) (by omega)
      have h2 : ((SOLA_GetIntervals N alpha).1 : ℚ) * alpha
          < ((N : ℚ) / (2 * alpha) + 1 / (2 : ℚ) ^ 15) * alpha :=
        mul_lt_mul_of_pos_right (by linarith) hpos
      have h3 : ((N : ℚ) / (2 * alpha) + 1 / (2 : ℚ) ^ 15) * alpha
          = (N : ℚ) / 2 + alpha / (2 : ℚ) ^ 15 := by
        field_simp
        ring
      have h4 : alpha / (2 : ℚ) ^ 15 ≤ 1 / (2 : ℚ) ^ 14 := by
        rw [div_le_div_iff₀ (by positivity) (by positivity)]
        norm_num
        linarith
      linarith
    · have h2 : ((SOLA_GetIntervals N alpha).1 : ℚ) ≤ (N : ℚ) / 2 := by
        have h3 : ((SOLA_GetIntervals N alpha).1 : Int) = ((N / 2 : Nat) : Int) := hsa
        have h4 : (SOLA_GetIntervals N alpha).1 = N / 2 := by exact_mod_cast h3
        rw [h4, le_div_iff₀ (by norm_num)]
        have : N / 2 * 2 ≤ N := Nat.div_mul_le_self N 2
        exact_mod_cast this
      have h5 : alpha ≤ 1 := not_lt.mp h1
      have : (0 : ℚ) < 1 / (2 : ℚ) ^ 14 := by positivity
      nlinarith
  have h1 := f32_mono key
  rw [f32_div_pow _ 14 (by omega)] at h1
  have h2 : ⌊((N * 8192 + 1 : Nat) : ℚ) / (2 : ℚ) ^ 14⌋ = ((N / 2 : Nat) : Int) := by
    rw [Int.floor_eq_iff]
    have hd := Nat.div_add_mod N 2
    have hm := Nat.mod_lt N (show 0 < 2 by norm_num)
    have e : (N : ℚ) = 2 * ((N / 2 : Nat) : ℚ) + ((N % 2 : Nat) : ℚ) := by exact_mod_cast hd.symm
    have h3 : ((N % 2 : Nat) : ℚ) ≤ 1 := by
      have : N % 2 ≤ 1 := by omega
      exact_mod_cast this
    have h4 : (0 : ℚ) ≤ ((N % 2 : Nat) : ℚ) := by positivity
    have e2 : ((N * 8192 + 1 : Nat) : ℚ) = (N : ℚ) * 8192 + 1 := by push_cast; ring
    rw [Int.cast_natCast, e2]
    constructor
    · rw [le_div_iff₀ (by positivity)]
      norm_num
      linarith
    · rw [div_lt_iff₀ (by positivity)]
      norm_num
      linarith
  have h3 := Int.floor_mono h1
  rw [h2] at h3
  omega

/-- The synthesis interval is at least `1` under the configuration bounds. -/
theorem intervals_ss_pos {N : Nat} {alpha : ℚ} (hN25 : 25 ≤ N) (hN : N ≤ 1000)
    (ha : 1 / 2 ≤ alpha) (ha2 : alpha ≤ 2) : 1 ≤ (SOLA_GetIntervals N alpha).2 := by
  have h := intervals_ss hN ha ha2
  have hsa : (6 : ℚ) ≤ ((SOLA_GetIntervals N alpha).1 : ℚ) := by
    exact_mod_cast intervals_sa_ge hN25 hN ha ha2
  have hv : ((3 : Nat) : ℚ) ≤ ((SOLA_GetIntervals N alpha).1 : ℚ) * alpha := by
    push_cast
    nlinarith
  have h1 := f32_mono hv
  rw [f32_natCast 3 (by norm_num)] at h1
  have h2 := Int.floor_mono h1
  rw [Int.floor_natCast] at h2
  omega

/-- At `alpha = 1` both intervals are `N / 2`. -/
theorem intervals_alpha_one {N : Nat} (hN : N ≤ 1000) :
    SOLA_GetIntervals N 1 = (N / 2, N / 2) := by
  have h1 := @intervals_sa N 1 hN (by norm_num)
  have h2 := @intervals_ss N 1 hN (by norm_num) (by norm_num)
  rw [if_neg (by norm_num)] at h1
  have h3 : (SOLA_GetIntervals N 1).1 = N / 2 := by exact_mod_cast h1
  rw [h3, mul_one, f32_natCast _ (by omega), Int.floor_natCast] at h2
  apply Prod.ext
  · exact h3
  · show (SOLA_GetIntervals N 1).2 = N / 2
    omega

/-- With the frame size `1` the analysis interval is `0`. -/
theorem intervals_frame_size_one {alpha : ℚ} (ha : 1 / 2 ≤ alpha) :
    (SOLA_GetIntervals 1 alpha).1 = 0 := by
  have h := @intervals_sa_le 1 alpha (by norm_num) ha
  omega

/-- For `alpha > 1` the analysis interval is the exact floor `floor (N / (2 * alpha))`,
or one more when the single-precision quotient rounds up to an integer: it lies
below `N / (2 * alpha) + 2 ^ (-15)`. -/
theorem intervals_sa_floor {N : Nat} {alpha : ℚ} (hN : N ≤ 1000) (ha : 1 < alpha) :
    ⌊(N : ℚ) / (2 * alpha)⌋ ≤ ((SOLA_GetIntervals N alpha).1 : Int) ∧
    ((SOLA_GetIntervals N alpha).1 : ℚ) < (N : ℚ) / (2 * alpha) + 1 / (2 : ℚ) ^ 15 := by
  have h := @intervals_sa N alpha hN (by linarith)
  have hle := @intervals_sa_le N alpha hN (by linarith)
  rw [if_pos ha] at h
  have hv0 : (0 : ℚ) ≤ (N : ℚ) / (2 * alpha) := by positivity
  have hv1 : (N : ℚ) / (2 * alpha) ≤ (N : ℚ) := by
    rw [div_le_iff₀ (by positivity)]
    have : (0 : ℚ) ≤ (N : ℚ) := by positivity
    nlinarith
  constructor
  · have hf0 : 0 ≤ ⌊(N : ℚ) / (2 * alpha)⌋ := Int.floor_nonneg.mpr hv0
    have hfN : ⌊(N : ℚ) / (2 * alpha)⌋ ≤ (N : Int) := by
      have := Int.floor_mono hv1
      rwa [Int.floor_natCast] at this
    have e : ((⌊(N : ℚ) / (2 * alpha)⌋ : Int) : ℚ) = ((⌊(N : ℚ) / (2 * alpha)⌋.toNat : Nat) : ℚ) := by
      have : ((⌊(N : ℚ) / (2 * alpha)⌋.toNat : Nat) : Int) = ⌊(N : ℚ) / (2 * alpha)⌋ :=
        Int.toNat_of_nonneg hf0
      calc ((⌊(N : ℚ) / (2 * alpha)⌋ : Int) : ℚ)
          = (((⌊(N : ℚ) / (2 * alpha)⌋.toNat : Nat) : Int) : ℚ) := by rw [this]
        _ = _ := Int.cast_natCast _
    have h1 : ((⌊(N : ℚ) / (2 * alpha)⌋ : Int) : ℚ) ≤ f32 ((N : ℚ) / (2 * alpha)) := by
      have h2 := f32_mono (Int.floor_le ((N : ℚ) / (2 * alpha)))
      rw [e, f32_natCast _ (by omega)] at h2
      rw [e]
      exact h2
    rw [h]
    exact Int.le_floor.mpr h1
  · have := f32_floor_gt (v := (N : ℚ) / (2 * alpha)) (k := (SOLA_GetIntervals N alpha).1)
      (by omega) (by omega)
    linarith

/-- The synthesis interval is the exact floor `floor (Sa * alpha)`, or one more when
the single-precision product rounds up to an integer: it lies below
`Sa * alpha + 2 ^ (-15)`. -/
theorem intervals_ss_floor {N : Nat} {alpha : ℚ} (hN : N ≤ 1000) (ha : 1 / 2 ≤ alpha)
    (ha2 : alpha ≤ 2) :
    ⌊((SOLA_GetIntervals N alpha).1 : ℚ) * alpha⌋ ≤ ((SOLA_GetIntervals N alpha).2 : Int) ∧
    ((SOLA_GetIntervals N alpha).2 : ℚ)
      < ((SOLA_GetIntervals N alpha).1 : ℚ) * alpha + 1 / (2 : ℚ) ^ 15 := by
  have h := intervals_ss hN ha ha2
  have hle := intervals_ss_le hN ha ha2
  have hsa := intervals_sa_le hN ha
  have hpos : (0 : ℚ) < alpha := by linarith
  have hv0 : (0 : ℚ) ≤ ((SOLA_GetIntervals N alpha).1 : ℚ) * alpha := by positivity
  have hv1 : ((SOLA_GetIntervals N alpha).1 : ℚ) * alpha ≤ 1000 := by
    have : ((SOLA_GetIntervals N alpha).1 : ℚ) ≤ 500 := by
      have : (SOLA_GetIntervals N alpha).1 ≤ 500 := by omega
      exact_mod_cast this
    nlinarith
  constructor
  · have hf0 : 0 ≤ ⌊((SOLA_GetIntervals N alpha).1 : ℚ) * alpha⌋ := Int.floor_nonneg.mpr hv0
    have hfN : ⌊((SOLA_GetIntervals N alpha).1 : ℚ) * alpha⌋ ≤ 1000 := by
      have := Int.floor_mono hv1
      have e : ⌊(1000 : ℚ)⌋ = 1000 := by
        rw [Int.floor_eq_iff]
        norm_num
      rwa [e] at this
    have e : ((⌊((SOLA_GetIntervals N alpha).1 : ℚ) * alpha⌋ : Int) : ℚ)
        = ((⌊((SOLA_GetIntervals N alpha).1 : ℚ) * alpha⌋.toNat : Nat) : ℚ) := by
      have : ((⌊((SOLA_GetIntervals N alpha).1 : ℚ) * alpha⌋.toNat : Nat) : Int)
          = ⌊((SOLA_GetIntervals N alpha).1 : ℚ) * alpha⌋ := Int.toNat_of_nonneg hf0
      calc ((⌊((SOLA_GetIntervals N alpha).1 : ℚ) * alpha⌋ : Int) : ℚ)
          = (((⌊((SOLA_GetIntervals N alpha).1 : ℚ) * alpha⌋.toNat : Nat) : Int) : ℚ) := by
            rw [this]
        _ = _ := Int.cast_natCast _
    have h1 : ((⌊((SOLA_GetIntervals N alpha).1 : ℚ) * alpha⌋ : Int) : ℚ)
        ≤ f32 (((SOLA_GetIntervals N alpha).1 : ℚ) * alpha) := by
      have h2 := f32_mono (Int.floor_le (((SOLA_GetIntervals N alpha).1 : ℚ) * alpha))
      rw [e, f32_natCast _ (by omega)] at h2
      rw [e]
      exact h2
    rw [h]
    exact Int.le_floor.mpr h1
  · have := f32_floor_gt (v := ((SOLA_GetIntervals N alpha).1 : ℚ) * alpha)
      (k := (SOLA_GetIntervals N alpha).2) (by omega) (by omega)
    linarith

/-! ## Facts about the lag search and the frame loop -/

/-- The lag returned by the scan stays between a lower bound of the candidates
and `N / 2`. -/
theorem findLagLoop_bounds (c : Correlator) (N : Nat) (x : Nat → Int) (y : Int → Int)
    (sa ss m : Nat) (hN : N / 2 < 32767) (lo : Int) (hlo : -32768 ≤ lo) :
    ∀ (fuel : Nat) (k : Int) (L : Nat) (Rm : c.Val) (km : Int),
      lo ≤ k → lo ≤ km → km ≤ ((N / 2 : Nat) : Int) →
      lo ≤ findLagLoop c N x y sa ss m fuel k L Rm km ∧
        findLagLoop c N x y sa ss m fuel k L Rm km ≤ ((N / 2 : Nat) : Int) := by
  intro fuel
  induction fuel with
  | zero => intro k L Rm km _ h2 h3; exact ⟨h2, h3⟩
  | succ fuel ih =>
    intro k L Rm km h1 h2 h3
    rw [findLagLoop]
    by_cases hk : k ≤ ((N / 2 : Nat) : Int)
    · rw [if_pos hk]
      by_cases hL : L < N / 8
      · rw [if_pos hL]; exact ⟨h2, h3⟩
      · rw [if_neg hL]
        have hk1 : toI16 (k + 1) = k + 1 := toI16_of_range (by omega) (by omega)
        dsimp only
        rw [hk1]
        by_cases hgt : c.gt (c.corr (fun j => x (m * sa + j))
            (fun j => y ((m : Int) * ss + k + j)) L) Rm = true
        · rw [if_pos hgt]
          exact ih (k + 1) _ _ k (by omega) h1 hk
        · rw [if_neg hgt]
          exact ih (k + 1) _ _ km (by omega) h2 h3
    · rw [if_neg hk]; exact ⟨h2, h3⟩

theorem firstLag_bounds {N ss m : Nat} (hN : N / 2 < 32767) (hss : ss ≤ N / 2) :
    -((N / 2 : Nat) : Int) ≤ firstLag N ss m ∧ firstLag N ss m ≤ 0 := by
  unfold firstLag
  split_ifs with h
  · rw [toI16_of_range (by omega) (by omega)]; omega
  · rw [toI16_of_range (by omega) (by omega)]; omega

/-- The lag returned by `SOLA_FindLag` lies in `[-(N / 2), N / 2]`. -/
theorem SOLA_FindLag_bounds (c : Correlator) (N last : Nat) (x : Nat → Int) (y : Int → Int)
    (sa ss m : Nat) (hN : N / 2 < 32767) (hss : ss ≤ N / 2) :
    -((N / 2 : Nat) : Int) ≤ SOLA_FindLag c N last x y sa ss m ∧
      SOLA_FindLag c N last x y sa ss m ≤ ((N / 2 : Nat) : Int) := by
  have hf := firstLag_bounds (m := m) hN hss
  unfold SOLA_FindLag
  exact findLagLoop_bounds c N x y sa ss m hN (-((N / 2 : Nat) : Int)) (by omega) _ _ _ _ _
    hf.1 (by omega) (by omega)

/-- The frame loop, unrolled at its last pass. -/
theorem SOLA_TSM_run_succ (c : Correlator) (N : Nat) (x : Nat → Int) (sa ss maxFrames : Nat) :
    ∀ (n : Nat) (s : TSMState),
      SOLA_TSM_run c N x sa ss maxFrames (n + 1) s =
        if (SOLA_TSM_run c N x sa ss maxFrames n s).m ≤ maxFrames then
          SOLA_TSM_frame c N x sa ss (SOLA_TSM_run c N x sa ss maxFrames n s)
        else SOLA_TSM_run c N x sa ss maxFrames n s := by
  intro n
  induction n with
  | zero => intro s; simp [SOLA_TSM_run]
  | succ n ih =>
    intro s
    rw [SOLA_TSM_run]
    by_cases h : s.m ≤ maxFrames
    · rw [if_pos h, ih]
      conv_rhs => rw [SOLA_TSM_run, if_pos h]
    · rw [if_neg h]
      conv_rhs => rw [SOLA_TSM_run, if_neg h]
      simp [h]

/-- The value of `lastSampleIndex` after a frame, without wrap-around. -/
theorem SOLA_TSM_frame_last (c : Correlator) (N : Nat) (x : Nat → Int) (sa ss : Nat)
    (s : TSMState) (hN : N / 2 < 32767) (hss : ss ≤ N / 2) (hm : s.m < 65536) :
    ∃ km : Int, -((N / 2 : Nat) : Int) ≤ km ∧ km ≤ ((N / 2 : Nat) : Int) ∧
      ((SOLA_TSM_frame c N x sa ss s).lastSampleIndex : Int) = (s.m : Int) * ss + km + N := by
  obtain ⟨h1, h2⟩ := SOLA_FindLag_bounds c N s.lastSampleIndex x s.y sa ss s.m hN hss
  refine ⟨_, h1, h2, ?_⟩
  show (toU32 _ : Int) = _
  have hprod : (s.m : Int) * ss ≤ 65535 * 32766 := by
    have : s.m * ss ≤ 65535 * 32766 := Nat.mul_le_mul (by omega) (by omega)
    exact_mod_cast this
  have h0 : (0 : Int) ≤ (s.m : Int) * ss := by positivity
  apply toU32_of_range <;> omega

theorem maxFramesOf_le (N xSize sa : Nat) : maxFramesOf N xSize sa ≤ (xSize - N) / sa :=
  toU16_le _

theorem maxFramesOf_lt (N xSize sa : Nat) : maxFramesOf N xSize sa < 65536 :=
  toU16_lt _

/-- Loop invariant of the frame loop: the counter is a 16-bit value and
`lastSampleIndex` stays below any bound that dominates every frame end. -/
theorem SOLA_TSM_run_inv (c : Correlator) (N : Nat) (x : Nat → Int) (sa ss maxFrames B : Nat)
    (hN : N / 2 < 32767) (hss : ss ≤ N / 2)
    (hB : ∀ m, m ≤ maxFrames → m * ss + N / 2 + N ≤ B) :
    ∀ (n : Nat) (s : TSMState), s.m < 65536 → s.lastSampleIndex ≤ B →
      (SOLA_TSM_run c N x sa ss maxFrames n s).m < 65536 ∧
        (SOLA_TSM_run c N x sa ss maxFrames n s).lastSampleIndex ≤ B := by
  intro n
  induction n with
  | zero => intro s h1 h2; exact ⟨h1, h2⟩
  | succ n ih =>
    intro s h1 h2
    rw [SOLA_TSM_run]
    by_cases h : s.m ≤ maxFrames
    · rw [if_pos h]
      apply ih
      · exact toU16_lt ((s.m : Int) + 1)
      · obtain ⟨km, _, hk2, hk3⟩ := SOLA_TSM_frame_last c N x sa ss s hN hss h1
        have := hB s.m h
        have h5 : ((s.m * ss : Nat) : Int) = (s.m : Int) * ss := by push_cast; ring
        omega
    · rw [if_neg h]; exact ⟨h1, h2⟩

/-- Once the test `m <= maxFrames` fails the state no longer changes. -/
theorem SOLA_TSM_run_done (c : Correlator) (N : Nat) (x : Nat → Int) (sa ss maxFrames : Nat)
    (n : Nat) (s : TSMState) (h : ¬ s.m ≤ maxFrames) :
    SOLA_TSM_run c N x sa ss maxFrames n s = s := by
  cases n with
  | zero => rfl
  | succ n => rw [SOLA_TSM_run, if_neg h]

/-- Passes of the frame loop compose. -/
theorem SOLA_TSM_run_add (c : Correlator) (N : Nat) (x : Nat → Int) (sa ss maxFrames : Nat) :
    ∀ (a b : Nat) (s : TSMState),
      SOLA_TSM_run c N x sa ss maxFrames (a + b) s =
        SOLA_TSM_run c N x sa ss maxFrames b (SOLA_TSM_run c N x sa ss maxFrames a s) := by
  intro a
  induction a with
  | zero => intro b s; simp [SOLA_TSM_run]
  | succ a ih =>
    intro b s
    rw [show a + 1 + b = (a + b) + 1 by omega, SOLA_TSM_run, SOLA_TSM_run]
    by_cases h : s.m ≤ maxFrames
    · rw [if_pos h, if_pos h, ih]
    · rw [if_neg h, if_neg h, SOLA_TSM_run_done c N x sa ss maxFrames b s h]

/-- The shape of the state after `n` frames when the counter does not wrap:
`m = n + 1`, and `lastSampleIndex` is `N` before the first frame and
`n * ss + km + N` with a lag in `[-(N / 2), N / 2]` afterwards. -/
theorem SOLA_TSM_run_shape (c : Correlator) (N : Nat) (x : Nat → Int) (sa ss maxFrames : Nat)
    (hN : N / 2 < 32767) (hss : ss ≤ N / 2) :
    ∀ n : Nat, n ≤ maxFrames → n ≤ 65535 →
      (n < 65535 → (SOLA_TSM_run c N x sa ss maxFrames n (SOLA_TSM_init N x)).m = n + 1) ∧
      ((n = 0 ∧ (SOLA_TSM_run c N x sa ss maxFrames n (SOLA_TSM_init N x)).lastSampleIndex = N) ∨
       (1 ≤ n ∧ ∃ km : Int, -((N / 2 : Nat) : Int) ≤ km ∧ km ≤ ((N / 2 : Nat) : Int) ∧
          ((SOLA_TSM_run c N x sa ss maxFrames n (SOLA_TSM_init N x)).lastSampleIndex : Int)
            = (n : Int) * ss + km + N)) := by
  intro n
  induction n with
  | zero => intro _ _; exact ⟨fun _ => rfl, Or.inl ⟨rfl, rfl⟩⟩
  | succ n ih =>
    intro h1 h2
    obtain ⟨hm', _⟩ := ih (by omega) (by omega)
    have hm := hm' (by omega)
    rw [SOLA_TSM_run_succ, if_pos (by omega)]
    constructor
    · intro h3
      change toU16 (((SOLA_TSM_run c N x sa ss maxFrames n (SOLA_TSM_init N x)).m : Int) + 1)
        = n + 1 + 1
      rw [hm]
      have := toU16_of_range (v := ((n + 1 : Nat) : Int) + 1) (by omega) (by omega)
      omega
    · right
      refine ⟨by omega, ?_⟩
      obtain ⟨km, hk1, hk2, hk3⟩ := SOLA_TSM_frame_last c N x sa ss
        (SOLA_TSM_run c N x sa ss maxFrames n (SOLA_TSM_init N x)) hN hss (by omega)
      rw [hm] at hk3
      exact ⟨km, hk1, hk2, hk3⟩

/-- With fewer than `65535` frames the engine returns `0` as soon as the fuel
covers the frames, and reports `N` (no frame) or `maxFrames * ss + km + N`. -/
theorem SOLA_TSM_returns (c : Correlator) (N : Nat) (x : Nat → Int) (xSize : Nat) (alpha : ℚ)
    (fuel : Nat) (hN : N / 2 < 32767) (hx : N ≤ xSize)
    (hsa : (SOLA_GetIntervals N alpha).1 ≠ 0)
    (hss : (SOLA_GetIntervals N alpha).2 ≤ N / 2)
    (hq : maxFramesOf N xSize (SOLA_GetIntervals N alpha).1 < 65535)
    (hfuel : maxFramesOf N xSize (SOLA_GetIntervals N alpha).1 ≤ fuel) :
    ∃ (y : Int → Int) (n : Nat),
      SOLA_TSM c N true fuel x xSize alpha = some (.ok y n) ∧
      ((maxFramesOf N xSize (SOLA_GetIntervals N alpha).1 = 0 ∧ n = N) ∨
       (1 ≤ maxFramesOf N xSize (SOLA_GetIntervals N alpha).1 ∧
         ∃ km : Int, -((N / 2 : Nat) : Int) ≤ km ∧ km ≤ ((N / 2 : Nat) : Int) ∧
          (n : Int) = (maxFramesOf N xSize (SOLA_GetIntervals N alpha).1 : Int)
            * (SOLA_GetIntervals N alpha).2 + km + N)) := by
  obtain ⟨hm', hlast⟩ := SOLA_TSM_run_shape c N x (SOLA_GetIntervals N alpha).1
    (SOLA_GetIntervals N alpha).2 (maxFramesOf N xSize (SOLA_GetIntervals N alpha).1) hN hss
    (maxFramesOf N xSize (SOLA_GetIntervals N alpha).1) le_rfl (by omega)
  have hm := hm' hq
  have hrun : SOLA_TSM_run c N x (SOLA_GetIntervals N alpha).1 (SOLA_GetIntervals N alpha).2
      (maxFramesOf N xSize (SOLA_GetIntervals N alpha).1) fuel (SOLA_TSM_init N x)
      = SOLA_TSM_run c N x (SOLA_GetIntervals N alpha).1 (SOLA_GetIntervals N alpha).2
      (maxFramesOf N xSize (SOLA_GetIntervals N alpha).1)
      (maxFramesOf N xSize (SOLA_GetIntervals N alpha).1) (SOLA_TSM_init N x) := by
    obtain ⟨d, hd⟩ := Nat.exists_eq_add_of_le hfuel
    rw [hd, SOLA_TSM_run_add]
    exact SOLA_TSM_run_done _ _ _ _ _ _ _ _ (by omega)
  refine ⟨(SOLA_TSM_run c N x (SOLA_GetIntervals N alpha).1 (SOLA_GetIntervals N alpha).2
      (maxFramesOf N xSize (SOLA_GetIntervals N alpha).1)
      (maxFramesOf N xSize (SOLA_GetIntervals N alpha).1) (SOLA_TSM_init N x)).y,
    (SOLA_TSM_run c N x (SOLA_GetIntervals N alpha).1 (SOLA_GetIntervals N alpha).2
      (maxFramesOf N xSize (SOLA_GetIntervals N alpha).1)
      (maxFramesOf N xSize (SOLA_GetIntervals N alpha).1) (SOLA_TSM_init N x)).lastSampleIndex,
    ?_, ?_⟩
  · unfold SOLA_TSM
    dsimp only
    rw [if_neg (by omega)]
    simp only [Bool.not_true, Bool.false_eq_true, if_false, if_neg hsa]
    rw [hrun, if_neg (by omega)]
  · rcases hlast with ⟨h0, h1⟩ | ⟨h0, h1⟩
    · exact Or.inl ⟨h0, h1⟩
    · exact Or.inr ⟨h0, h1⟩

/-- The bound on the passes of the scan is never reached: any two bounds that
cover the candidates from `k` to `N / 2` give the same lag. -/
theorem findLagLoop_fuel (c : Correlator) (N : Nat) (x : Nat → Int) (y : Int → Int)
    (sa ss m : Nat) (hN : N / 2 < 32767) :
    ∀ (fuel fuel' : Nat) (k : Int) (L : Nat) (Rm : c.Val) (km : Int), -32768 ≤ k →
      (((N / 2 : Nat) : Int) + 1 - k).toNat ≤ fuel →
      (((N / 2 : Nat) : Int) + 1 - k).toNat ≤ fuel' →
      findLagLoop c N x y sa ss m fuel k L Rm km
        = findLagLoop c N x y sa ss m fuel' k L Rm km := by
  intro fuel
  induction fuel with
  | zero =>
    intro fuel' k L Rm km _ h1 _
    have hk : ¬ k ≤ ((N / 2 : Nat) : Int) := by omega
    cases fuel' with
    | zero => rfl
    | succ f => rw [findLagLoop, findLagLoop, if_neg hk]
  | succ fuel ih =>
    intro fuel' k L Rm km hk h1 h2
    cases fuel' with
    | zero =>
      have hk : ¬ k ≤ ((N / 2 : Nat) : Int) := by omega
      rw [findLagLoop, findLagLoop, if_neg hk]
    | succ f =>
      rw [findLagLoop, findLagLoop]
      by_cases hk1 : k ≤ ((N / 2 : Nat) : Int)
      · rw [if_pos hk1, if_pos hk1]
        by_cases hL : L < N / 8
        · rw [if_pos hL, if_pos hL]
        · rw [if_neg hL, if_neg hL]
          dsimp only
          rw [toI16_of_range (v := k + 1) (by omega) (by omega)]
          rw [ih f (k + 1) _ _ k (by omega) (by omega) (by omega),
            ih f (k + 1) _ _ km (by omega) (by omega) (by omega)]
      · rw [if_neg hk1, if_neg hk1]

/-- For every frame size below `65534` the `65536` passes allowed in
`SOLA_FindLag` cover the whole scan. -/
theorem SOLA_FindLag_fuel (c : Correlator) (N last : Nat) (x : Nat → Int) (y : Int → Int)
    (sa ss m : Nat) (hN : N / 2 < 32767) (fuel : Nat) (hfuel : 65536 ≤ fuel) :
    SOLA_FindLag c N last x y sa ss m
      = findLagLoop c N x y sa ss m fuel (firstLag N ss m)
          (firstPoints N last ss m (firstLag N ss m)) c.sentinel 0 := by
  have hk : -32768 ≤ firstLag N ss m := by
    unfold firstLag toI16
    omega
  unfold SOLA_FindLag
  dsimp only
  exact findLagLoop_fuel c N x y sa ss m hN 65536 fuel _ _ _ _ hk (by omega) (by omega)

/-! ## C1: the interval formula -/

/-- C1 as stated fails at the default frame size `N = 160` and
`alpha = 11184811 / 8388608`, the `float` nearest to `4/3`: the `float` quotient
`N / (2 * alpha)` rounds up to `60`, so `Sa = 60`, whereas
`floor (N / (2 * alpha)) = 59`. -/
theorem C1_quotient_rounds_up :
    (25 ≤ 160 ∧ 160 ≤ 1000) ∧
    ((1 : ℚ) / 2 ≤ 11184811 / 8388608 ∧ (11184811 : ℚ) / 8388608 ≤ 2 ∧
      (11184811 : ℚ) / 8388608 > 1) ∧
    f32 (4 / 3) = 11184811 / 8388608 ∧
    SOLA_GetIntervals 160 (11184811 / 8388608) = (60, 80) ∧
    ⌊((160 : Nat) : ℚ) / (2 * (11184811 / 8388608))⌋ = 59 ∧
    ((SOLA_GetIntervals 160 (11184811 / 8388608)).1 : Int)
      ≠ (if (11184811 / 8388608 : ℚ) > 1 then ⌊((160 : Nat) : ℚ) / (2 * (11184811 / 8388608))⌋
          else ⌊((160 : Nat) : ℚ) / 2⌋) := by
  decide!

/-- C1, amended: for every frame size `N` in `[25, 1000]` and every factor `alpha`
in `[1/2, 2]`, `Sa` is `floor (N / 2)` when `alpha <= 1` and the integer part of the
`float` quotient `N / (2 * alpha)` when `alpha > 1`, and `Ss` is the integer part of
the `float` product `Sa * alpha`.  Each is the floor of the exact value, or one more
when the `float` rounds up to an integer:
`floor (N / (2 * alpha)) <= Sa < N / (2 * alpha) + 2 ^ (-15)` and
`floor (Sa * alpha) <= Ss < Sa * alpha + 2 ^ (-15)`.  At `alpha = 1` both
intervals are `floor (N / 2)`. -/
theorem C1_intervals_formula (N : Nat) (alpha : ℚ) (hN25 : 25 ≤ N) (hN : N ≤ 1000)
    (ha : 1 / 2 ≤ alpha) (ha2 : alpha ≤ 2) :
    ((SOLA_GetIntervals N alpha).1 : Int)
        = (if alpha > 1 then ⌊f32 ((N : ℚ) / (2 * alpha))⌋ else ⌊(N : ℚ) / 2⌋) ∧
    ((SOLA_GetIntervals N alpha).2 : Int)
        = ⌊f32 (((SOLA_GetIntervals N alpha).1 : ℚ) * alpha)⌋ ∧
    (alpha > 1 → ⌊(N : ℚ) / (2 * alpha)⌋ ≤ ((SOLA_GetIntervals N alpha).1 : Int) ∧
      ((SOLA_GetIntervals N alpha).1 : ℚ) < (N : ℚ) / (2 * alpha) + 1 / (2 : ℚ) ^ 15) ∧
    (⌊((SOLA_GetIntervals N alpha).1 : ℚ) * alpha⌋ ≤ ((SOLA_GetIntervals N alpha).2 : Int) ∧
      ((SOLA_GetIntervals N alpha).2 : ℚ)
        < ((SOLA_GetIntervals N alpha).1 : ℚ) * alpha + 1 / (2 : ℚ) ^ 15) ∧
    (alpha = 1 → ((SOLA_GetIntervals N alpha).1 : Int) = ⌊(N : ℚ) / 2⌋ ∧
      ((SOLA_GetIntervals N alpha).2 : Int) = ⌊(N : ℚ) / 2⌋) := by
  have _ := hN25
  have h1 := intervals_sa hN ha
  have h2 := intervals_ss hN ha ha2
  rw [← floor_half] at h1
  refine ⟨h1, h2, fun h => intervals_sa_floor hN h, intervals_ss_floor hN ha ha2, ?_⟩
  intro h
  subst h
  rw [intervals_alpha_one hN, floor_half]
  exact ⟨rfl, rfl⟩

/-- C1, amended, at the default frame size and `alpha = 3/2`. -/
theorem C1_intervals_formula_witness :
    ((25 ≤ 160 ∧ 160 ≤ 1000) ∧ ((1 : ℚ) / 2 ≤ 3 / 2 ∧ (3 : ℚ) / 2 ≤ 2)) ∧
    (((SOLA_GetIntervals 160 (3 / 2)).1 : Int)
        = (if (3 / 2 : ℚ) > 1 then ⌊f32 (((160 : Nat) : ℚ) / (2 * (3 / 2)))⌋
            else ⌊((160 : Nat) : ℚ) / 2⌋) ∧
    ((SOLA_GetIntervals 160 (3 / 2)).2 : Int)
        = ⌊f32 (((SOLA_GetIntervals 160 (3 / 2)).1 : ℚ) * (3 / 2))⌋ ∧
    ((3 / 2 : ℚ) > 1 → ⌊((160 : Nat) : ℚ) / (2 * (3 / 2))⌋ ≤ ((SOLA_GetIntervals 160 (3 / 2)).1 : Int) ∧
      ((SOLA_GetIntervals 160 (3 / 2)).1 : ℚ)
        < ((160 : Nat) : ℚ) / (2 * (3 / 2)) + 1 / (2 : ℚ) ^ 15) ∧
    (⌊((SOLA_GetIntervals 160 (3 / 2)).1 : ℚ) * (3 / 2)⌋ ≤ ((SOLA_GetIntervals 160 (3 / 2)).2 : Int) ∧
      ((SOLA_GetIntervals 160 (3 / 2)).2 : ℚ)
        < ((SOLA_GetIntervals 160 (3 / 2)).1 : ℚ) * (3 / 2) + 1 / (2 : ℚ) ^ 15) ∧
    ((3 / 2 : ℚ) = 1 → ((SOLA_GetIntervals 160 (3 / 2)).1 : Int) = ⌊((160 : Nat) : ℚ) / 2⌋ ∧
      ((SOLA_GetIntervals 160 (3 / 2)).2 : Int) = ⌊((160 : Nat) : ℚ) / 2⌋)) :=
  ⟨⟨⟨by norm_num, by norm_num⟩, ⟨by norm_num, by norm_num⟩⟩,
    C1_intervals_formula 160 (3 / 2) (by norm_num) (by norm_num) (by norm_num) (by norm_num)⟩

/-! ## C2: the valid output length and the allocated capacity -/

set_option maxRecDepth 100000 in
/-- C2, evaluated at `N = 1000`, `alpha = 1` and an input of `4294967040` samples,
for every input signal and every correlator: the claim's capacity
`floor (xSize * alpha) + N` is `4294968040`, but the sum
`(uint32_t) (xSize * alpha) + N` that the source hands to `malloc` wraps to `744`
samples; `lastSampleIndex` is `1000` after the copy of the first frame, and the
length `SOLA_TSM` reports is above the `744` samples allocated. -/
theorem C2_allocation_wraps (c : Correlator) (x : Nat → Int) :
    (25 ≤ 1000 ∧ 1000 ≤ 1000 ∧ 1000 ≤ 4294967040 ∧ 4294967040 < 2 ^ 32) ∧
    ⌊((4294967040 : Nat) : ℚ) * 1⌋.toNat + 1000 = 4294968040 ∧
    allocatedSamples 1000 4294967040 1 = 744 ∧
    (SOLA_TSM_init 1000 x).lastSampleIndex = 1000 ∧
    (∃ (y : Int → Int) (n : Nat),
      SOLA_TSM c 1000 true 4716 x 4294967040 1 = some (.ok y n) ∧ 744 < n) := by
  have hi : SOLA_GetIntervals 1000 1 = (500, 500) := by decide!
  have hmax : maxFramesOf 1000 4294967040 500 = 4716 := by decide!
  refine ⟨by norm_num, by decide!, by decide!, rfl, ?_⟩
  obtain ⟨y, n, h1, h2⟩ := SOLA_TSM_returns c 1000 x 4294967040 1 4716 (by norm_num)
    (by norm_num) (by rw [hi]; norm_num) (by rw [hi]) (by rw [hi, hmax]; norm_num)
    (by rw [hi, hmax])
  refine ⟨y, n, h1, ?_⟩
  rw [hi, hmax] at h2
  rcases h2 with ⟨h, _⟩ | ⟨_, km, hk1, _, hk3⟩
  · omega
  · norm_num at hk1 hk3
    omega

/-! ## C3: the minimum overlap at the returned lag -/

set_option maxRecDepth 100000 in
/-- C3, evaluated on `blockInput` (160 samples) with `N = 40` and `alpha = 0.8f`
(the `float` nearest to `4/5`), so `Sa = 20`, `Ss = 16` and six frames: at frame
6 no candidate of `SOLA_FindLag`
beats the initial score, the returned lag is the initial `0`, and the overlap
length `SOLA_OverlapFrame` derives for it is `4`, below `N / 8 = 5`. -/
theorem C3_default_lag_overlap_below_minimum :
    SOLA_GetIntervals 40 (13421773 / 16777216) = (20, 16) ∧ maxFramesOf 40 160 20 = 6 ∧
    (SOLA_TSM_run floatCorrelator 40 blockInput 20 16 6 5 (SOLA_TSM_init 40 blockInput)).m = 6 ∧
    SOLA_FindLag floatCorrelator 40
      (SOLA_TSM_run floatCorrelator 40 blockInput 20 16 6 5
        (SOLA_TSM_init 40 blockInput)).lastSampleIndex blockInput
      (SOLA_TSM_run floatCorrelator 40 blockInput 20 16 6 5 (SOLA_TSM_init 40 blockInput)).y
      20 16 6 = 0 ∧
    overlapLength 40
      (SOLA_TSM_run floatCorrelator 40 blockInput 20 16 6 5
        (SOLA_TSM_init 40 blockInput)).lastSampleIndex 16 6 0 = 4 ∧
    40 / 8 = 5 := by
  decide!

/-! ## C4: `lastSampleIndex` across successive frames -/

/-- C4 as stated fails on `stepInput` (49 samples) with `N = 25` and
`alpha = 1/2`, so `Sa = 12`, `Ss = 6` and two frames: `lastSampleIndex` is `37`
after frame 1 and `25` after frame 2. -/
theorem C4_lastSampleIndex_decreases :
    SOLA_GetIntervals 25 (1 / 2) = (12, 6) ∧ maxFramesOf 25 49 12 = 2 ∧
    (SOLA_TSM_run floatCorrelator 25 stepInput 12 6 2 1
        (SOLA_TSM_init 25 stepInput)).lastSampleIndex = 37 ∧
    (SOLA_TSM_run floatCorrelator 25 stepInput 12 6 2 2
        (SOLA_TSM_init 25 stepInput)).lastSampleIndex = 25 := by
  decide!

/-- C4, amended: for valid `N` and `alpha`, an input of length at least `N`, every
correlator and every frame `m = n + 1 <= maxFrames`, the value of
`lastSampleIndex` after the frame is at least the value held before it minus
`2 * (N / 2) - Ss`. -/
theorem C4_lastSampleIndex_bounded_decrease (c : Correlator) (N : Nat) (x : Nat → Int)
    (xSize : Nat) (alpha : ℚ) (n : Nat) (hN25 : 25 ≤ N) (hN : N ≤ 1000)
    (ha : 1 / 2 ≤ alpha) (ha2 : alpha ≤ 2) (hx : N ≤ xSize)
    (hn : n < maxFramesOf N xSize (SOLA_GetIntervals N alpha).1) :
    (SOLA_TSM_run c N x (SOLA_GetIntervals N alpha).1 (SOLA_GetIntervals N alpha).2
        (maxFramesOf N xSize (SOLA_GetIntervals N alpha).1) n (SOLA_TSM_init N x)).m = n + 1 ∧
    (SOLA_TSM_run c N x (SOLA_GetIntervals N alpha).1 (SOLA_GetIntervals N alpha).2
        (maxFramesOf N xSize (SOLA_GetIntervals N alpha).1) n
        (SOLA_TSM_init N x)).lastSampleIndex
      ≤ (SOLA_TSM_run c N x (SOLA_GetIntervals N alpha).1 (SOLA_GetIntervals N alpha).2
        (maxFramesOf N xSize (SOLA_GetIntervals N alpha).1) (n + 1)
        (SOLA_TSM_init N x)).lastSampleIndex
        + (2 * (N / 2) - (SOLA_GetIntervals N alpha).2) := by
  have _ := hN25
  have _ := hx
  have hss := intervals_ss_le hN ha ha2
  have hlt := maxFramesOf_lt N xSize (SOLA_GetIntervals N alpha).1
  obtain ⟨hm, h0⟩ := SOLA_TSM_run_shape c N x (SOLA_GetIntervals N alpha).1
    (SOLA_GetIntervals N alpha).2 (maxFramesOf N xSize (SOLA_GetIntervals N alpha).1)
    (by omega) hss n (by omega) (by omega)
  obtain ⟨_, h1⟩ := SOLA_TSM_run_shape c N x (SOLA_GetIntervals N alpha).1
    (SOLA_GetIntervals N alpha).2 (maxFramesOf N xSize (SOLA_GetIntervals N alpha).1)
    (by omega) hss (n + 1) (by omega) (by omega)
  refine ⟨hm (by omega), ?_⟩
  have hnn : (0 : Int) ≤ (n : Int) * ((SOLA_GetIntervals N alpha).2 : Int) := by positivity
  have hle : ((SOLA_TSM_run c N x (SOLA_GetIntervals N alpha).1 (SOLA_GetIntervals N alpha).2
      (maxFramesOf N xSize (SOLA_GetIntervals N alpha).1) n
      (SOLA_TSM_init N x)).lastSampleIndex : Int)
      ≤ (n : Int) * ((SOLA_GetIntervals N alpha).2 : Int) + ((N / 2 : Nat) : Int) + N := by
    rcases h0 with ⟨_, h0'⟩ | ⟨_, km0, _, hj2, hj3⟩
    · rw [h0']; omega
    · omega
  rcases h1 with ⟨h1, _⟩ | ⟨_, km, hk1, _, hk3⟩
  · omega
  · have e : ((n + 1 : Nat) : Int) * ((SOLA_GetIntervals N alpha).2 : Int)
        = (n : Int) * ((SOLA_GetIntervals N alpha).2 : Int)
          + ((SOLA_GetIntervals N alpha).2 : Int) := by
      push_cast; ring
    omega

set_option maxRecDepth 100000 in
/-- C4, amended, at frame 2 of the run on `stepInput`. -/
theorem C4_lastSampleIndex_bounded_decrease_witness :
    ((25 ≤ 25 ∧ 25 ≤ 1000) ∧ ((1 : ℚ) / 2 ≤ 1 / 2 ∧ (1 : ℚ) / 2 ≤ 2) ∧ 25 ≤ 49 ∧
      1 < maxFramesOf 25 49 (SOLA_GetIntervals 25 (1 / 2)).1) ∧
    ((SOLA_TSM_run floatCorrelator 25 stepInput (SOLA_GetIntervals 25 (1 / 2)).1
        (SOLA_GetIntervals 25 (1 / 2)).2
        (maxFramesOf 25 49 (SOLA_GetIntervals 25 (1 / 2)).1) 1 (SOLA_TSM_init 25 stepInput)).m
        = 1 + 1 ∧
    (SOLA_TSM_run floatCorrelator 25 stepInput (SOLA_GetIntervals 25 (1 / 2)).1
        (SOLA_GetIntervals 25 (1 / 2)).2
        (maxFramesOf 25 49 (SOLA_GetIntervals 25 (1 / 2)).1) 1
        (SOLA_TSM_init 25 stepInput)).lastSampleIndex
      ≤ (SOLA_TSM_run floatCorrelator 25 stepInput (SOLA_GetIntervals 25 (1 / 2)).1
        (SOLA_GetIntervals 25 (1 / 2)).2
        (maxFramesOf 25 49 (SOLA_GetIntervals 25 (1 / 2)).1) (1 + 1)
        (SOLA_TSM_init 25 stepInput)).lastSampleIndex
        + (2 * (25 / 2) - (SOLA_GetIntervals 25 (1 / 2)).2)) :=
  ⟨⟨⟨by norm_num, by norm_num⟩, ⟨by norm_num, by norm_num⟩, by norm_num, by decide!⟩,
    C4_lastSampleIndex_bounded_decrease floatCorrelator 25 stepInput 49 (1 / 2) 1
      (by norm_num) (by norm_num) (by norm_num) (by norm_num) (by norm_num) (by decide!)⟩

/-! ## C5: the blending rule -/

/-- Inside the overlap the weight `j / Lm` of the source is an integer quotient,
hence `0`: the blending loop stores the old sample converted to 16 bits. -/
theorem SOLA_OverlapFrame_overlap (N last : Nat) (x : Nat → Int) (y : Int → Int)
    (sa ss m : Nat) (km : Int) (j : Nat) (hj : j < overlapLength N last ss m km) :
    SOLA_OverlapFrame N last x y sa ss m km ((m : Int) * ss + km + j)
      = toI16 (y ((m : Int) * ss + km + j)) := by
  unfold SOLA_OverlapFrame
  dsimp only
  have e : (m : Int) * ss + km + j - ((m : Int) * ss + km) = (j : Int) := by ring
  rw [e, if_pos ⟨by omega, by exact_mod_cast hj⟩]
  have hq : (j : Int) / ((overlapLength N last ss m km : Nat) : Int) = 0 :=
    Int.ediv_eq_zero_of_lt (by omega) (by exact_mod_cast hj)
  rw [hq]
  simp

set_option maxRecDepth 100000 in
/-- C5, evaluated on `loudStepInput` (49 samples) with `N = 25` and
`alpha = 1/2`: at frame 2 the lag is `-12` and the overlap length `25`; at offset
`j = 12` the old sample is `-1000` and the input sample `1000`, the sample stored
is `-1000`, and the crossfade of weight `12 / 25` is `-40`. -/
theorem C5_blend_keeps_old_sample :
    SOLA_FindLag floatCorrelator 25
      (SOLA_TSM_run floatCorrelator 25 loudStepInput 12 6 2 1
        (SOLA_TSM_init 25 loudStepInput)).lastSampleIndex loudStepInput
      (SOLA_TSM_run floatCorrelator 25 loudStepInput 12 6 2 1
        (SOLA_TSM_init 25 loudStepInput)).y 12 6 2 = -12 ∧
    overlapLength 25
      (SOLA_TSM_run floatCorrelator 25 loudStepInput 12 6 2 1
        (SOLA_TSM_init 25 loudStepInput)).lastSampleIndex 6 2 (-12) = 25 ∧
    (SOLA_TSM_run floatCorrelator 25 loudStepInput 12 6 2 1
        (SOLA_TSM_init 25 loudStepInput)).y (2 * 6 + -12 + 12) = -1000 ∧
    loudStepInput (2 * 12 + 12) = 1000 ∧
    SOLA_OverlapFrame 25
      (SOLA_TSM_run floatCorrelator 25 loudStepInput 12 6 2 1
        (SOLA_TSM_init 25 loudStepInput)).lastSampleIndex loudStepInput
      (SOLA_TSM_run floatCorrelator 25 loudStepInput 12 6 2 1
        (SOLA_TSM_init 25 loudStepInput)).y 12 6 2 (-12) (2 * 6 + -12 + 12) = -1000 ∧
    specCrossfade (-1000) 1000 12 25 = -40 := by
  decide!

/-! ## C6 and C7: rejection, and the 16-bit frame counter -/

/-- An input shorter than the frame is rejected with `EINVAL` before anything
else happens, and an input of at least `N` samples is never rejected so. -/
theorem SOLA_TSM_einval_iff (c : Correlator) (N : Nat) (fuel : Nat) (x : Nat → Int)
    (xSize : Nat) (alpha : ℚ) :
    SOLA_TSM c N true fuel x xSize alpha = some .einval ↔ xSize < N := by
  unfold SOLA_TSM
  dsimp only
  constructor
  · intro h
    by_contra hx
    rw [if_neg hx] at h
    split_ifs at h <;> simp at h
  · intro h
    rw [if_pos h]

/-- C6, evaluated at `N = 25`, `alpha = 1` and an input of `786445` samples
(`Sa = 12`, so `(xSize - N) / Sa = 65535`): whatever the samples and the
correlator, the frame loop is still running after any number of passes, so the
call does not return `0`. -/
theorem C6_frame_loop_never_exits (c : Correlator) (x : Nat → Int) (fuel : Nat) :
    25 ≤ 786445 ∧ (786445 - 25) / (SOLA_GetIntervals 25 1).1 = 65535 ∧
    SOLA_TSM c 25 true fuel x 786445 1 = none := by
  have hi : SOLA_GetIntervals 25 1 = (12, 12) := by decide!
  have hmax : maxFramesOf 25 786445 12 = 65535 := by decide!
  refine ⟨by norm_num, by rw [hi]; norm_num, ?_⟩
  unfold SOLA_TSM
  dsimp only
  rw [hi]
  dsimp only
  rw [if_neg (by norm_num), hmax]
  simp only [Bool.not_true, Bool.false_eq_true, if_false]
  rw [if_neg (by norm_num)]
  have hm := (SOLA_TSM_run_inv c 25 x 12 12 65535 (65535 * 12 + 25 / 2 + 25) (by norm_num)
    (by norm_num) (fun m hm => by omega) fuel (SOLA_TSM_init 25 x)
    (by simp [SOLA_TSM_init]) (by simp [SOLA_TSM_init])).1
  rw [if_pos (by omega)]

/-- C7, evaluated at `N = 160`, `alpha = 1` and an input of `5243040` samples
(`Sa = 80`, so `(xSize - N) / Sa = 65536`): whatever the samples and the
correlator, `maxFrames` is `0`, no frame is processed, and the call returns the
first frame alone with `*ySize = 160`. -/
theorem C7_frame_count_truncated (c : Correlator) (x : Nat → Int) (fuel : Nat) :
    (5243040 - 160) / (SOLA_GetIntervals 160 1).1 = 65536 ∧
    maxFramesOf 160 5243040 (SOLA_GetIntervals 160 1).1 = 0 ∧
    SOLA_TSM c 160 true fuel x 5243040 1 = some (.ok (SOLA_TSM_init 160 x).y 160) := by
  have hi : SOLA_GetIntervals 160 1 = (80, 80) := by decide!
  have hmax : maxFramesOf 160 5243040 80 = 0 := by decide!
  refine ⟨by rw [hi]; norm_num, by rw [hi]; exact hmax, ?_⟩
  unfold SOLA_TSM
  dsimp only
  rw [hi]
  dsimp only
  rw [if_neg (by norm_num), hmax]
  simp only [Bool.not_true, Bool.false_eq_true, if_false]
  rw [if_neg (by norm_num)]
  rw [SOLA_TSM_run_done c 160 x 80 80 0 fuel (SOLA_TSM_init 160 x) (by simp [SOLA_TSM_init])]
  rw [if_neg (by simp [SOLA_TSM_init])]
  rfl

/-! ## C8: the run on 10000 samples with `N = 160` and `alpha = 3/2` -/

/-- With `N = 160` and `alpha = 3/2` the intervals are `Sa = 53`, `Ss = 79`, an
input of `10000` samples has `185` frames, and the call returns `0` with
`*ySize = 185 * 79 + km + 160` for a lag `km` in `[-80, 80]`. -/
theorem SOLA_TSM_ten_thousand (c : Correlator) (x : Nat → Int) (k : Nat) :
    ∃ (y : Int → Int) (n : Nat),
      SOLA_TSM c 160 true (185 + k) x 10000 (3 / 2) = some (.ok y n) ∧
        14695 ≤ n ∧ n ≤ 14855 := by
  have hi : SOLA_GetIntervals 160 (3 / 2) = (53, 79) := by decide!
  have hmax : maxFramesOf 160 10000 53 = 185 := by decide!
  obtain ⟨y, n, h1, h2⟩ := SOLA_TSM_returns c 160 x 10000 (3 / 2) (185 + k) (by norm_num)
    (by norm_num) (by rw [hi]; norm_num) (by rw [hi]; norm_num) (by rw [hi, hmax]; norm_num)
    (by rw [hi, hmax]; omega)
  refine ⟨y, n, h1, ?_⟩
  rw [hi, hmax] at h2
  rcases h2 with ⟨h2, _⟩ | ⟨_, km, hk1, hk2, hk3⟩
  · omega
  · norm_num at hk1 hk2 hk3
    omega

/-- C8 as stated fails on the silent input of `10000` samples: the call returns
`0` and the reported length is not in `[15000, 15160]`. -/
theorem C8_length_outside_interval :
    ∃ (y : Int → Int) (n : Nat),
      SOLA_TSM floatCorrelator 160 true 185 (fun _ => 0) 10000 (3 / 2) = some (.ok y n) ∧
        ¬ (15000 ≤ n ∧ n ≤ 15160) := by
  obtain ⟨y, n, h1, _, h3⟩ := SOLA_TSM_ten_thousand floatCorrelator (fun _ => 0) 0
  exact ⟨y, n, h1, by omega⟩

/-- C8, amended: for every input signal of exactly `10000` samples, with
`N = 160` and `alpha = 3/2`, `SOLA_TSM` succeeds (for every correlator, as soon as
the `185` frames are allowed to run) and the output length it reports lies in
`[14695, 14855]`. -/
theorem C8_output_length_10000 (c : Correlator) (x : Nat → Int) (k : Nat) :
    ∃ (y : Int → Int) (n : Nat),
      SOLA_TSM c 160 true (185 + k) x 10000 (3 / 2) = some (.ok y n) ∧
        14695 ≤ n ∧ n ≤ 14855 :=
  SOLA_TSM_ten_thousand c x k

/-! ## C9: constant input at `alpha = 1` -/

/-- The accumulators over two windows that hold the constant `c`. -/
theorem crossSums_const (xw yw : Nat → Int) (c : Int) :
    ∀ n : Nat, (∀ j, j < n → xw j = c) → (∀ j, j < n → yw j = c) →
      crossSums xw yw n = ((n : Int) * c * c, (n : Int) * c * c, (n : Int) * c * c) := by
  intro n
  induction n with
  | zero => intro _ _; simp [crossSums]
  | succ n ih =>
    intro hx hy
    rw [crossSums, ih (fun j hj => hx j (by omega)) (fun j hj => hy j (by omega)),
      hx n (by omega), hy n (by omega)]
    simp only [Prod.mk.injEq]
    push_cast
    refine ⟨by ring, by ring, by ring⟩

/-- The score of two constant windows. -/
theorem SOLA_CrossCorrelation_const (xw yw : Nat → Int) (c : Int) (n : Nat)
    (hx : ∀ j, j < n → xw j = c) (hy : ∀ j, j < n → yw j = c) :
    SOLA_CrossCorrelation xw yw n = constantScore c n := by
  unfold SOLA_CrossCorrelation constantScore
  rw [crossSums_const xw yw c n hx hy]

/-- Once the best score is that of two constant windows, no later candidate
over constant windows replaces it. -/
theorem findLagLoop_const (N : Nat) (x : Nat → Int) (y : Int → Int) (sa ss m : Nat) (c : Int)
    (hN : N / 2 < 32767) (hN8 : 1 ≤ N / 8) :
    ∀ (fuel : Nat) (k : Int) (L L' : Nat) (km : Int), -32768 ≤ k → 0 < L' → L ≤ N →
      (∀ j : Nat, j < L → x (m * sa + j) = c) →
      (∀ j : Nat, j < L → y ((m : Int) * ss + k + j) = c) →
      findLagLoop floatCorrelator N x y sa ss m fuel k L (constantScore c L').toFloat km = km := by
  intro fuel
  induction fuel with
  | zero => intro k L L' km _ _ _ _ _; rfl
  | succ fuel ih =>
    intro k L L' km hk hL' hLN hx hy
    rw [findLagLoop]
    by_cases h1 : k ≤ ((N / 2 : Nat) : Int)
    · rw [if_pos h1]
      by_cases h2 : L < N / 8
      · rw [if_pos h2]
      · rw [if_neg h2]
        dsimp only
        have hR : SOLA_CrossCorrelation (fun j => x (m * sa + j))
            (fun j => y ((m : Int) * ss + k + j)) L = constantScore c L :=
          SOLA_CrossCorrelation_const _ _ c L hx hy
        rw [hR]
        have hgt : ¬ (decide ((constantScore c L').toFloat < (constantScore c L).toFloat)
            = true) := by
          rw [decide_eq_true_eq, constantScore_toFloat c L (by omega),
            constantScore_toFloat c L' hL']
          exact lt_irrefl _
        rw [if_neg hgt]
        rw [toI16_of_range (by omega) (by omega)]
        have hL1 : toU16 ((L : Int) - 1) = L - 1 := by
          have := toU16_of_range (v := (L : Int) - 1) (by omega) (by omega)
          omega
        rw [hL1]
        apply ih (k + 1) (L - 1) L' km (by omega) hL' (by omega)
        · intro j hj
          exact hx j (by omega)
        · intro j hj
          have := hy (j + 1) (by omega)
          rw [← this]
          congr 1
          push_cast
          ring
    · rw [if_neg h1]

/-- When both windows of the first candidate are constant, `SOLA_FindLag`
returns the first candidate. -/
theorem SOLA_FindLag_const (N last : Nat) (x : Nat → Int) (y : Int → Int) (sa ss m : Nat)
    (c : Int) (hN : N / 2 < 32767) (hN8 : 1 ≤ N / 8)
    (hk : -32768 ≤ firstLag N ss m) (hk2 : firstLag N ss m ≤ ((N / 2 : Nat) : Int))
    (hL : N / 8 ≤ firstPoints N last ss m (firstLag N ss m))
    (hLN : firstPoints N last ss m (firstLag N ss m) ≤ N)
    (hx : ∀ j : Nat, j < firstPoints N last ss m (firstLag N ss m) → x (m * sa + j) = c)
    (hy : ∀ j : Nat, j < firstPoints N last ss m (firstLag N ss m) →
      y ((m : Int) * ss + firstLag N ss m + j) = c) :
    SOLA_FindLag floatCorrelator N last x y sa ss m = firstLag N ss m := by
  unfold SOLA_FindLag
  dsimp only
  rw [show (65536 : Nat) = 65535 + 1 from rfl, findLagLoop, if_pos hk2, if_neg (by omega)]
  dsimp only
  have hR : SOLA_CrossCorrelation (fun j => x (m * sa + j))
      (fun j => y ((m : Int) * ss + firstLag N ss m + j))
      (firstPoints N last ss m (firstLag N ss m))
      = constantScore c (firstPoints N last ss m (firstLag N ss m)) :=
    SOLA_CrossCorrelation_const _ _ c _ hx hy
  rw [hR]
  have hgt : decide ((-1 : ℚ)
      < (constantScore c (firstPoints N last ss m (firstLag N ss m))).toFloat) = true := by
    rw [decide_eq_true_eq, constantScore_toFloat c _ (by omega)]
    split_ifs <;> norm_num
  rw [if_pos hgt]
  rw [toI16_of_range (by omega) (by omega)]
  have hL1 : toU16 ((firstPoints N last ss m (firstLag N ss m) : Int) - 1)
      = firstPoints N last ss m (firstLag N ss m) - 1 := by
    have := toU16_of_range (v := (firstPoints N last ss m (firstLag N ss m) : Int) - 1)
      (by omega) (by omega)
    omega
  rw [hL1]
  apply findLagLoop_const N x y sa ss m c hN hN8 _ _ _ _ _ (by omega) (by omega) (by omega)
  · intro j hj
    exact hx j (by omega)
  · intro j hj
    have := hy (j + 1) (by omega)
    rw [← this]
    congr 1
    push_cast
    ring

/-- One frame at `Sa = Ss = N / 2` over constant data: the search returns
`-(N / 2)`, the frame is written at position `P = m * (N / 2) - N / 2`, the
buffer stays constant up to the new `lastSampleIndex = P + N`. -/
theorem SOLA_TSM_frame_const (N : Nat) (x : Nat → Int) (c : Int) (s : TSMState) (P : Nat)
    (hN25 : 25 ≤ N) (hN : N ≤ 1000) (hc1 : -32768 ≤ c) (hc2 : c ≤ 32767)
    (hm : s.m < 65535) (hP : s.m * (N / 2) = P + N / 2) (hP2 : P ≤ 65535 * 500)
    (h1 : s.lastSampleIndex ≤ P + N) (h2 : P + (N - N / 2) ≤ s.lastSampleIndex)
    (hy : ∀ i : Int, 0 ≤ i → i < s.lastSampleIndex → s.y i = c)
    (hx : ∀ j : Nat, j < N → x (s.m * (N / 2) + j) = c) :
    (SOLA_TSM_frame floatCorrelator N x (N / 2) (N / 2) s).m = s.m + 1 ∧
    (SOLA_TSM_frame floatCorrelator N x (N / 2) (N / 2) s).lastSampleIndex = P + N ∧
    ∀ i : Int, 0 ≤ i → i < ((P + N : Nat) : Int) →
      (SOLA_TSM_frame floatCorrelator N x (N / 2) (N / 2) s).y i = c := by
  have hPi : (s.m : Int) * ((N / 2 : Nat) : Int) = (P : Int) + ((N / 2 : Nat) : Int) := by
    exact_mod_cast hP
  have hfl : firstLag N (N / 2) s.m = -((N / 2 : Nat) : Int) := by
    unfold firstLag
    rw [if_pos (by omega), toI16_of_range (by omega) (by omega)]
  have hfp : ∀ k : Int, k = -((N / 2 : Nat) : Int) →
      firstPoints N s.lastSampleIndex (N / 2) s.m k = s.lastSampleIndex - P := by
    intro k hk
    unfold firstPoints
    have e : (s.m : Int) * ((N / 2 : Nat) : Int) + k + (N : Int) = ((P + N : Nat) : Int) := by
      omega
    have e2 : (s.lastSampleIndex : Int) - ((s.m : Int) * ((N / 2 : Nat) : Int) + k)
        = ((s.lastSampleIndex - P : Nat) : Int) := by
      omega
    have hu : toU32 ((P + N : Nat) : Int) = P + N := by
      have := toU32_of_range (v := ((P + N : Nat) : Int)) (by omega) (by omega)
      omega
    have hu2 : toU16 ((s.lastSampleIndex - P : Nat) : Int) = s.lastSampleIndex - P := by
      have := toU16_of_range (v := ((s.lastSampleIndex - P : Nat) : Int)) (by omega) (by omega)
      omega
    rw [e, e2, hu, hu2]
    split_ifs with h
    · rfl
    · omega
  have hol : overlapLength N s.lastSampleIndex (N / 2) s.m (-((N / 2 : Nat) : Int))
      = s.lastSampleIndex - P := hfp _ rfl
  have hlag : SOLA_FindLag floatCorrelator N s.lastSampleIndex x s.y (N / 2) (N / 2) s.m
      = -((N / 2 : Nat) : Int) := by
    rw [SOLA_FindLag_const N s.lastSampleIndex x s.y (N / 2) (N / 2) s.m c (by omega) (by omega)
      (by rw [hfl]; omega) (by rw [hfl]; omega) (by rw [hfp _ hfl]; omega)
      (by rw [hfp _ hfl]; omega)
      (by rw [hfp _ hfl]; intro j hj; exact hx j (by omega))
      (by
        rw [hfp _ hfl, hfl]
        intro j hj
        exact hy _ (by omega) (by omega))]
    exact hfl
  refine ⟨?_, ?_, ?_⟩
  · change toU16 ((s.m : Int) + 1) = s.m + 1
    have := toU16_of_range (v := (s.m : Int) + 1) (by omega) (by omega)
    omega
  · change toU32 ((s.m : Int) * ((N / 2 : Nat) : Int)
      + SOLA_FindLag floatCorrelator N s.lastSampleIndex x s.y (N / 2) (N / 2) s.m + (N : Int))
      = P + N
    rw [hlag]
    have := toU32_of_range (v := (s.m : Int) * ((N / 2 : Nat) : Int)
      + -((N / 2 : Nat) : Int) + (N : Int)) (by omega) (by omega)
    omega
  · intro i hi0 hi1
    change SOLA_OverlapFrame N s.lastSampleIndex x s.y (N / 2) (N / 2) s.m
      (SOLA_FindLag floatCorrelator N s.lastSampleIndex x s.y (N / 2) (N / 2) s.m) i = c
    rw [hlag]
    unfold SOLA_OverlapFrame
    dsimp only
    rw [hol]
    have e : i - ((s.m : Int) * ((N / 2 : Nat) : Int) + -((N / 2 : Nat) : Int)) = i - P := by
      omega
    rw [e]
    by_cases hA : 0 ≤ i - (P : Int) ∧ i - (P : Int) < ((s.lastSampleIndex - P : Nat) : Int)
    · rw [if_pos hA]
      have hq : (i - (P : Int)) / ((s.lastSampleIndex - P : Nat) : Int) = 0 :=
        Int.ediv_eq_zero_of_lt hA.1 hA.2
      rw [hq, hy i hi0 (by omega)]
      simp only [sub_zero, one_mul, zero_mul, add_zero]
      exact toI16_of_range hc1 (by omega)
    · rw [if_neg hA]
      by_cases hB : ((s.lastSampleIndex - P : Nat) : Int) ≤ i - (P : Int) ∧ i - (P : Int) < (N : Int)
      · rw [if_pos hB]
        exact hx _ (by omega)
      · rw [if_neg hB]
        exact hy i hi0 (by omega)

/-- The frame loop on a constant input at `Sa = Ss = N / 2`: after `n` frames
the counter is `n + 1`, `lastSampleIndex` is `(n - 1) * (N / 2) + N`, and the
buffer holds the constant below it. -/
theorem SOLA_TSM_run_const (N : Nat) (x : Nat → Int) (c : Int) (q : Nat)
    (hN25 : 25 ≤ N) (hN : N ≤ 1000) (hc1 : -32768 ≤ c) (hc2 : c ≤ 32767) (hq : q < 65535)
    (hx : ∀ i : Nat, i < N + q * (N / 2) → x i = c) :
    ∀ n : Nat, n ≤ q →
      (SOLA_TSM_run floatCorrelator N x (N / 2) (N / 2) q n (SOLA_TSM_init N x)).m = n + 1 ∧
      (SOLA_TSM_run floatCorrelator N x (N / 2) (N / 2) q n
        (SOLA_TSM_init N x)).lastSampleIndex = (n - 1) * (N / 2) + N ∧
      ∀ i : Int, 0 ≤ i →
        i < (SOLA_TSM_run floatCorrelator N x (N / 2) (N / 2) q n
          (SOLA_TSM_init N x)).lastSampleIndex →
        (SOLA_TSM_run floatCorrelator N x (N / 2) (N / 2) q n (SOLA_TSM_init N x)).y i = c := by
  intro n
  induction n with
  | zero =>
    intro _
    refine ⟨rfl, by simp [SOLA_TSM_run, SOLA_TSM_init], ?_⟩
    intro i hi0 hi1
    have hi2 : i < (N : Int) := hi1
    show (if 0 ≤ i ∧ i < (N : Int) then x i.toNat else 0) = c
    rw [if_pos ⟨hi0, hi2⟩]
    exact hx _ (by omega)
  | succ n ih =>
    intro hn
    obtain ⟨hm, hl, hy⟩ := ih (by omega)
    rw [SOLA_TSM_run_succ, if_pos (by omega)]
    have e1 : (n + 1) * (N / 2) = n * (N / 2) + N / 2 := by ring
    have e2 : n * (N / 2) ≤ 65535 * 500 := Nat.mul_le_mul (by omega) (by omega)
    have e3 : (n - 1) * (N / 2) ≤ n * (N / 2) := Nat.mul_le_mul_right _ (by omega)
    have e4 : n * (N / 2) ≤ (n - 1) * (N / 2) + N / 2 := by
      cases n with
      | zero => simp
      | succ k => simp [Nat.succ_mul]
    have e5 : (n + 1) * (N / 2) ≤ q * (N / 2) := Nat.mul_le_mul_right _ hn
    obtain ⟨r1, r2, r3⟩ := SOLA_TSM_frame_const N x c
      (SOLA_TSM_run floatCorrelator N x (N / 2) (N / 2) q n (SOLA_TSM_init N x))
      (n * (N / 2)) hN25 hN hc1 hc2 (by omega) (by rw [hm]; exact e1) e2 (by omega) (by omega)
      hy (by
        intro j hj
        rw [hm]
        exact hx _ (by omega))
    refine ⟨by omega, ?_, ?_⟩
    · rw [r2]; simp
    · intro i hi0 hi1
      rw [r2] at hi1
      exact r3 i hi0 hi1

/-- The run of `SOLA_TSM` on a constant input at `alpha = 1`: with `q` frames
(`xSize = N + q * (N / 2)`, `q < 65535`) the call returns `0`, reports
`(q - 1) * (N / 2) + N` samples, and every reported sample is the constant. -/
theorem SOLA_TSM_constant (N : Nat) (x : Nat → Int) (c : Int) (q k : Nat)
    (hN25 : 25 ≤ N) (hN : N ≤ 1000) (hc1 : -32768 ≤ c) (hc2 : c ≤ 32767) (hq : q < 65535)
    (hx : ∀ i : Nat, i < N + q * (N / 2) → x i = c) :
    ∃ (y : Int → Int) (n : Nat),
      SOLA_TSM floatCorrelator N true (q + k) x (N + q * (N / 2)) 1 = some (.ok y n) ∧
      n = (q - 1) * (N / 2) + N ∧ ∀ i : Nat, i < n → y (i : Int) = c := by
  obtain ⟨hm, hl, hy⟩ := SOLA_TSM_run_const N x c q hN25 hN hc1 hc2 hq hx q le_rfl
  have hmax : maxFramesOf N (N + q * (N / 2)) (N / 2) = q := by
    unfold maxFramesOf
    rw [Nat.add_sub_cancel_left, Nat.mul_div_cancel q (by omega)]
    have := toU16_of_range (v := (q : Int)) (by omega) (by omega)
    omega
  have hrun : SOLA_TSM_run floatCorrelator N x (N / 2) (N / 2) q (q + k) (SOLA_TSM_init N x)
      = SOLA_TSM_run floatCorrelator N x (N / 2) (N / 2) q q (SOLA_TSM_init N x) := by
    rw [SOLA_TSM_run_add]
    exact SOLA_TSM_run_done _ _ _ _ _ _ _ _ (by omega)
  refine ⟨(SOLA_TSM_run floatCorrelator N x (N / 2) (N / 2) q q (SOLA_TSM_init N x)).y,
    (SOLA_TSM_run floatCorrelator N x (N / 2) (N / 2) q q (SOLA_TSM_init N x)).lastSampleIndex,
    ?_, hl, ?_⟩
  · unfold SOLA_TSM
    dsimp only
    rw [intervals_alpha_one hN]
    dsimp only
    rw [if_neg (by omega), hmax, hrun]
    simp only [Bool.not_true, Bool.false_eq_true, if_false]
    rw [if_neg (by omega), if_neg (by omega)]
  · intro i hi
    exact hy i (by omega) (by exact_mod_cast hi)

/-- C9 as stated fails on the constant input `7` of `49 = 25 + 2 * 12` samples
with `N = 25` and `alpha = 1`: the call returns `0` and reports `37` samples, not
`49`. -/
theorem C9_constant_output_shorter :
    ∃ (y : Int → Int) (n : Nat),
      SOLA_TSM floatCorrelator 25 true 2 (fun _ => 7) 49 1 = some (.ok y n) ∧
        n = 37 ∧ n ≠ 49 := by
  obtain ⟨y, n, h1, h2, _⟩ := SOLA_TSM_constant 25 (fun _ => 7) 7 2 0 (by norm_num)
    (by norm_num) (by norm_num) (by norm_num) (by norm_num) (fun _ _ => rfl)
  exact ⟨y, n, h1, by omega, by omega⟩

/-- C9, amended: with `alpha = 1`, `N` in `[25, 1000]` and a constant 16-bit input
of `N + q * Sa` samples (`q < 65535` frames), `SOLA_TSM` returns `0`; the reported
length is the input length when `q = 0` and the input length minus `Sa` otherwise;
and `y[i] = x[i]` for every index `i` below the reported length. -/
theorem C9_constant_input_alpha_one (N : Nat) (x : Nat → Int) (xSize : Nat) (c : Int)
    (q k : Nat) (hN25 : 25 ≤ N) (hN : N ≤ 1000) (hc1 : -32768 ≤ c) (hc2 : c ≤ 32767)
    (hq : q < 65535) (hsize : xSize = N + q * (SOLA_GetIntervals N 1).1)
    (hx : ∀ i : Nat, i < xSize → x i = c) :
    ∃ (y : Int → Int) (n : Nat),
      SOLA_TSM floatCorrelator N true (q + k) x xSize 1 = some (.ok y n) ∧
      n = (if q = 0 then xSize else xSize - (SOLA_GetIntervals N 1).1) ∧
      ∀ i : Nat, i < n → y (i : Int) = x i := by
  rw [intervals_alpha_one hN] at hsize ⊢
  dsimp only at hsize ⊢
  subst hsize
  obtain ⟨y, n, h1, h2, h3⟩ := SOLA_TSM_constant N x c q k hN25 hN hc1 hc2 hq hx
  have e : q = 0 ∨ ∃ p, q = p + 1 := by
    cases q with
    | zero => exact Or.inl rfl
    | succ p => exact Or.inr ⟨p, rfl⟩
  have hn : n = (if q = 0 then N + q * (N / 2) else N + q * (N / 2) - N / 2) := by
    rcases e with e | ⟨p, e⟩
    · subst e
      simp [h2]
    · subst e
      rw [if_neg (by omega), h2]
      simp only [Nat.add_sub_cancel, Nat.succ_mul]
      omega
  refine ⟨y, n, h1, hn, ?_⟩
  intro i hi
  rw [h3 i hi, hx i]
  rw [hn] at hi
  split_ifs at hi <;> omega

/-- C9, amended, on the constant input `7` of `49` samples with `N = 25`. -/
theorem C9_constant_input_alpha_one_witness :
    ((25 ≤ 25 ∧ 25 ≤ 1000) ∧ ((-32768 : Int) ≤ 7 ∧ (7 : Int) ≤ 32767) ∧ 2 < 65535 ∧
      49 = 25 + 2 * (SOLA_GetIntervals 25 1).1 ∧
      (∀ i : Nat, i < 49 → (fun _ => 7 : Nat → Int) i = 7)) ∧
    ∃ (y : Int → Int) (n : Nat),
      SOLA_TSM floatCorrelator 25 true (2 + 0) (fun _ => 7) 49 1 = some (.ok y n) ∧
      n = (if 2 = 0 then 49 else 49 - (SOLA_GetIntervals 25 1).1) ∧
      ∀ i : Nat, i < n → y (i : Int) = (fun _ => 7 : Nat → Int) i :=
  ⟨⟨⟨by norm_num, by norm_num⟩, ⟨by norm_num, by norm_num⟩, by norm_num, by decide!,
      fun _ _ => rfl⟩,
    C9_constant_input_alpha_one 25 (fun _ => 7) 49 7 2 0 (by norm_num) (by norm_num)
      (by norm_num) (by norm_num) (by norm_num) (by decide!) (fun _ _ => rfl)⟩

/-! ## C10: symmetry of the correlator -/

/-- Exchanging the two windows exchanges the two energy sums. -/
theorem crossSums_swap (x y : Nat → Int) (n : Nat) :
    crossSums y x n = ((crossSums x y n).1, (crossSums x y n).2.2, (crossSums x y n).2.1) := by
  induction n with
  | zero => rfl
  | succ n ih =>
    rw [crossSums, crossSums, ih]
    simp only [Prod.mk.injEq, and_true]
    ring

/-- C10: `SOLA_CrossCorrelation` is symmetric: for all windows `x`, `y` and every
length `L`, the score of `(x, y, L)` is the score of `(y, x, L)`, as a pair of
numerator and radicand and as the `float` returned. -/
theorem C10_cross_correlation_symmetric (x y : Nat → Int) (L : Nat) :
    SOLA_CrossCorrelation x y L = SOLA_CrossCorrelation y x L ∧
    floatCorrelator.corr x y L = floatCorrelator.corr y x L := by
  have h : SOLA_CrossCorrelation x y L = SOLA_CrossCorrelation y x L := by
    unfold SOLA_CrossCorrelation
    dsimp only
    rw [crossSums_swap x y L]
    dsimp only
    rw [mul_comm (crossSums x y L).2.2 (crossSums x y L).2.1]
  exact ⟨h, congrArg Score.toFloat h⟩

/-! ## The lag search as a fold over its candidates -/

/-- The loop of `SOLA_FindLag` folds `bestStep` over the candidates it scans. -/
theorem findLagLoop_eq_foldl (c : Correlator) (N : Nat) (x : Nat → Int) (y : Int → Int)
    (sa ss m : Nat) :
    ∀ (fuel : Nat) (k : Int) (L : Nat) (Rm : c.Val) (km : Int),
      findLagLoop c N x y sa ss m fuel k L Rm km
        = ((findLagScan N fuel k L).foldl (bestStep c x y sa ss m) (Rm, km)).2 := by
  intro fuel
  induction fuel with
  | zero => intro k L Rm km; rfl
  | succ fuel ih =>
    intro k L Rm km
    rw [findLagLoop, findLagScan]
    by_cases hk : k ≤ ((N / 2 : Nat) : Int)
    · rw [if_pos hk, if_pos hk]
      by_cases hL : L < N / 8
      · rw [if_pos hL, if_pos hL]; rfl
      · rw [if_neg hL, if_neg hL, List.foldl_cons]
        dsimp only
        by_cases hgt : c.gt (c.corr (fun j => x (m * sa + j))
            (fun j => y ((m : Int) * ss + k + j)) L) Rm = true
        · rw [if_pos hgt, ih]
          have e : bestStep c x y sa ss m (Rm, km) (k, L)
              = (c.corr (fun j => x (m * sa + j)) (fun j => y ((m : Int) * ss + k + j)) L, k) := by
            unfold bestStep candidateScore
            exact if_pos hgt
          rw [e]
        · rw [if_neg hgt, ih]
          have e : bestStep c x y sa ss m (Rm, km) (k, L) = (Rm, km) := by
            unfold bestStep candidateScore
            exact if_neg hgt
          rw [e]
    · rw [if_neg hk, if_neg hk]; rfl

/-- `SOLA_FindLag` folds `bestStep` over its candidates, from the initial score
and the initial lag `0`. -/
theorem SOLA_FindLag_eq_foldl (c : Correlator) (N last : Nat) (x : Nat → Int) (y : Int → Int)
    (sa ss m : Nat) :
    SOLA_FindLag c N last x y sa ss m
      = ((findLagScan N 65536 (firstLag N ss m)
            (firstPoints N last ss m (firstLag N ss m))).foldl
          (bestStep c x y sa ss m) (c.sentinel, 0)).2 := by
  unfold SOLA_FindLag
  exact findLagLoop_eq_foldl c N x y sa ss m _ _ _ _ _

/-- Folding `bestStep` keeps the first candidate of greatest score, when the
test `R > Rm` is the strict order of a rational key on the scores met. -/
theorem foldl_bestStep (c : Correlator) (x : Nat → Int) (y : Int → Int) (sa ss m : Nat)
    (key : c.Val → ℚ) (ok : c.Val → Prop)
    (hgt : ∀ a b, ok a → ok b → (c.gt a b = true ↔ key b < key a)) :
    ∀ (l : List (Int × Nat)) (Rm : c.Val) (km : Int), ok Rm →
      (∀ p ∈ l, ok (candidateScore c x y sa ss m p)) →
      (l.foldl (bestStep c x y sa ss m) (Rm, km) = (Rm, km) ∧
        ∀ p ∈ l, ¬ key Rm < key (candidateScore c x y sa ss m p)) ∨
      (∃ (pre : List (Int × Nat)) (p : Int × Nat) (post : List (Int × Nat)),
        l = pre ++ p :: post ∧
        l.foldl (bestStep c x y sa ss m) (Rm, km) = (candidateScore c x y sa ss m p, p.1) ∧
        key Rm < key (candidateScore c x y sa ss m p) ∧
        (∀ q ∈ pre, key (candidateScore c x y sa ss m q) < key (candidateScore c x y sa ss m p)) ∧
        (∀ q ∈ post, key (candidateScore c x y sa ss m q)
          ≤ key (candidateScore c x y sa ss m p))) := by
  intro l
  induction l with
  | nil =>
    intro Rm km _ _
    exact Or.inl ⟨rfl, fun p hp => by simp at hp⟩
  | cons q l ih =>
    intro Rm km hRm hl
    have hq : ok (candidateScore c x y sa ss m q) := hl q (List.mem_cons_self _ _)
    have hl' : ∀ p ∈ l, ok (candidateScore c x y sa ss m p) :=
      fun p hp => hl p (List.mem_cons_of_mem _ hp)
    rw [List.foldl_cons]
    by_cases hb : key Rm < key (candidateScore c x y sa ss m q)
    · have e : bestStep c x y sa ss m (Rm, km) q = (candidateScore c x y sa ss m q, q.1) := by
        unfold bestStep
        exact if_pos ((hgt _ _ hq hRm).mpr hb)
      rw [e]
      right
      rcases ih (candidateScore c x y sa ss m q) q.1 hq hl' with ⟨h1, h2⟩ | ⟨pre, p, post, h1, h2, h3, h4, h5⟩
      · exact ⟨[], q, l, rfl, h1, hb, fun r hr => by simp at hr,
          fun r hr => not_lt.mp (h2 r hr)⟩
      · refine ⟨q :: pre, p, post, by rw [h1]; rfl, h2, lt_trans hb h3, ?_, h5⟩
        intro r hr
        rcases List.mem_cons.mp hr with hr | hr
        · rw [hr]; exact h3
        · exact h4 r hr
    · have e : bestStep c x y sa ss m (Rm, km) q = (Rm, km) := by
        unfold bestStep
        exact if_neg (fun h => hb ((hgt _ _ hq hRm).mp h))
      rw [e]
      rcases ih Rm km hRm hl' with ⟨h1, h2⟩ | ⟨pre, p, post, h1, h2, h3, h4, h5⟩
      · left
        refine ⟨h1, ?_⟩
        intro r hr
        rcases List.mem_cons.mp hr with hr | hr
        · rw [hr]; exact hb
        · exact h2 r hr
      · right
        refine ⟨q :: pre, p, post, by rw [h1]; rfl, h2, h3, ?_, h5⟩
        intro r hr
        rcases List.mem_cons.mp hr with hr | hr
        · rw [hr]; exact lt_of_le_of_lt (not_lt.mp hb) h3
        · exact h4 r hr

/-- The two energy sums are non-negative. -/
theorem crossSums_nonneg (x y : Nat → Int) :
    ∀ n : Nat, 0 ≤ (crossSums x y n).2.1 ∧ 0 ≤ (crossSums x y n).2.2 := by
  intro n
  induction n with
  | zero => simp [crossSums]
  | succ n ih =>
    rw [crossSums]
    dsimp only
    exact ⟨add_nonneg ih.1 (mul_self_nonneg _), add_nonneg ih.2 (mul_self_nonneg _)⟩

/-- The radicand of a score returned by `SOLA_CrossCorrelation` is positive. -/
theorem SOLA_CrossCorrelation_den_pos (x y : Nat → Int) (n : Nat) :
    0 < (SOLA_CrossCorrelation x y n).den2 := by
  unfold SOLA_CrossCorrelation
  dsimp only
  split_ifs with h
  · exact Nat.one_pos
  · have h1 := crossSums_nonneg x y n
    have h2 : 0 < (crossSums x y n).2.1 * (crossSums x y n).2.2 :=
      lt_of_le_of_ne (mul_nonneg h1.1 h1.2) (Ne.symm h)
    show 0 < ((crossSums x y n).2.1 * (crossSums x y n).2.2).toNat
    omega

/-- Without wrap-around the `i`-th candidate scanned is `k + i` with `L - i`
points, it is at most `N / 2` and its points are at least `N / 8`. -/
theorem findLagScan_get (N : Nat) (hN : N / 2 < 32767) (hN8 : 1 ≤ N / 8) :
    ∀ (fuel : Nat) (k : Int) (L i : Nat) (p : Int × Nat), -32768 ≤ k → L < 65536 →
      (findLagScan N fuel k L)[i]? = some p →
      p = (k + i, L - i) ∧ k + i ≤ ((N / 2 : Nat) : Int) ∧ N / 8 + i ≤ L := by
  intro fuel
  induction fuel with
  | zero => intro k L i p _ _ h; simp [findLagScan] at h
  | succ fuel ih =>
    intro k L i p hk hL h
    rw [findLagScan] at h
    by_cases h1 : k ≤ ((N / 2 : Nat) : Int)
    · rw [if_pos h1] at h
      by_cases h2 : L < N / 8
      · rw [if_pos h2] at h; simp at h
      · rw [if_neg h2] at h
        cases i with
        | zero =>
          rw [List.getElem?_cons_zero] at h
          cases h
          exact ⟨by simp, by simpa using h1, by omega⟩
        | succ i =>
          rw [List.getElem?_cons_succ, toI16_of_range (by omega) (by omega)] at h
          have hL1 : toU16 ((L : Int) - 1) = L - 1 := by
            have := toU16_of_range (v := (L : Int) - 1) (by omega) (by omega)
            omega
          rw [hL1] at h
          obtain ⟨e1, e2, e3⟩ := ih (k + 1) (L - 1) i p (by omega) (by omega) h
          refine ⟨?_, by push_cast; omega, by omega⟩
          rw [e1]
          apply Prod.ext
          · show k + 1 + (i : Int) = k + ((i + 1 : Nat) : Int)
            push_cast; ring
          · show L - 1 - i = L - (i + 1)
            omega
    · rw [if_neg h1] at h; simp at h

/-- Without wrap-around the scan reaches every lag up to `N / 2` whose points are
at least `N / 8`. -/
theorem findLagScan_length (N : Nat) (hN : N / 2 < 32767) (hN8 : 1 ≤ N / 8) :
    ∀ (fuel : Nat) (k : Int) (L i : Nat), -32768 ≤ k → L < 65536 → i < fuel →
      k + i ≤ ((N / 2 : Nat) : Int) → N / 8 + i ≤ L →
      i < (findLagScan N fuel k L).length := by
  intro fuel
  induction fuel with
  | zero => intro k L i _ _ h; omega
  | succ fuel ih =>
    intro k L i hk hL hi h1 h2
    rw [findLagScan, if_pos (by omega), if_neg (by omega), List.length_cons]
    cases i with
    | zero => omega
    | succ i =>
      rw [toI16_of_range (by omega) (by omega)]
      have hL1 : toU16 ((L : Int) - 1) = L - 1 := by
        have := toU16_of_range (v := (L : Int) - 1) (by omega) (by omega)
        omega
      rw [hL1]
      have := ih (k + 1) (L - 1) i (by omega) (by omega) (by omega)
        (by push_cast at h1; omega) (by omega)
      omega

/-- Every candidate scanned is at some offset `i` from the first one. -/
theorem findLagScan_mem (N : Nat) (hN : N / 2 < 32767) (hN8 : 1 ≤ N / 8)
    (fuel : Nat) (k : Int) (L : Nat) (p : Int × Nat) (hk : -32768 ≤ k) (hL : L < 65536)
    (hp : p ∈ findLagScan N fuel k L) :
    ∃ i : Nat, p = (k + i, L - i) ∧ k + i ≤ ((N / 2 : Nat) : Int) ∧ N / 8 + i ≤ L := by
  obtain ⟨i, hi⟩ := List.getElem?_of_mem hp
  exact ⟨i, findLagScan_get N hN hN8 fuel k L i p hk hL hi⟩
/-! ## C11: the value of the correlator -/

/-- The accumulators of `SOLA_CrossCorrelation` are the three sums over the
first `n` samples. -/
theorem crossSums_eq_sum (x y : Nat → Int) (n : Nat) :
    crossSums x y n = (∑ j in Finset.range n, x j * y j, ∑ j in Finset.range n, x j * x j,
      ∑ j in Finset.range n, y j * y j) := by
  induction n with
  | zero => simp [crossSums]
  | succ n ih =>
    rw [crossSums, ih]
    simp only [Finset.sum_range_succ]

/-- C11: for every length `L > 0`, when one of the two windows holds only zero
samples `SOLA_CrossCorrelation` returns exactly `0` (the score `0 / sqrt 1`, by the
branch that performs no division); and for windows with a non-zero denominator
it returns `(sum x[j]*y[j]) / sqrt ((sum x[j]^2) * (sum y[j]^2))`: the numerator
of the score is the first sum and its radicand the product of the other two, and
the `float` returned is the quotient of the first sum by the `double` square
root of the `double` product, rounded to `double` and converted to `float`. -/
theorem C11_cross_correlation_value (x y : Nat → Int) (L : Nat) (hL : 0 < L) :
    (((∀ j, j < L → x j = 0) ∨ (∀ j, j < L → y j = 0)) →
      SOLA_CrossCorrelation x y L = ⟨0, 1⟩ ∧ floatCorrelator.corr x y L = 0) ∧
    ((∑ j in Finset.range L, x j * x j) * (∑ j in Finset.range L, y j * y j) ≠ 0 →
      (SOLA_CrossCorrelation x y L).num = ∑ j in Finset.range L, x j * y j ∧
      ((SOLA_CrossCorrelation x y L).den2 : Int)
        = (∑ j in Finset.range L, x j * x j) * (∑ j in Finset.range L, y j * y j) ∧
      floatCorrelator.corr x y L
        = f32 (f64 (((∑ j in Finset.range L, x j * y j : Int) : ℚ)
            / f64sqrt (f64 ((((∑ j in Finset.range L, x j * x j)
                * (∑ j in Finset.range L, y j * y j) : Int)) : ℚ))))) := by
  have _ := hL
  have hnn : 0 ≤ (∑ j in Finset.range L, x j * x j) * (∑ j in Finset.range L, y j * y j) :=
    mul_nonneg (Finset.sum_nonneg fun j _ => mul_self_nonneg (x j))
      (Finset.sum_nonneg fun j _ => mul_self_nonneg (y j))
  constructor
  · intro h
    have h1 : SOLA_CrossCorrelation x y L = ⟨0, 1⟩ := by
      unfold SOLA_CrossCorrelation
      rw [crossSums_eq_sum]
      dsimp only
      rw [if_pos]
      rcases h with h | h
      · have h0 : ∑ j in Finset.range L, x j * x j = 0 :=
          Finset.sum_eq_zero (fun j hj => by rw [h j (Finset.mem_range.mp hj)]; ring)
        rw [h0, zero_mul]
      · have h0 : ∑ j in Finset.range L, y j * y j = 0 :=
          Finset.sum_eq_zero (fun j hj => by rw [h j (Finset.mem_range.mp hj)]; ring)
        rw [h0, mul_zero]
    refine ⟨h1, ?_⟩
    show (SOLA_CrossCorrelation x y L).toFloat = 0
    rw [h1]
    exact f32_below_one.2.2
  · intro h
    have h1 : (SOLA_CrossCorrelation x y L).num = ∑ j in Finset.range L, x j * y j ∧
        ((SOLA_CrossCorrelation x y L).den2 : Int)
          = (∑ j in Finset.range L, x j * x j) * (∑ j in Finset.range L, y j * y j) := by
      unfold SOLA_CrossCorrelation
      rw [crossSums_eq_sum]
      dsimp only
      rw [if_neg h]
      exact ⟨rfl, Int.toNat_of_nonneg hnn⟩
    refine ⟨h1.1, h1.2, ?_⟩
    show (SOLA_CrossCorrelation x y L).toFloat = _
    unfold Score.toFloat
    rw [h1.1, ← h1.2, Int.cast_natCast]

/-- C11 on the windows `0, 0, 0` and `0, 1, 2`. -/
theorem C11_cross_correlation_value_witness :
    0 < 3 ∧
    ((((∀ j, j < 3 → (fun _ => 0 : Nat → Int) j = 0) ∨
        (∀ j, j < 3 → (fun j => (j : Int) : Nat → Int) j = 0)) →
      SOLA_CrossCorrelation (fun _ => 0) (fun j => (j : Int)) 3 = ⟨0, 1⟩ ∧
        floatCorrelator.corr (fun _ => 0) (fun j => (j : Int)) 3 = 0) ∧
    ((∑ j in Finset.range 3, (fun _ => 0 : Nat → Int) j * (fun _ => 0 : Nat → Int) j)
        * (∑ j in Finset.range 3, (fun j => (j : Int) : Nat → Int) j
            * (fun j => (j : Int) : Nat → Int) j) ≠ 0 →
      (SOLA_CrossCorrelation (fun _ => 0) (fun j => (j : Int)) 3).num
        = ∑ j in Finset.range 3, (fun _ => 0 : Nat → Int) j * (fun j => (j : Int) : Nat → Int) j ∧
      ((SOLA_CrossCorrelation (fun _ => 0) (fun j => (j : Int)) 3).den2 : Int)
        = (∑ j in Finset.range 3, (fun _ => 0 : Nat → Int) j * (fun _ => 0 : Nat → Int) j)
          * (∑ j in Finset.range 3, (fun j => (j : Int) : Nat → Int) j
              * (fun j => (j : Int) : Nat → Int) j) ∧
      floatCorrelator.corr (fun _ => 0) (fun j => (j : Int)) 3
        = f32 (f64 (((∑ j in Finset.range 3,
              (fun _ => 0 : Nat → Int) j * (fun j => (j : Int) : Nat → Int) j : Int) : ℚ)
            / f64sqrt (f64 ((((∑ j in Finset.range 3,
                (fun _ => 0 : Nat → Int) j * (fun _ => 0 : Nat → Int) j)
                * (∑ j in Finset.range 3, (fun j => (j : Int) : Nat → Int) j
                    * (fun j => (j : Int) : Nat → Int) j) : Int)) : ℚ)))))) :=
  ⟨by norm_num, C11_cross_correlation_value (fun _ => 0) (fun j => (j : Int)) 3 (by norm_num)⟩

/-! ## C12: bounds on the intervals -/

/-- C12 as stated fails at `N = 26` and `alpha = 5452595 / 4194304`, the `float`
nearest to `13/10`: `Sa = 10`, the `float` product `Sa * alpha` rounds up to `13`,
so `Ss = 13`, whereas `floor (Sa * alpha) = 12`. -/
theorem C12_product_rounds_up :
    (25 ≤ 26 ∧ 26 ≤ 1000) ∧
    ((1 : ℚ) / 2 ≤ 5452595 / 4194304 ∧ (5452595 : ℚ) / 4194304 ≤ 2) ∧
    f32 (13 / 10) = 5452595 / 4194304 ∧
    SOLA_GetIntervals 26 (5452595 / 4194304) = (10, 13) ∧
    ⌊(((SOLA_GetIntervals 26 (5452595 / 4194304)).1 : Nat) : ℚ) * (5452595 / 4194304)⌋ = 12 ∧
    ((SOLA_GetIntervals 26 (5452595 / 4194304)).2 : Int)
      ≠ ⌊(((SOLA_GetIntervals 26 (5452595 / 4194304)).1 : Nat) : ℚ) * (5452595 / 4194304)⌋ := by
  decide!

/-- C12, amended: for `alpha` in `[1/2, 2]` and `N` in `[25, 1000]` the intervals
computed by `SOLA_GetIntervals` satisfy `Sa <= N / 2` (as an integer quotient,
hence as a fraction), and `Ss` is the integer part of the `float` product
`Sa * alpha`: it is `floor (Sa * alpha) >= 0` or one more, and at most `N / 2`. -/
theorem C12_interval_bounds (N : Nat) (alpha : ℚ) (hN25 : 25 ≤ N) (hN : N ≤ 1000)
    (ha : 1 / 2 ≤ alpha) (ha2 : alpha ≤ 2) :
    (SOLA_GetIntervals N alpha).1 ≤ N / 2 ∧
    ((SOLA_GetIntervals N alpha).1 : ℚ) ≤ (N : ℚ) / 2 ∧
    ((SOLA_GetIntervals N alpha).2 : Int)
      = ⌊f32 (((SOLA_GetIntervals N alpha).1 : ℚ) * alpha)⌋ ∧
    0 ≤ ⌊((SOLA_GetIntervals N alpha).1 : ℚ) * alpha⌋ ∧
    ⌊((SOLA_GetIntervals N alpha).1 : ℚ) * alpha⌋ ≤ ((SOLA_GetIntervals N alpha).2 : Int) ∧
    ((SOLA_GetIntervals N alpha).2 : Int) ≤ ⌊((SOLA_GetIntervals N alpha).1 : ℚ) * alpha⌋ + 1 ∧
    (SOLA_GetIntervals N alpha).2 ≤ N / 2 := by
  have _ := hN25
  have h1 := intervals_sa_le hN ha
  have h2 := intervals_ss hN ha ha2
  obtain ⟨h5, h6⟩ := intervals_ss_floor hN ha ha2
  have hpos : (0 : ℚ) < alpha := by linarith
  have h0 : (0 : ℚ) ≤ ((SOLA_GetIntervals N alpha).1 : ℚ) * alpha := by positivity
  refine ⟨h1, ?_, h2, Int.floor_nonneg.mpr h0, h5, ?_, intervals_ss_le hN ha ha2⟩
  · have h3 : ((SOLA_GetIntervals N alpha).1 : ℚ) ≤ ((N / 2 : Nat) : ℚ) := by exact_mod_cast h1
    have h4 : ((N / 2 : Nat) : ℚ) ≤ (N : ℚ) / 2 := by
      rw [le_div_iff₀ (by norm_num)]
      have : N / 2 * 2 ≤ N := Nat.div_mul_le_self N 2
      exact_mod_cast this
    exact le_trans h3 h4
  · have h7 : (((SOLA_GetIntervals N alpha).2 : Int) : ℚ)
        < ((⌊((SOLA_GetIntervals N alpha).1 : ℚ) * alpha⌋ + 1 + 1 : Int) : ℚ) := by
      have h8 := Int.lt_floor_add_one (((SOLA_GetIntervals N alpha).1 : ℚ) * alpha)
      have h9 : (1 : ℚ) / (2 : ℚ) ^ 15 < 1 := by norm_num
      push_cast
      linarith
    have h10 := Int.cast_lt.mp h7
    omega

/-- C12, amended, at the default frame size and `alpha = 3/2`. -/
theorem C12_interval_bounds_witness :
    ((25 ≤ 160 ∧ 160 ≤ 1000) ∧ ((1 : ℚ) / 2 ≤ 3 / 2 ∧ (3 : ℚ) / 2 ≤ 2)) ∧
    ((SOLA_GetIntervals 160 (3 / 2)).1 ≤ 160 / 2 ∧
    ((SOLA_GetIntervals 160 (3 / 2)).1 : ℚ) ≤ ((160 : Nat) : ℚ) / 2 ∧
    ((SOLA_GetIntervals 160 (3 / 2)).2 : Int)
      = ⌊f32 (((SOLA_GetIntervals 160 (3 / 2)).1 : ℚ) * (3 / 2))⌋ ∧
    0 ≤ ⌊((SOLA_GetIntervals 160 (3 / 2)).1 : ℚ) * (3 / 2)⌋ ∧
    ⌊((SOLA_GetIntervals 160 (3 / 2)).1 : ℚ) * (3 / 2)⌋ ≤ ((SOLA_GetIntervals 160 (3 / 2)).2 : Int) ∧
    ((SOLA_GetIntervals 160 (3 / 2)).2 : Int)
      ≤ ⌊((SOLA_GetIntervals 160 (3 / 2)).1 : ℚ) * (3 / 2)⌋ + 1 ∧
    (SOLA_GetIntervals 160 (3 / 2)).2 ≤ 160 / 2) :=
  ⟨⟨⟨by norm_num, by norm_num⟩, ⟨by norm_num, by norm_num⟩⟩,
    C12_interval_bounds 160 (3 / 2) (by norm_num) (by norm_num) (by norm_num) (by norm_num)⟩

/-! ## C13 and C14: setting the frame size -/

/-- C13, evaluated: from the default state a request for `200` sets the frame
size and returns `0`, and a request for `0` leaves it at `160` and returns the
non-zero `EINVAL`. -/
theorem C13_return_value_inverted :
    SOLA_SetFrameSize defaultFrameSize 200 = (200, 0) ∧
    SOLA_GetFrameSize (SOLA_SetFrameSize defaultFrameSize 200).1 = 200 ∧
    SOLA_SetFrameSize defaultFrameSize 0 = (160, EINVAL) ∧
    SOLA_GetFrameSize (SOLA_SetFrameSize defaultFrameSize 0).1 = 160 ∧ EINVAL ≠ 0 := by
  decide

/-- The frame size is set, and `0` returned, for every request other than `0`;
a request for `0` changes nothing and returns `EINVAL`. -/
theorem SOLA_SetFrameSize_spec (N frameSize : Nat) :
    SOLA_SetFrameSize N frameSize = if frameSize = 0 then (N, EINVAL) else (frameSize, 0) := by
  unfold SOLA_SetFrameSize
  by_cases h : frameSize = 0
  · rw [if_pos h, if_pos h.symm]
  · rw [if_neg h, if_neg (fun h' => h h'.symm)]

/-- C14, evaluated: the frame size starts at `160`, and a request for `1` is
accepted: the call returns `0` and `SOLA_GetFrameSize` then returns `1`. -/
theorem C14_frame_size_one_accepted :
    SOLA_GetFrameSize defaultFrameSize = 160 ∧
    SOLA_SetFrameSize defaultFrameSize 1 = (1, 0) ∧
    SOLA_GetFrameSize (SOLA_SetFrameSize defaultFrameSize 1).1 = 1 := by
  decide
/-! ## C15 and C16: the candidates and their number of points -/

/-- The first candidate for a synthesis interval of at most `N / 2`. -/
theorem firstLag_eq {N ss : Nat} (m : Nat) (hN : N / 2 < 32767) (hss : ss ≤ N / 2) :
    firstLag N ss m = if m * ss < N / 2 then -(ss : Int) else -((N / 2 : Nat) : Int) := by
  unfold firstLag
  by_cases h : m * ss < N / 2
  · rw [if_neg (by omega), if_pos h, toI16_of_range (by omega) (by omega)]
  · rw [if_pos (by omega), if_neg h, toI16_of_range (by omega) (by omega)]

/-- The number of points of the first candidate is a 16-bit value. -/
theorem firstPoints_lt (N last ss m : Nat) (k : Int) (hN : N < 65536) :
    firstPoints N last ss m k < 65536 := by
  unfold firstPoints
  split_ifs
  · exact toU16_lt _
  · exact hN

/-- The first candidate is a 16-bit value. -/
theorem firstLag_ge (N ss m : Nat) : -32768 ≤ firstLag N ss m := by
  unfold firstLag toI16
  omega

/-- C15 as stated fails at `N = 160`, `alpha = 1/2` (`Ss = 40`) and frame `m = 2`:
there `m * Ss >= N / 2` and the first candidate is `-80`, neither
`-min (N / 2) Ss` nor `-Ss`, which are both `-40`. -/
theorem C15_first_lag_is_minus_half_frame :
    SOLA_GetIntervals 160 (1 / 2) = (80, 40) ∧ 160 / 2 ≤ 2 * 40 ∧
    firstLag 160 40 2 = -80 ∧ -((min (160 / 2) 40 : Nat) : Int) = -40 ∧
    firstLag 160 40 2 ≠ -((min (160 / 2) 40 : Nat) : Int) := by
  decide!

/-- C15, amended: for every frame index `m` and valid `N`, `alpha`, the first
candidate lag examined by `SOLA_FindLag` is `k = -Ss` while `m * Ss < N / 2` and
`k = -(N / 2)` once `m * Ss >= N / 2`; the scan then advances `k` by one (the
`i`-th candidate is the first plus `i`), up to `+N / 2` inclusive unless cut off
by the overlap limit: the lag at offset `i` is examined whenever it is at most
`N / 2` and `L - i >= N / 8` for the number of points `L` of the first one. -/
theorem C15_scan_range (N : Nat) (alpha : ℚ) (last m : Nat) (hN25 : 25 ≤ N) (hN : N ≤ 1000)
    (ha : 1 / 2 ≤ alpha) (ha2 : alpha ≤ 2) :
    firstLag N (SOLA_GetIntervals N alpha).2 m
      = (if m * (SOLA_GetIntervals N alpha).2 < N / 2 then
          -((SOLA_GetIntervals N alpha).2 : Int) else -((N / 2 : Nat) : Int)) ∧
    (∀ (i : Nat) (p : Int × Nat),
      (findLagScan N 65536 (firstLag N (SOLA_GetIntervals N alpha).2 m)
        (firstPoints N last (SOLA_GetIntervals N alpha).2 m
          (firstLag N (SOLA_GetIntervals N alpha).2 m)))[i]? = some p →
      p.1 = firstLag N (SOLA_GetIntervals N alpha).2 m + i ∧ p.1 ≤ ((N / 2 : Nat) : Int)) ∧
    (∀ i : Nat, firstLag N (SOLA_GetIntervals N alpha).2 m + i ≤ ((N / 2 : Nat) : Int) →
      N / 8 + i ≤ firstPoints N last (SOLA_GetIntervals N alpha).2 m
          (firstLag N (SOLA_GetIntervals N alpha).2 m) →
      i < (findLagScan N 65536 (firstLag N (SOLA_GetIntervals N alpha).2 m)
        (firstPoints N last (SOLA_GetIntervals N alpha).2 m
          (firstLag N (SOLA_GetIntervals N alpha).2 m))).length) := by
  have hss := intervals_ss_le hN ha ha2
  have hk := firstLag_ge N (SOLA_GetIntervals N alpha).2 m
  have hL := firstPoints_lt N last (SOLA_GetIntervals N alpha).2 m
    (firstLag N (SOLA_GetIntervals N alpha).2 m) (by omega)
  refine ⟨firstLag_eq m (by omega) hss, ?_, ?_⟩
  · intro i p h
    obtain ⟨e1, e2, _⟩ := findLagScan_get N (by omega) (by omega) 65536 _ _ i p hk hL h
    rw [e1]
    exact ⟨rfl, e2⟩
  · intro i h1 h2
    exact findLagScan_length N (by omega) (by omega) 65536 _ _ i hk hL (by omega) h1 h2

/-- C15, amended, at `N = 160`, `alpha = 1/2`, frame 2 and `lastSampleIndex = 200`. -/
theorem C15_scan_range_witness :
    ((25 ≤ 160 ∧ 160 ≤ 1000) ∧ ((1 : ℚ) / 2 ≤ 1 / 2 ∧ (1 : ℚ) / 2 ≤ 2)) ∧
    (firstLag 160 (SOLA_GetIntervals 160 (1 / 2)).2 2
      = (if 2 * (SOLA_GetIntervals 160 (1 / 2)).2 < 160 / 2 then
          -((SOLA_GetIntervals 160 (1 / 2)).2 : Int) else -((160 / 2 : Nat) : Int)) ∧
    (∀ (i : Nat) (p : Int × Nat),
      (findLagScan 160 65536 (firstLag 160 (SOLA_GetIntervals 160 (1 / 2)).2 2)
        (firstPoints 160 200 (SOLA_GetIntervals 160 (1 / 2)).2 2
          (firstLag 160 (SOLA_GetIntervals 160 (1 / 2)).2 2)))[i]? = some p →
      p.1 = firstLag 160 (SOLA_GetIntervals 160 (1 / 2)).2 2 + i ∧
        p.1 ≤ ((160 / 2 : Nat) : Int)) ∧
    (∀ i : Nat, firstLag 160 (SOLA_GetIntervals 160 (1 / 2)).2 2 + i ≤ ((160 / 2 : Nat) : Int) →
      160 / 8 + i ≤ firstPoints 160 200 (SOLA_GetIntervals 160 (1 / 2)).2 2
          (firstLag 160 (SOLA_GetIntervals 160 (1 / 2)).2 2) →
      i < (findLagScan 160 65536 (firstLag 160 (SOLA_GetIntervals 160 (1 / 2)).2 2)
        (firstPoints 160 200 (SOLA_GetIntervals 160 (1 / 2)).2 2
          (firstLag 160 (SOLA_GetIntervals 160 (1 / 2)).2 2))).length)) :=
  ⟨⟨⟨by norm_num, by norm_num⟩, ⟨by norm_num, by norm_num⟩⟩,
    C15_scan_range 160 (1 / 2) 200 2 (by norm_num) (by norm_num) (by norm_num) (by norm_num)⟩

/-- On entry to frame `m = n + 1` of a run whose counter has not wrapped, the
position of the first candidate lies in the valid part of the output buffer and
the frame lies in the input signal. -/
theorem SOLA_TSM_run_entry (c : Correlator) (N : Nat) (x : Nat → Int) (sa ss maxFrames : Nat)
    (hN : N / 2 < 32767) (hss : ss ≤ N / 2) (hmax : maxFrames ≤ 65535) (n : Nat)
    (hn : n < maxFrames) :
    (SOLA_TSM_run c N x sa ss maxFrames n (SOLA_TSM_init N x)).m = n + 1 ∧
    0 ≤ ((n + 1 : Nat) : Int) * ss + firstLag N ss (n + 1) ∧
    ((n + 1 : Nat) : Int) * ss + firstLag N ss (n + 1) ≤ (n : Int) * ss ∧
    (n : Int) * ss + ((N : Int) - ((N / 2 : Nat) : Int))
      ≤ (SOLA_TSM_run c N x sa ss maxFrames n (SOLA_TSM_init N x)).lastSampleIndex ∧
    ((SOLA_TSM_run c N x sa ss maxFrames n (SOLA_TSM_init N x)).lastSampleIndex : Int)
      ≤ (n : Int) * ss + ((N / 2 : Nat) : Int) + N := by
  obtain ⟨hm, hl⟩ := SOLA_TSM_run_shape c N x sa ss maxFrames hN hss n (by omega) (by omega)
  have hk := @firstLag_eq N ss (n + 1) hN hss
  have e : ((n + 1 : Nat) : Int) * ss = (n : Int) * ss + ss := by push_cast; ring
  have e2 : (((n + 1) * ss : Nat) : Int) = (n : Int) * ss + ss := by push_cast; ring
  have h0 : (0 : Int) ≤ (n : Int) * ss := by positivity
  refine ⟨hm (by omega), ?_, ?_, ?_, ?_⟩
  · rw [hk, e]
    split_ifs with h <;> omega
  · rw [hk, e]
    split_ifs with h <;> omega
  · rcases hl with ⟨h1, h2⟩ | ⟨_, km, hk1, hk2, hk3⟩
    · subst h1
      rw [h2]
      simp only [CharP.cast_eq_zero, zero_mul, zero_add]
      omega
    · omega
  · rcases hl with ⟨h1, h2⟩ | ⟨_, km, hk1, hk2, hk3⟩
    · rw [h2]; omega
    · omega

/-- The number of points of the first candidate when its position lies in the
valid part of the output buffer: `N` truncated to what is left of it. -/
theorem firstPoints_eq_min (N last ss m : Nat) (k : Int) (hN : N < 65536)
    (h0 : 0 ≤ (m : Int) * ss + k) (h1 : (m : Int) * ss + k ≤ last)
    (h2 : (m : Int) * ss + k + N < 4294967296) :
    (firstPoints N last ss m k : Int) = min (N : Int) ((last : Int) - ((m : Int) * ss + k)) := by
  unfold firstPoints
  have hu : (toU32 ((m : Int) * ss + k + N) : Int) = (m : Int) * ss + k + N :=
    toU32_of_range (by omega) h2
  by_cases h : toU32 ((m : Int) * ss + k + N) > last
  · rw [if_pos h]
    have h3 : (m : Int) * ss + k + N > last := by omega
    rw [toU16_of_range (by omega) (by omega), min_eq_right (by omega)]
  · rw [if_neg h]
    have h3 : (m : Int) * ss + k + N ≤ last := by omega
    rw [min_eq_left (by omega)]

set_option maxRecDepth 100000 in
/-- C16 as stated fails at frame 2 of the run on `stepInput` with `N = 25` and
`alpha = 1/2`: `lastSampleIndex` is `37`, the candidate `k = -11` is scored over
`L = 24` points, and `min (N, lastSampleIndex - (m * Ss + k))` is `25`. -/
theorem C16_points_below_truncation :
    (SOLA_TSM_run floatCorrelator 25 stepInput 12 6 2 1
      (SOLA_TSM_init 25 stepInput)).lastSampleIndex = 37 ∧
    ((-11 : Int), 24) ∈ findLagScan 25 65536 (firstLag 25 6 2)
      (firstPoints 25
        (SOLA_TSM_run floatCorrelator 25 stepInput 12 6 2 1
          (SOLA_TSM_init 25 stepInput)).lastSampleIndex 6 2 (firstLag 25 6 2)) ∧
    min (25 : Int) (37 - (2 * 6 + -11)) = 25 := by
  decide!

/-- The number of points of every candidate scanned, when the position of the
first one lies in the valid part of the output buffer: the points of the first
candidate are `N` truncated to what is left of the buffer, and each later
candidate has one point less than the one before it. -/
theorem findLagScan_points (N last ss m : Nat) (hN8 : 1 ≤ N / 8) (hN : N / 2 < 32767)
    (h0 : 0 ≤ (m : Int) * ss + firstLag N ss m)
    (h1 : (m : Int) * ss + firstLag N ss m ≤ last)
    (h2 : (m : Int) * ss + firstLag N ss m + N < 4294967296)
    (p : Int × Nat)
    (hp : p ∈ findLagScan N 65536 (firstLag N ss m)
      (firstPoints N last ss m (firstLag N ss m))) :
    (firstPoints N last ss m (firstLag N ss m) : Int)
      = min (N : Int) ((last : Int) - ((m : Int) * ss + firstLag N ss m)) ∧
    (p.2 : Int) = (firstPoints N last ss m (firstLag N ss m) : Int)
      - (p.1 - firstLag N ss m) ∧
    (p.2 : Int) ≤ min (N : Int) ((last : Int) - ((m : Int) * ss + p.1)) := by
  have hL := firstPoints_eq_min N last ss m (firstLag N ss m) (by omega) h0 h1 h2
  obtain ⟨i, e1, _, e3⟩ := findLagScan_mem N hN hN8 65536 _ _ p (firstLag_ge N ss m)
    (firstPoints_lt N last ss m _ (by omega)) hp
  rw [e1]
  dsimp only
  have hle1 := min_le_left (N : Int) ((last : Int) - ((m : Int) * ss + firstLag N ss m))
  have hle2 := min_le_right (N : Int) ((last : Int) - ((m : Int) * ss + firstLag N ss m))
  refine ⟨hL, by omega, ?_⟩
  apply le_min <;> omega

/-- C16, amended: in every frame `m = n + 1 <= maxFrames` of a run with valid `N`
and `alpha`, the number of points of the first candidate `k0` is
`L0 = min (N, lastSampleIndex - (m * Ss + k0))`, every candidate `k` whose score is
computed is passed `L = L0 - (k - k0)` points, and so
`L <= min (N, lastSampleIndex - (m * Ss + k))`. -/
theorem C16_points_of_candidates (c : Correlator) (N : Nat) (x : Nat → Int) (xSize : Nat)
    (alpha : ℚ) (n : Nat) (p : Int × Nat) (hN25 : 25 ≤ N) (hN : N ≤ 1000)
    (ha : 1 / 2 ≤ alpha) (ha2 : alpha ≤ 2) (hx : N ≤ xSize)
    (hn : n < maxFramesOf N xSize (SOLA_GetIntervals N alpha).1)
    (hp : p ∈ findLagScan N 65536 (firstLag N (SOLA_GetIntervals N alpha).2 (n + 1))
      (firstPoints N
        (SOLA_TSM_run c N x (SOLA_GetIntervals N alpha).1 (SOLA_GetIntervals N alpha).2
          (maxFramesOf N xSize (SOLA_GetIntervals N alpha).1) n
          (SOLA_TSM_init N x)).lastSampleIndex
        (SOLA_GetIntervals N alpha).2 (n + 1)
        (firstLag N (SOLA_GetIntervals N alpha).2 (n + 1)))) :
    (SOLA_TSM_run c N x (SOLA_GetIntervals N alpha).1 (SOLA_GetIntervals N alpha).2
      (maxFramesOf N xSize (SOLA_GetIntervals N alpha).1) n (SOLA_TSM_init N x)).m = n + 1 ∧
    (firstPoints N
        (SOLA_TSM_run c N x (SOLA_GetIntervals N alpha).1 (SOLA_GetIntervals N alpha).2
          (maxFramesOf N xSize (SOLA_GetIntervals N alpha).1) n
          (SOLA_TSM_init N x)).lastSampleIndex
        (SOLA_GetIntervals N alpha).2 (n + 1)
        (firstLag N (SOLA_GetIntervals N alpha).2 (n + 1)) : Int)
      = min (N : Int)
          (((SOLA_TSM_run c N x (SOLA_GetIntervals N alpha).1 (SOLA_GetIntervals N alpha).2
            (maxFramesOf N xSize (SOLA_GetIntervals N alpha).1) n
            (SOLA_TSM_init N x)).lastSampleIndex : Int)
            - (((n + 1 : Nat) : Int) * (SOLA_GetIntervals N alpha).2
                + firstLag N (SOLA_GetIntervals N alpha).2 (n + 1))) ∧
    (p.2 : Int)
      = (firstPoints N
          (SOLA_TSM_run c N x (SOLA_GetIntervals N alpha).1 (SOLA_GetIntervals N alpha).2
            (maxFramesOf N xSize (SOLA_GetIntervals N alpha).1) n
            (SOLA_TSM_init N x)).lastSampleIndex
          (SOLA_GetIntervals N alpha).2 (n + 1)
          (firstLag N (SOLA_GetIntervals N alpha).2 (n + 1)) : Int)
        - (p.1 - firstLag N (SOLA_GetIntervals N alpha).2 (n + 1)) ∧
    (p.2 : Int) ≤ min (N : Int)
          (((SOLA_TSM_run c N x (SOLA_GetIntervals N alpha).1 (SOLA_GetIntervals N alpha).2
            (maxFramesOf N xSize (SOLA_GetIntervals N alpha).1) n
            (SOLA_TSM_init N x)).lastSampleIndex : Int)
            - (((n + 1 : Nat) : Int) * (SOLA_GetIntervals N alpha).2 + p.1)) := by
  have _ := hx
  have hss := intervals_ss_le hN ha ha2
  have hlt := maxFramesOf_lt N xSize (SOLA_GetIntervals N alpha).1
  obtain ⟨hm, h0, h1, h2, _⟩ := SOLA_TSM_run_entry c N x (SOLA_GetIntervals N alpha).1
    (SOLA_GetIntervals N alpha).2 (maxFramesOf N xSize (SOLA_GetIntervals N alpha).1)
    (by omega) hss (by omega) n hn
  have hprod : (n : Int) * ((SOLA_GetIntervals N alpha).2 : Int) ≤ 65535 * 500 := by
    have : n * (SOLA_GetIntervals N alpha).2 ≤ 65535 * 500 :=
      Nat.mul_le_mul (by omega) (by omega)
    exact_mod_cast this
  exact ⟨hm, findLagScan_points N _ (SOLA_GetIntervals N alpha).2 (n + 1) (by omega) (by omega)
    h0 (by omega) (by omega) p hp⟩

set_option maxRecDepth 100000 in
/-- C16, amended, at frame 2 of the run on `stepInput` and the candidate
`k = -11`, `L = 24`. -/
theorem C16_points_of_candidates_witness :
    ((25 ≤ 25 ∧ 25 ≤ 1000) ∧ ((1 : ℚ) / 2 ≤ 1 / 2 ∧ (1 : ℚ) / 2 ≤ 2) ∧ 25 ≤ 49 ∧
      1 < maxFramesOf 25 49 (SOLA_GetIntervals 25 (1 / 2)).1 ∧
      ((-11 : Int), 24) ∈ findLagScan 25 65536 (firstLag 25 (SOLA_GetIntervals 25 (1 / 2)).2 (1 + 1))
        (firstPoints 25
          (SOLA_TSM_run floatCorrelator 25 stepInput (SOLA_GetIntervals 25 (1 / 2)).1
            (SOLA_GetIntervals 25 (1 / 2)).2
            (maxFramesOf 25 49 (SOLA_GetIntervals 25 (1 / 2)).1) 1
            (SOLA_TSM_init 25 stepInput)).lastSampleIndex
          (SOLA_GetIntervals 25 (1 / 2)).2 (1 + 1)
          (firstLag 25 (SOLA_GetIntervals 25 (1 / 2)).2 (1 + 1)))) ∧
    ((((-11 : Int), 24) : Int × Nat).2 : Int) ≤ min (25 : Int)
          (((SOLA_TSM_run floatCorrelator 25 stepInput (SOLA_GetIntervals 25 (1 / 2)).1
            (SOLA_GetIntervals 25 (1 / 2)).2
            (maxFramesOf 25 49 (SOLA_GetIntervals 25 (1 / 2)).1) 1
            (SOLA_TSM_init 25 stepInput)).lastSampleIndex : Int)
            - (((1 + 1 : Nat) : Int) * (SOLA_GetIntervals 25 (1 / 2)).2
                + (((-11 : Int), 24) : Int × Nat).1)) :=
  ⟨⟨⟨by norm_num, by norm_num⟩, ⟨by norm_num, by norm_num⟩, by norm_num, by decide!,
      by decide!⟩,
    (C16_points_of_candidates floatCorrelator 25 stepInput 49 (1 / 2) 1 ((-11 : Int), 24)
      (by norm_num) (by norm_num) (by norm_num) (by norm_num) (by norm_num) (by decide!)
      (by decide!)).2.2.2⟩
/-! ## C17 and C18: the candidate returned -/

/-- The test `R > Rm` of the source correlator is the order of the `float` values. -/
theorem floatCorrelator_gt (a b : ℚ) : floatCorrelator.gt a b = true ↔ b < a := by
  show decide (b < a) = true ↔ b < a
  exact decide_eq_true_iff

/-- The candidates of `SOLA_FindLag` split at the lag returned: either no
candidate scores above `-1` and the lag is the initial `0`, or the lag is that of
a candidate which scores above `-1`, above every earlier candidate, and below
none. -/
theorem SOLA_FindLag_first_maximum (N last : Nat) (x : Nat → Int) (y : Int → Int)
    (sa ss m : Nat) :
    (SOLA_FindLag floatCorrelator N last x y sa ss m = 0 ∧
      ∀ p ∈ findLagScan N 65536 (firstLag N ss m) (firstPoints N last ss m (firstLag N ss m)),
        (candidateScore floatCorrelator x y sa ss m p : ℚ) ≤ -1) ∨
    (∃ (pre : List (Int × Nat)) (p : Int × Nat) (post : List (Int × Nat)),
      findLagScan N 65536 (firstLag N ss m) (firstPoints N last ss m (firstLag N ss m))
        = pre ++ p :: post ∧
      SOLA_FindLag floatCorrelator N last x y sa ss m = p.1 ∧
      (-1 : ℚ) < candidateScore floatCorrelator x y sa ss m p ∧
      (∀ q ∈ pre, (candidateScore floatCorrelator x y sa ss m q : ℚ)
        < candidateScore floatCorrelator x y sa ss m p) ∧
      (∀ q ∈ pre ++ p :: post, (candidateScore floatCorrelator x y sa ss m q : ℚ)
        ≤ candidateScore floatCorrelator x y sa ss m p)) := by
  rw [SOLA_FindLag_eq_foldl]
  rcases foldl_bestStep floatCorrelator x y sa ss m (fun v : ℚ => v) (fun _ => True)
    (fun a b _ _ => floatCorrelator_gt a b)
    (findLagScan N 65536 (firstLag N ss m) (firstPoints N last ss m (firstLag N ss m)))
    floatCorrelator.sentinel 0 trivial (fun _ _ => trivial)
    with ⟨h1, h2⟩ | ⟨pre, p, post, h1, h2, h3, h4, h5⟩
  · left
    refine ⟨by rw [h1], ?_⟩
    intro p hp
    exact not_lt.mp (h2 p hp)
  · right
    refine ⟨pre, p, post, h1, by rw [h2], h3, h4, ?_⟩
    intro q hq
    rcases List.mem_append.mp hq with hq | hq
    · exact (h4 q hq).le
    · rcases List.mem_cons.mp hq with hq | hq
      · rw [hq]
      · exact h5 q hq

/-- C17: `SOLA_FindLag` returns the first candidate in scan order that attains the
maximum score, the score being the `float` that `SOLA_CrossCorrelation` returns.
With the candidates evaluated (those reached before `L` drops below `N / 8`) in
scan order: either none scores above the sentinel `-1` and the result is the
default lag `0`; or the candidates split as `pre ++ p :: post` where the result
is the lag of `p`, `p` scores above `-1`, no candidate scores more than `p`, and
every earlier candidate (those of `pre`) scores strictly less than `p`. -/
theorem C17_first_maximum (N last : Nat) (x : Nat → Int) (y : Int → Int) (sa ss m : Nat) :
    (SOLA_FindLag floatCorrelator N last x y sa ss m = 0 ∧
      ∀ p ∈ findLagScan N 65536 (firstLag N ss m) (firstPoints N last ss m (firstLag N ss m)),
        (candidateScore floatCorrelator x y sa ss m p : ℚ) ≤ -1) ∨
    (∃ (pre : List (Int × Nat)) (p : Int × Nat) (post : List (Int × Nat)),
      findLagScan N 65536 (firstLag N ss m) (firstPoints N last ss m (firstLag N ss m))
        = pre ++ p :: post ∧
      SOLA_FindLag floatCorrelator N last x y sa ss m = p.1 ∧
      (-1 : ℚ) < candidateScore floatCorrelator x y sa ss m p ∧
      (∀ q ∈ pre, (candidateScore floatCorrelator x y sa ss m q : ℚ)
        < candidateScore floatCorrelator x y sa ss m p) ∧
      (∀ q ∈ pre ++ p :: post, (candidateScore floatCorrelator x y sa ss m q : ℚ)
        ≤ candidateScore floatCorrelator x y sa ss m p)) :=
  SOLA_FindLag_first_maximum N last x y sa ss m

/-- C19: for every call of `SOLA_OverlapFrame` on a buffer of 16-bit samples, when
the overlap length `Lm` is below `N` the cells `m * Ss + km + j` for `j` in
`Lm .. N - 1` receive `x[m * Sa + j]` (plain copy), and in every call every cell
whose index lies outside `[m * Ss + km, m * Ss + km + N)` keeps its value; the
input signal is only read. -/
theorem C19_frame_effect (N last : Nat) (x : Nat → Int) (y : Int → Int) (sa ss m : Nat)
    (km : Int) (hy : ∀ i : Int, -32768 ≤ y i ∧ y i ≤ 32767) :
    (overlapLength N last ss m km < N →
      ∀ j : Nat, overlapLength N last ss m km ≤ j → j < N →
        SOLA_OverlapFrame N last x y sa ss m km ((m : Int) * ss + km + j) = x (m * sa + j)) ∧
    (∀ i : Int, (i < (m : Int) * ss + km ∨ (m : Int) * ss + km + N ≤ i) →
      SOLA_OverlapFrame N last x y sa ss m km i = y i) := by
  constructor
  · intro _ j h1 h2
    unfold SOLA_OverlapFrame
    dsimp only
    have e : (m : Int) * ss + km + j - ((m : Int) * ss + km) = (j : Int) := by ring
    rw [e, if_neg (by omega), if_pos ⟨by omega, by omega⟩]
    simp
  · intro i hi
    unfold SOLA_OverlapFrame
    dsimp only
    by_cases hA : 0 ≤ i - ((m : Int) * ss + km) ∧
        i - ((m : Int) * ss + km) < (overlapLength N last ss m km : Int)
    · rw [if_pos hA]
      have hq : (i - ((m : Int) * ss + km)) / (overlapLength N last ss m km : Int) = 0 :=
        Int.ediv_eq_zero_of_lt hA.1 hA.2
      rw [hq]
      simp only [sub_zero, one_mul, zero_mul, add_zero]
      exact toI16_of_range (hy i).1 (by have := (hy i).2; omega)
    · rw [if_neg hA, if_neg (by omega)]

/-- C19 on a frame of `N = 25` samples written at position `12` with overlap
length `13`. -/
theorem C19_frame_effect_witness :
    ((∀ i : Int, -32768 ≤ (fun _ => 5 : Int → Int) i ∧ (fun _ => 5 : Int → Int) i ≤ 32767) ∧
      overlapLength 25 25 12 1 0 = 13) ∧
    ((overlapLength 25 25 12 1 0 < 25 →
      ∀ j : Nat, overlapLength 25 25 12 1 0 ≤ j → j < 25 →
        SOLA_OverlapFrame 25 25 (fun _ => 7) (fun _ => 5) 12 12 1 0 (((1 : Nat) : Int) * (12 : Nat) + 0 + j)
          = (fun _ => 7 : Nat → Int) (1 * 12 + j)) ∧
    (∀ i : Int, (i < ((1 : Nat) : Int) * (12 : Nat) + 0 ∨ ((1 : Nat) : Int) * (12 : Nat) + 0 + (25 : Nat) ≤ i) →
      SOLA_OverlapFrame 25 25 (fun _ => 7) (fun _ => 5) 12 12 1 0 i = (fun _ => 5 : Int → Int) i)) :=
  ⟨⟨fun _ => ⟨by norm_num, by norm_num⟩, by decide⟩,
    C19_frame_effect 25 25 (fun _ => 7) (fun _ => 5) 12 12 1 0
      (fun _ => ⟨by norm_num, by norm_num⟩)⟩

/-! ## C20: the indices accessed -/

/-- The lag kept by the fold is the initial one or that of a candidate. -/
theorem foldl_bestStep_lag (c : Correlator) (x : Nat → Int) (y : Int → Int) (sa ss m : Nat) :
    ∀ (l : List (Int × Nat)) (acc : c.Val × Int),
      (l.foldl (bestStep c x y sa ss m) acc).2 = acc.2 ∨
      ∃ p ∈ l, (l.foldl (bestStep c x y sa ss m) acc).2 = p.1 := by
  intro l
  induction l with
  | nil => intro acc; exact Or.inl rfl
  | cons q l ih =>
    intro acc
    rw [List.foldl_cons]
    rcases ih (bestStep c x y sa ss m acc q) with h | ⟨p, hp, h⟩
    · unfold bestStep at h ⊢
      by_cases hg : c.gt (candidateScore c x y sa ss m q) acc.1 = true
      · rw [if_pos hg] at h ⊢
        exact Or.inr ⟨q, List.mem_cons_self _ _, h⟩
      · rw [if_neg hg] at h ⊢
        exact Or.inl h
    · exact Or.inr ⟨p, List.mem_cons_of_mem _ hp, h⟩

/-- In every frame `m = n + 1 <= maxFrames` of a run with valid `N` and `alpha`
whose counter has not wrapped: the windows of every candidate scored lie in the
valid part of the output buffer and in the input signal, the subtractions from
`lastSampleIndex` do not underflow, and the frame is written from index `0` on
and read inside the input signal. -/
theorem SOLA_TSM_frame_safe (c : Correlator) (N : Nat) (x : Nat → Int) (xSize : Nat)
    (alpha : ℚ) (n : Nat) (hN25 : 25 ≤ N) (hN : N ≤ 1000) (ha : 1 / 2 ≤ alpha)
    (ha2 : alpha ≤ 2) (hx : N ≤ xSize)
    (hn : n < maxFramesOf N xSize (SOLA_GetIntervals N alpha).1) :
    (∀ p ∈ findLagScan N 65536 (firstLag N (SOLA_GetIntervals N alpha).2 (n + 1))
        (firstPoints N
          (SOLA_TSM_run c N x (SOLA_GetIntervals N alpha).1 (SOLA_GetIntervals N alpha).2
            (maxFramesOf N xSize (SOLA_GetIntervals N alpha).1) n
            (SOLA_TSM_init N x)).lastSampleIndex
          (SOLA_GetIntervals N alpha).2 (n + 1)
          (firstLag N (SOLA_GetIntervals N alpha).2 (n + 1))),
      ∀ j : Nat, j < p.2 →
        0 ≤ ((n + 1 : Nat) : Int) * (SOLA_GetIntervals N alpha).2 + p.1 + j ∧
        ((n + 1 : Nat) : Int) * (SOLA_GetIntervals N alpha).2 + p.1 + j
          < (SOLA_TSM_run c N x (SOLA_GetIntervals N alpha).1 (SOLA_GetIntervals N alpha).2
            (maxFramesOf N xSize (SOLA_GetIntervals N alpha).1) n
            (SOLA_TSM_init N x)).lastSampleIndex ∧
        (n + 1) * (SOLA_GetIntervals N alpha).1 + j < xSize) ∧
    (((n + 1 : Nat) : Int) * (SOLA_GetIntervals N alpha).2
        + firstLag N (SOLA_GetIntervals N alpha).2 (n + 1)
      ≤ (SOLA_TSM_run c N x (SOLA_GetIntervals N alpha).1 (SOLA_GetIntervals N alpha).2
          (maxFramesOf N xSize (SOLA_GetIntervals N alpha).1) n
          (SOLA_TSM_init N x)).lastSampleIndex) ∧
    (((n + 1 : Nat) : Int) * (SOLA_GetIntervals N alpha).2
        + SOLA_FindLag c N
            (SOLA_TSM_run c N x (SOLA_GetIntervals N alpha).1 (SOLA_GetIntervals N alpha).2
              (maxFramesOf N xSize (SOLA_GetIntervals N alpha).1) n
              (SOLA_TSM_init N x)).lastSampleIndex x
            (SOLA_TSM_run c N x (SOLA_GetIntervals N alpha).1 (SOLA_GetIntervals N alpha).2
              (maxFramesOf N xSize (SOLA_GetIntervals N alpha).1) n (SOLA_TSM_init N x)).y
            (SOLA_GetIntervals N alpha).1 (SOLA_GetIntervals N alpha).2 (n + 1)
      ≤ (SOLA_TSM_run c N x (SOLA_GetIntervals N alpha).1 (SOLA_GetIntervals N alpha).2
          (maxFramesOf N xSize (SOLA_GetIntervals N alpha).1) n
          (SOLA_TSM_init N x)).lastSampleIndex) ∧
    (∀ j : Nat, j < N →
      0 ≤ ((n + 1 : Nat) : Int) * (SOLA_GetIntervals N alpha).2
        + SOLA_FindLag c N
            (SOLA_TSM_run c N x (SOLA_GetIntervals N alpha).1 (SOLA_GetIntervals N alpha).2
              (maxFramesOf N xSize (SOLA_GetIntervals N alpha).1) n
              (SOLA_TSM_init N x)).lastSampleIndex x
            (SOLA_TSM_run c N x (SOLA_GetIntervals N alpha).1 (SOLA_GetIntervals N alpha).2
              (maxFramesOf N xSize (SOLA_GetIntervals N alpha).1) n (SOLA_TSM_init N x)).y
            (SOLA_GetIntervals N alpha).1 (SOLA_GetIntervals N alpha).2 (n + 1) + j ∧
      (n + 1) * (SOLA_GetIntervals N alpha).1 + j < xSize) := by
  have hss := intervals_ss_le hN ha ha2
  have hlt := maxFramesOf_lt N xSize (SOLA_GetIntervals N alpha).1
  have hq := maxFramesOf_le N xSize (SOLA_GetIntervals N alpha).1
  obtain ⟨_, h0, h1, h2, _⟩ := SOLA_TSM_run_entry c N x (SOLA_GetIntervals N alpha).1
    (SOLA_GetIntervals N alpha).2 (maxFramesOf N xSize (SOLA_GetIntervals N alpha).1)
    (by omega) hss (by omega) n hn
  have hprod : (n : Int) * ((SOLA_GetIntervals N alpha).2 : Int) ≤ 65535 * 500 := by
    have : n * (SOLA_GetIntervals N alpha).2 ≤ 65535 * 500 :=
      Nat.mul_le_mul (by omega) (by omega)
    exact_mod_cast this
  have hnn : (0 : Int) ≤ (n : Int) * ((SOLA_GetIntervals N alpha).2 : Int) := by positivity
  have e : ((n + 1 : Nat) : Int) * ((SOLA_GetIntervals N alpha).2 : Int)
      = (n : Int) * ((SOLA_GetIntervals N alpha).2 : Int) + (SOLA_GetIntervals N alpha).2 := by
    push_cast; ring
  have hxs : (n + 1) * (SOLA_GetIntervals N alpha).1 + N ≤ xSize := by
    have h3 : (n + 1) * (SOLA_GetIntervals N alpha).1 ≤ xSize - N :=
      le_trans (Nat.mul_le_mul_right _ (by omega)) (Nat.div_mul_le_self _ _)
    omega
  have hscan : ∀ p ∈ findLagScan N 65536 (firstLag N (SOLA_GetIntervals N alpha).2 (n + 1))
        (firstPoints N
          (SOLA_TSM_run c N x (SOLA_GetIntervals N alpha).1 (SOLA_GetIntervals N alpha).2
            (maxFramesOf N xSize (SOLA_GetIntervals N alpha).1) n
            (SOLA_TSM_init N x)).lastSampleIndex
          (SOLA_GetIntervals N alpha).2 (n + 1)
          (firstLag N (SOLA_GetIntervals N alpha).2 (n + 1))),
      firstLag N (SOLA_GetIntervals N alpha).2 (n + 1) ≤ p.1 ∧ p.1 ≤ ((N / 2 : Nat) : Int) ∧
      (p.2 : Int) ≤ N ∧
      ((n + 1 : Nat) : Int) * (SOLA_GetIntervals N alpha).2 + p.1 + p.2
        ≤ (SOLA_TSM_run c N x (SOLA_GetIntervals N alpha).1 (SOLA_GetIntervals N alpha).2
            (maxFramesOf N xSize (SOLA_GetIntervals N alpha).1) n
            (SOLA_TSM_init N x)).lastSampleIndex := by
    intro p hp
    obtain ⟨_, _, e3⟩ := findLagScan_points N _ (SOLA_GetIntervals N alpha).2 (n + 1)
      (by omega) (by omega) h0 (by omega) (by omega) p hp
    obtain ⟨i, e1, e2, _⟩ := findLagScan_mem N (by omega) (by omega) 65536 _ _ p
      (firstLag_ge N _ _) (firstPoints_lt N _ _ _ _ (by omega)) hp
    have hl1 := le_trans e3 (min_le_left _ _)
    have hl2 := le_trans e3 (min_le_right _ _)
    have hp1 : p.1 = firstLag N (SOLA_GetIntervals N alpha).2 (n + 1) + i := by rw [e1]
    exact ⟨by omega, by omega, hl1, by omega⟩
  have hkm : (SOLA_FindLag c N
      (SOLA_TSM_run c N x (SOLA_GetIntervals N alpha).1 (SOLA_GetIntervals N alpha).2
        (maxFramesOf N xSize (SOLA_GetIntervals N alpha).1) n
        (SOLA_TSM_init N x)).lastSampleIndex x
      (SOLA_TSM_run c N x (SOLA_GetIntervals N alpha).1 (SOLA_GetIntervals N alpha).2
        (maxFramesOf N xSize (SOLA_GetIntervals N alpha).1) n (SOLA_TSM_init N x)).y
      (SOLA_GetIntervals N alpha).1 (SOLA_GetIntervals N alpha).2 (n + 1)) = 0 ∨
      ∃ p ∈ findLagScan N 65536 (firstLag N (SOLA_GetIntervals N alpha).2 (n + 1))
        (firstPoints N
          (SOLA_TSM_run c N x (SOLA_GetIntervals N alpha).1 (SOLA_GetIntervals N alpha).2
            (maxFramesOf N xSize (SOLA_GetIntervals N alpha).1) n
            (SOLA_TSM_init N x)).lastSampleIndex
          (SOLA_GetIntervals N alpha).2 (n + 1)
          (firstLag N (SOLA_GetIntervals N alpha).2 (n + 1))),
        (SOLA_FindLag c N
          (SOLA_TSM_run c N x (SOLA_GetIntervals N alpha).1 (SOLA_GetIntervals N alpha).2
            (maxFramesOf N xSize (SOLA_GetIntervals N alpha).1) n
            (SOLA_TSM_init N x)).lastSampleIndex x
          (SOLA_TSM_run c N x (SOLA_GetIntervals N alpha).1 (SOLA_GetIntervals N alpha).2
            (maxFramesOf N xSize (SOLA_GetIntervals N alpha).1) n (SOLA_TSM_init N x)).y
          (SOLA_GetIntervals N alpha).1 (SOLA_GetIntervals N alpha).2 (n + 1)) = p.1 := by
    rw [SOLA_FindLag_eq_foldl]
    exact foldl_bestStep_lag c x _ _ _ _ _ _
  refine ⟨?_, by omega, ?_, ?_⟩
  · intro p hp j hj
    obtain ⟨a1, _, a3, a4⟩ := hscan p hp
    exact ⟨by omega, by omega, by omega⟩
  · rcases hkm with h | ⟨p, hp, h⟩
    · rw [h]; omega
    · obtain ⟨a1, _, a3, a4⟩ := hscan p hp
      rw [h]; omega
  · intro j hj
    rcases hkm with h | ⟨p, hp, h⟩
    · rw [h]
      exact ⟨by omega, by omega⟩
    · obtain ⟨a1, a2, a3, a4⟩ := hscan p hp
      rw [h]
      exact ⟨by omega, by omega⟩

/-- C20, evaluated at `N = 25`, `alpha = 1` and an input of `786445` samples
(`maxFrames = 65535`): whatever the samples and the correlator, after `65535`
passes the counter `m` has wrapped to `0`, the loop goes on, and the first
candidate the search scores is `k = -12` over `25` points, whose window of the
output buffer starts at index `m * Ss + k = -12`, before the buffer. -/
theorem C20_read_before_buffer (c : Correlator) (x : Nat → Int) :
    maxFramesOf 25 786445 (SOLA_GetIntervals 25 1).1 = 65535 ∧
    (SOLA_GetIntervals 25 1).2 = 12 ∧
    (SOLA_TSM_run c 25 x 12 12 65535 65535 (SOLA_TSM_init 25 x)).m = 0 ∧
    (findLagScan 25 65536
      (firstLag 25 12 (SOLA_TSM_run c 25 x 12 12 65535 65535 (SOLA_TSM_init 25 x)).m)
      (firstPoints 25
        (SOLA_TSM_run c 25 x 12 12 65535 65535 (SOLA_TSM_init 25 x)).lastSampleIndex 12
        (SOLA_TSM_run c 25 x 12 12 65535 65535 (SOLA_TSM_init 25 x)).m
        (firstLag 25 12
          (SOLA_TSM_run c 25 x 12 12 65535 65535 (SOLA_TSM_init 25 x)).m))).head?
      = some (-12, 25) ∧
    (((SOLA_TSM_run c 25 x 12 12 65535 65535 (SOLA_TSM_init 25 x)).m : Int) * (12 : Nat)
      + (-12) + ((0 : Nat) : Int) < 0) := by
  have hi : SOLA_GetIntervals 25 1 = (12, 12) := by decide!
  have hmax : maxFramesOf 25 786445 12 = 65535 := by decide!
  obtain ⟨hm, _⟩ := SOLA_TSM_run_shape c 25 x 12 12 65535 (by norm_num) (by norm_num) 65534
    (by norm_num) (by norm_num)
  obtain ⟨_, hl⟩ := SOLA_TSM_run_shape c 25 x 12 12 65535 (by norm_num) (by norm_num) 65535
    (by norm_num) (by norm_num)
  have hm0 : (SOLA_TSM_run c 25 x 12 12 65535 65535 (SOLA_TSM_init 25 x)).m = 0 := by
    rw [show (65535 : Nat) = 65534 + 1 from rfl, SOLA_TSM_run_succ,
      if_pos (by rw [hm (by norm_num)])]
    change toU16 (((SOLA_TSM_run c 25 x 12 12 (65534 + 1) 65534 (SOLA_TSM_init 25 x)).m : Int)
      + 1) = 0
    rw [hm (by norm_num)]
    decide
  have hlast : 13 ≤ (SOLA_TSM_run c 25 x 12 12 65535 65535
      (SOLA_TSM_init 25 x)).lastSampleIndex := by
    rcases hl with ⟨h, _⟩ | ⟨_, km, hk1, _, hk3⟩
    · omega
    · norm_num at hk1 hk3
      omega
  refine ⟨by rw [hi]; exact hmax, by rw [hi], hm0, ?_, by rw [hm0]; norm_num⟩
  rw [hm0]
  have hk : firstLag 25 12 0 = -12 := by decide
  rw [hk]
  have hp : firstPoints 25 (SOLA_TSM_run c 25 x 12 12 65535 65535
      (SOLA_TSM_init 25 x)).lastSampleIndex 12 0 (-12) = 25 := by
    unfold firstPoints
    have e : toU32 (((0 : Nat) : Int) * ((12 : Nat) : Int) + -12 + ((25 : Nat) : Int)) = 13 := by
      decide
    rw [e, if_neg (by omega)]
  rw [hp]
  decide!

/-! ## C21 and C22: the mu-law codec -/

set_option maxRecDepth 100000 in
/-- Every 16-bit sample of magnitude above `CLIP` other than `-32768` is encoded
as the clipped value of its sign: `0x80` for the positive ones and `0x00` for the
negative ones. -/
theorem Linear2ULAW_clipped :
    (∀ n : Nat, n < 132 → Linear2ULAW (32636 + (n : Int)) = 0x80) ∧
    (∀ n : Nat, n < 132 → Linear2ULAW (-32636 - (n : Int)) = 0x00) ∧
    Linear2ULAW 32635 = 0x80 ∧ Linear2ULAW (-32635) = 0x00 := by
  decide!

/-- C21, evaluated at the sample `-32768`: its negation does not fit 16 bits, the
magnitude stays `-32768` and is not clipped, and the byte is `0x7F` (which decodes
to `0`), not the byte `0x00` of the clipped value `-32635`. -/
theorem C21_most_negative_sample_not_clipped :
    Linear2ULAW (-32768) = 0x7F ∧ Linear2ULAW (-CLIP) = 0x00 ∧ ULAW2Linear 0x7F = 0 ∧
    toI16 (-(-32768)) = -32768 := by
  decide!

set_option maxRecDepth 100000 in
/-- Decoding then encoding a byte other than `0x7F` gives the byte back. -/
theorem Linear2ULAW_ULAW2Linear :
    ∀ u : Nat, u < 256 → u ≠ 0x7F → Linear2ULAW (ULAW2Linear u) = u := by
  decide!

/-- The byte returned by `Linear2ULAW` is an 8-bit value. -/
theorem Linear2ULAW_lt (s : Int) : Linear2ULAW s < 256 := by
  unfold Linear2ULAW toU8
  dsimp only
  omega

/-- C22: decoding then re-encoding a mu-law byte is the identity except for
negative zero: `Linear2ULAW (ULAW2Linear u) = u` for every 8-bit code `u` other than
`0x7F`, while `0x7F` decodes to `0` and re-encodes to `0xFF`; consequently
`ULAW2Linear (Linear2ULAW .)` is idempotent on all samples. -/
theorem C22_decode_encode_roundtrip :
    (∀ u : Nat, u < 256 → u ≠ 0x7F → Linear2ULAW (ULAW2Linear u) = u) ∧
    ULAW2Linear 0x7F = 0 ∧ Linear2ULAW (ULAW2Linear 0x7F) = 0xFF ∧
    (∀ s : Int, ULAW2Linear (Linear2ULAW (ULAW2Linear (Linear2ULAW s)))
      = ULAW2Linear (Linear2ULAW s)) := by
  refine ⟨Linear2ULAW_ULAW2Linear, by decide!, by decide!, ?_⟩
  intro s
  by_cases h : Linear2ULAW s = 0x7F
  · rw [h]
    decide!
  · rw [Linear2ULAW_ULAW2Linear _ (Linear2ULAW_lt s) h]
/-! ## C23: the intervals are positive for admissible frame sizes -/

/-- C23: for every `N` in `[25, 1000]` and `alpha` in `[1/2, 2]`, `SOLA_GetIntervals`
yields `Sa >= 1` and `1 <= Ss <= N / 2`, so the division `(xSize - N) / Sa` of
`SOLA_TSM` is defined and every frame advances the nominal synthesis position
`m * Ss`; whereas for the frame size `N = 1`, which `SOLA_SetFrameSize` accepts,
`Sa = 0` and that division is by zero. -/
theorem C23_intervals_positive (c : Correlator) (N : Nat) (x : Nat → Int) (xSize : Nat)
    (alpha : ℚ) (fuel : Nat) (hN25 : 25 ≤ N) (hN : N ≤ 1000) (ha : 1 / 2 ≤ alpha)
    (ha2 : alpha ≤ 2) (hx : N ≤ xSize) :
    (1 ≤ (SOLA_GetIntervals N alpha).1 ∧ 1 ≤ (SOLA_GetIntervals N alpha).2 ∧
      (SOLA_GetIntervals N alpha).2 ≤ N / 2) ∧
    SOLA_TSM c N true fuel x xSize alpha ≠ some .divByZero ∧
    (∀ m : Nat, m * (SOLA_GetIntervals N alpha).2 < (m + 1) * (SOLA_GetIntervals N alpha).2) ∧
    (SOLA_SetFrameSize defaultFrameSize 1 = (1, 0) ∧ (SOLA_GetIntervals 1 alpha).1 = 0 ∧
      SOLA_TSM c 1 true fuel x xSize alpha = some .divByZero) := by
  have hsa := intervals_sa_pos hN25 hN ha ha2
  have hss := intervals_ss_pos hN25 hN ha ha2
  have hle := intervals_ss_le hN ha ha2
  have h1 := intervals_frame_size_one ha
  refine ⟨⟨hsa, hss, hle⟩, ?_, ?_, by decide, h1, ?_⟩
  · unfold SOLA_TSM
    dsimp only
    rw [if_neg (by omega)]
    simp only [Bool.not_true, Bool.false_eq_true, if_false]
    rw [if_neg (by omega)]
    split_ifs <;> simp
  · intro m
    rw [Nat.succ_mul]
    omega
  · unfold SOLA_TSM
    dsimp only
    rw [if_neg (by omega)]
    simp only [Bool.not_true, Bool.false_eq_true, if_false]
    rw [if_pos h1]

/-- C23 at the default frame size, `alpha = 3/2` and a silent input of `10000`
samples. -/
theorem C23_intervals_positive_witness :
    ((25 ≤ 160 ∧ 160 ≤ 1000) ∧ ((1 : ℚ) / 2 ≤ 3 / 2 ∧ (3 : ℚ) / 2 ≤ 2) ∧ 160 ≤ 10000) ∧
    ((1 ≤ (SOLA_GetIntervals 160 (3 / 2)).1 ∧ 1 ≤ (SOLA_GetIntervals 160 (3 / 2)).2 ∧
      (SOLA_GetIntervals 160 (3 / 2)).2 ≤ 160 / 2) ∧
    SOLA_TSM floatCorrelator 160 true 0 (fun _ => 0) 10000 (3 / 2) ≠ some .divByZero ∧
    (∀ m : Nat, m * (SOLA_GetIntervals 160 (3 / 2)).2
      < (m + 1) * (SOLA_GetIntervals 160 (3 / 2)).2) ∧
    (SOLA_SetFrameSize defaultFrameSize 1 = (1, 0) ∧ (SOLA_GetIntervals 1 (3 / 2)).1 = 0 ∧
      SOLA_TSM floatCorrelator 1 true 0 (fun _ => 0) 10000 (3 / 2) = some .divByZero)) :=
  ⟨⟨⟨by norm_num, by norm_num⟩, ⟨by norm_num, by norm_num⟩, by norm_num⟩,
    C23_intervals_positive floatCorrelator 160 (fun _ => 0) 10000 (3 / 2) 0 (by norm_num)
      (by norm_num) (by norm_num) (by norm_num) (by norm_num)⟩
/-! ## C24: the range of the score -/

/-- Cauchy-Schwarz on the accumulators: the square of the numerator of a score is
at most its radicand. -/
theorem SOLA_CrossCorrelation_sq_le (x y : Nat → Int) (L : Nat) :
    (SOLA_CrossCorrelation x y L).num ^ 2 ≤ ((SOLA_CrossCorrelation x y L).den2 : Int) := by
  unfold SOLA_CrossCorrelation
  rw [crossSums_eq_sum]
  dsimp only
  split_ifs with h
  · norm_num
  · have hnn : 0 ≤ (∑ j in Finset.range L, x j * x j) * (∑ j in Finset.range L, y j * y j) :=
      mul_nonneg (Finset.sum_nonneg fun j _ => mul_self_nonneg (x j))
        (Finset.sum_nonneg fun j _ => mul_self_nonneg (y j))
    show (∑ j in Finset.range L, x j * y j) ^ 2
      ≤ (((∑ j in Finset.range L, x j * x j) * (∑ j in Finset.range L, y j * y j)).toNat : Int)
    rw [Int.toNat_of_nonneg hnn]
    have cs := Finset.sum_mul_sq_le_sq_mul_sq (Finset.range L) x y
    simpa [sq] using cs

/-- The equality case of Cauchy-Schwarz: a score of negative numerator whose
square is the radicand comes from anti-proportional windows. -/
theorem SOLA_CrossCorrelation_anti (x y : Nat → Int) (L : Nat)
    (hneg : (SOLA_CrossCorrelation x y L).num < 0)
    (heq : (SOLA_CrossCorrelation x y L).num ^ 2 = ((SOLA_CrossCorrelation x y L).den2 : Int)) :
    ∃ a b : Int, 0 < a ∧ 0 < b ∧ ∀ j : Nat, j < L → a * x j = -(b * y j) := by
  unfold SOLA_CrossCorrelation at hneg heq
  rw [crossSums_eq_sum] at hneg heq
  dsimp only at hneg heq
  by_cases h : (∑ j in Finset.range L, x j * x j) * (∑ j in Finset.range L, y j * y j) = 0
  · rw [if_pos h] at hneg
    exact absurd hneg (by norm_num)
  · rw [if_neg h] at hneg heq
    have hA : 0 ≤ ∑ j in Finset.range L, x j * x j :=
      Finset.sum_nonneg fun j _ => mul_self_nonneg (x j)
    have hB : 0 ≤ ∑ j in Finset.range L, y j * y j :=
      Finset.sum_nonneg fun j _ => mul_self_nonneg (y j)
    have heq' : (∑ j in Finset.range L, x j * y j) ^ 2
        = (∑ j in Finset.range L, x j * x j) * (∑ j in Finset.range L, y j * y j) := by
      have := heq
      change (∑ j in Finset.range L, x j * y j) ^ 2
        = (((∑ j in Finset.range L, x j * x j)
            * (∑ j in Finset.range L, y j * y j)).toNat : Int) at this
      rw [Int.toNat_of_nonneg (mul_nonneg hA hB)] at this
      exact this
    have hneg' : (∑ j in Finset.range L, x j * y j) < 0 := hneg
    have hBpos : 0 < ∑ j in Finset.range L, y j * y j := by
      rcases lt_or_eq_of_le hB with hlt | h0
      · exact hlt
      · exact absurd (by rw [← h0, mul_zero]) h
    have hsum : ∑ j in Finset.range L,
        ((∑ i in Finset.range L, y i * y i) * x j - (∑ i in Finset.range L, x i * y i) * y j) ^ 2
        = 0 := by
      have e : ∀ j : Nat,
          ((∑ i in Finset.range L, y i * y i) * x j
            - (∑ i in Finset.range L, x i * y i) * y j) ^ 2
          = (∑ i in Finset.range L, y i * y i) ^ 2 * (x j * x j)
            - 2 * (∑ i in Finset.range L, y i * y i) * (∑ i in Finset.range L, x i * y i)
              * (x j * y j)
            + (∑ i in Finset.range L, x i * y i) ^ 2 * (y j * y j) := by
        intro j; ring
      simp only [e, Finset.sum_add_distrib, Finset.sum_sub_distrib, ← Finset.mul_sum]
      linear_combination (-(∑ i in Finset.range L, y i * y i)) * heq'
    have hz := (Finset.sum_eq_zero_iff_of_nonneg (fun j _ => sq_nonneg _)).mp hsum
    refine ⟨∑ j in Finset.range L, y j * y j, -(∑ j in Finset.range L, x j * y j), hBpos,
      by omega, ?_⟩
    intro j hj
    have := hz j (Finset.mem_range.mpr hj)
    have h2 := pow_eq_zero_iff (n := 2) (by norm_num) |>.mp this
    linarith

/-- The value `num / sqrt den2` of a score whose squared numerator is at most its
positive radicand lies in `[-1, 1]`, and it is `-1` exactly when the numerator is
negative and its square is the radicand. -/
theorem Score.value_range (s : Score) (hd : 0 < s.den2) (hs : s.num ^ 2 ≤ (s.den2 : Int)) :
    (-1 ≤ (s.num : ℝ) / Real.sqrt (s.den2 : ℝ) ∧ (s.num : ℝ) / Real.sqrt (s.den2 : ℝ) ≤ 1) ∧
    ((s.num : ℝ) / Real.sqrt (s.den2 : ℝ) = -1 ↔ (s.num < 0 ∧ s.num ^ 2 = (s.den2 : Int))) := by
  have hd' : (0 : ℝ) < (s.den2 : ℝ) := by exact_mod_cast hd
  have hq : (0 : ℝ) < Real.sqrt (s.den2 : ℝ) := Real.sqrt_pos.mpr hd'
  have hs' : (s.num : ℝ) ^ 2 ≤ (s.den2 : ℝ) := by exact_mod_cast hs
  have habs := abs_le.mp (Real.abs_le_sqrt hs')
  have hsq : Real.sqrt (s.den2 : ℝ) ^ 2 = (s.den2 : ℝ) := Real.sq_sqrt hd'.le
  refine ⟨⟨?_, ?_⟩, ?_⟩
  · rw [le_div_iff₀ hq]; linarith [habs.1]
  · rw [div_le_one hq]; exact habs.2
  · constructor
    · intro h
      rw [div_eq_iff hq.ne'] at h
      have h1 : (s.num : ℝ) < 0 := by rw [h]; linarith
      have h2 : (s.num : ℝ) ^ 2 = (s.den2 : ℝ) := by rw [h]; nlinarith
      exact ⟨by exact_mod_cast h1, by exact_mod_cast h2⟩
    · rintro ⟨h1, h2⟩
      have h1' : (s.num : ℝ) < 0 := by exact_mod_cast h1
      have h2' : (s.num : ℝ) ^ 2 = (s.den2 : ℝ) := by exact_mod_cast h2
      rw [div_eq_iff hq.ne']
      have h3 : (Real.sqrt (s.den2 : ℝ) + (s.num : ℝ)) * (Real.sqrt (s.den2 : ℝ) - (s.num : ℝ))
          = 0 := by
        ring_nf
        rw [hsq, h2']
        ring
      rcases mul_eq_zero.mp h3 with h4 | h4
      · linarith
      · linarith

set_option maxRecDepth 100000 in
/-- C24 as stated fails on the 25-point windows `x = 10000, ...` and
`y = -10001, -10000, ...`.  The samples are 16-bit and the windows are not
anti-proportional, so the exact score is above `-1` (`num ^ 2 < den2`); but the
`float` returned is exactly `-1`, the test `R > Rm` against the sentinel fails,
and a search whose first candidate `k = -12` sees these windows returns the
default lag `0`, not the first evaluated candidate. -/
theorem C24_first_candidate_not_selected :
    (∀ j : Nat, j < 25 → (-32768 : Int) ≤ (if j = 0 then -10001 else -10000) ∧
      (if j = 0 then (-10001 : Int) else -10000) ≤ 32767) ∧
    (SOLA_CrossCorrelation (fun _ => 10000) (fun j => if j = 0 then -10001 else -10000) 25).num ^ 2
      < ((SOLA_CrossCorrelation (fun _ => 10000)
          (fun j => if j = 0 then -10001 else -10000) 25).den2 : Int) ∧
    (¬ ∃ a b : Int, 0 < a ∧ 0 < b ∧ ∀ j : Nat, j < 25 →
      a * (fun _ => (10000 : Int)) j = -(b * (fun j : Nat => if j = 0 then (-10001 : Int) else -10000) j)) ∧
    (SOLA_CrossCorrelation (fun _ => 10000)
      (fun j => if j = 0 then -10001 else -10000) 25).toFloat = -1 ∧
    floatCorrelator.gt
      (floatCorrelator.corr (fun _ => 10000) (fun j => if j = 0 then -10001 else -10000) 25)
      floatCorrelator.sentinel = false ∧
    (findLagScan 25 65536 (firstLag 25 12 1) (firstPoints 25 25 12 1 (firstLag 25 12 1))).head?
      = some ((-12 : Int), 25) ∧
    SOLA_FindLag floatCorrelator 25 25 (fun _ => 10000)
      (fun i => if i = 0 then -10001 else -10000) 12 12 1 = 0 := by
  refine ⟨by decide, by decide!, ?_, by decide!, by decide!, by decide!, by decide!⟩
  rintro ⟨a, b, _, hb, h⟩
  have h0 := h 0 (by norm_num)
  have h1 := h 1 (by norm_num)
  simp only [if_true, one_ne_zero, if_false] at h0 h1
  omega

/-- C24, amended: for all windows and every length `L`, the exact value
`num / sqrt den2` of the score lies in `[-1, 1]` and is `-1` only when the two
windows are anti-proportional (`a * x[j] = -(b * y[j])` for positive `a`, `b`).
The `float` that `SOLA_CrossCorrelation` returns also lies in `[-1, 1]`, hence the
sentinel `Rm = -1` is never above a candidate's score, and the test `R > Rm` of
the first evaluated candidate succeeds unless the `float` returned is exactly
`-1`. -/
theorem C24_score_range (x y : Nat → Int) (L : Nat) :
    (-1 ≤ ((SOLA_CrossCorrelation x y L).num : ℝ)
          / Real.sqrt ((SOLA_CrossCorrelation x y L).den2 : ℝ) ∧
      ((SOLA_CrossCorrelation x y L).num : ℝ)
          / Real.sqrt ((SOLA_CrossCorrelation x y L).den2 : ℝ) ≤ 1) ∧
    (((SOLA_CrossCorrelation x y L).num : ℝ)
          / Real.sqrt ((SOLA_CrossCorrelation x y L).den2 : ℝ) = -1 →
      ∃ a b : Int, 0 < a ∧ 0 < b ∧ ∀ j : Nat, j < L → a * x j = -(b * y j)) ∧
    (-1 ≤ (SOLA_CrossCorrelation x y L).toFloat ∧ (SOLA_CrossCorrelation x y L).toFloat ≤ 1) ∧
    floatCorrelator.gt floatCorrelator.sentinel (floatCorrelator.corr x y L) = false ∧
    (floatCorrelator.gt (floatCorrelator.corr x y L) floatCorrelator.sentinel = true ∨
      (SOLA_CrossCorrelation x y L).toFloat = -1) := by
  have hd := SOLA_CrossCorrelation_den_pos x y L
  have hs := SOLA_CrossCorrelation_sq_le x y L
  obtain ⟨hr, hiff⟩ := Score.value_range _ hd hs
  obtain ⟨f1, f2⟩ := Score.toFloat_range _ hd hs
  refine ⟨hr, ?_, ⟨f1, f2⟩, ?_, ?_⟩
  · intro h
    obtain ⟨h1, h2⟩ := hiff.mp h
    exact SOLA_CrossCorrelation_anti x y L h1 h2
  · apply Bool.eq_false_iff.mpr
    intro hc
    have hc' := (floatCorrelator_gt _ _).mp hc
    exact absurd f1 (not_le.mpr hc')
  · rcases lt_or_eq_of_le f1 with h | h
    · exact Or.inl ((floatCorrelator_gt _ _).mpr h)
    · exact Or.inr h.symm

end Sola
